import Mathlib

/-!
# GPS2NED: sexagesimal parsing, the geodetic to North-East-Down transform, and `roundTo6`

A shallow embedding of `src/GPS2NED/GPS2NED.cpp`.

* A `std::string` is a `List Char`, one element per `char`.
* A `double` is the number it denotes.  `Dbl` adds the one value numbers
  lack, a non-finite result (an infinity or a NaN), which `std::stod` can
  return.
* A C++ exception is the `Except.error` branch.
* A stream insertion of a `double` is the text that `%g` prints.
* The arithmetic of `str2LatLon` and `GPS2NED` is embedded twice.
  `str2LatLon` and `GPS2NED` compute without rounding, with `sin`, `cos` and
  `sqrt` handed over as a record `Libm` that the theorems instantiate with
  the real functions: this is the program up to rounding, and it is what the
  claims on formulas, parsing and defects are stated on.  `str2LatLonF` and
  `GPS2NEDF` round every operation to the nearest `double`, with the library
  handed over as a record `LibmF`: this is what the claims on order, sign and
  closeness are stated on.  `GPS2NEDF_near` bounds the distance between the
  two results.
-/

namespace Gps2Ned

/-! ## Library layer: `std::string::substr` and `std::stod` -/

/-- The two exceptions the library calls of `str2LatLon` and `roundTo6` can raise. -/
inductive Exn where
  | out_of_range
  | invalid_argument
  deriving DecidableEq, Repr

deriving instance DecidableEq for Except

/-- A `double` in exact arithmetic: a finite value, or a non-finite one
(an infinity or a NaN). -/
inductive Dbl where
  | fin (q : ℚ)
  | nonfinite
  deriving DecidableEq

/-- Addition of doubles: a non-finite operand gives a non-finite sum. -/
def Dbl.add : Dbl → Dbl → Dbl
  | .fin x, .fin y => .fin (x + y)
  | _, _ => .nonfinite

/-- Division of a double by a finite non-zero constant (`/ 60.0`, `/ 3600.0`). -/
def Dbl.div : Dbl → ℚ → Dbl
  | .fin x, c => .fin (x / c)
  | .nonfinite, _ => .nonfinite

/-- `s.substr(pos, len)`: throws `std::out_of_range` when `pos > s.size()`,
otherwise the characters from `pos` on, at most `len` of them. -/
def substr (s : List Char) (pos len : Nat) : Except Exn (List Char) :=
  if pos > s.length then .error .out_of_range else .ok ((s.drop pos).take len)

/-- `isspace` in the C locale. -/
def isSpace (c : Char) : Bool :=
  c == ' ' || c == '\t' || c == '\n' || c == '\x0b' || c == '\x0c' || c == '\r'

/-- Value of a decimal digit. -/
def digitVal (c : Char) : Option Nat :=
  if 48 ≤ c.toNat ∧ c.toNat ≤ 57 then some (c.toNat - 48) else none

/-- The character of a decimal digit. -/
def digitChar (d : Fin 10) : Char := Char.ofNat (48 + d.val)

/-- Value of a hexadecimal digit. -/
def hexVal (c : Char) : Option Nat :=
  if 48 ≤ c.toNat ∧ c.toNat ≤ 57 then some (c.toNat - 48)
  else if 97 ≤ c.toNat ∧ c.toNat ≤ 102 then some (c.toNat - 87)
  else if 65 ≤ c.toNat ∧ c.toNat ≤ 70 then some (c.toNat - 55)
  else none

/-- The longest run of digits at the head of a text, read in `base` onto the
number `acc`: the number, how many digits were read (added to `n`), the rest. -/
def readDigits (dv : Char → Option Nat) (base : Nat) :
    List Char → Nat → Nat → Nat × Nat × List Char
  | [], acc, n => (acc, n, [])
  | c :: cs, acc, n =>
    match dv c with
    | some d => readDigits dv base cs (acc * base + d) (n + 1)
    | none => (acc, n, c :: cs)

/-- A mantissa: digits, optionally a radix point, digits.  Gives the digits
read as one number, how many there are, how many follow the point, the rest. -/
def readMantissa (dv : Char → Option Nat) (base : Nat) (s : List Char) :
    Nat × Nat × Nat × List Char :=
  match readDigits dv base s 0 0 with
  | (ip, n1, []) => (ip, n1, 0, [])
  | (ip, n1, c :: t) =>
    if c = '.' then
      match readDigits dv base t ip 0 with
      | (mant, n2, r) => (mant, n1 + n2, n2, r)
    else (ip, n1, 0, c :: t)

/-- An optional sign at the head of the text: whether it is a minus, the rest. -/
def readSign : List Char → Bool × List Char
  | [] => (false, [])
  | c :: r => if c = '-' then (true, r) else if c = '+' then (false, r) else (false, c :: r)

/-- An exponent part: the marker, an optional sign, at least one decimal
digit.  Without the marker or without a digit there is no exponent part. -/
def readExponent (marker : Char → Bool) : List Char → Int
  | [] => 0
  | c :: t =>
    if marker c then
      match readSign t with
      | (neg, u) =>
        match readDigits digitVal 10 u 0 0 with
        | (e, n, _) => if n = 0 then 0 else if neg then -(e : Int) else (e : Int)
    else 0

/-- The number `mant * base ^ k` for an integer `k`. -/
def scale (base : Nat) (k : Int) (mant : Nat) : ℚ :=
  if 0 ≤ k then (mant : ℚ) * (base : ℚ) ^ k.toNat else (mant : ℚ) / (base : ℚ) ^ (-k).toNat

/-- A decimal floating constant at the head of the text, if there is one. -/
def readDecimal (s : List Char) : Option ℚ :=
  match readMantissa digitVal 10 s with
  | (mant, n, nfrac, r) =>
    if n = 0 then none
    else some (scale 10 (readExponent (fun c => c == 'e' || c == 'E') r - (nfrac : Int)) mant)

/-- A hexadecimal floating constant (`0x` or `0X`, hexadecimal mantissa,
optional binary exponent after `p` or `P`) at the head of the text, if there
is one. -/
def readHex : List Char → Option ℚ
  | z :: x :: r =>
    if z = '0' ∧ (x = 'x' ∨ x = 'X') then
      match readMantissa hexVal 16 r with
      | (mant, n, nfrac, r2) =>
        if n = 0 then none
        else some (scale 2 (readExponent (fun c => c == 'p' || c == 'P') r2 - 4 * (nfrac : Int)) mant)
    else none
  | _ => none

/-- Whether the text starts with the (lower-case) word `w`, letter case ignored. -/
def startsNoCase : List Char → List Char → Bool
  | [], _ => true
  | _ :: _, [] => false
  | w :: ws, c :: cs => (c.toLower == w) && startsNoCase ws cs

/-- The unsigned number at the head of the text, as `strtod` accepts it:
`inf`, `infinity` or `nan` (any letter case), a hexadecimal constant, or a
decimal constant.  `none` when no conversion can be performed. -/
def readNumber (s : List Char) : Option Dbl :=
  if startsNoCase ['i', 'n', 'f'] s || startsNoCase ['n', 'a', 'n'] s then some .nonfinite
  else
    match readHex s with
    | some q => some (.fin q)
    | none => (readDecimal s).map Dbl.fin

/-- A finite magnitude that rounds to an infinite `double` (at or beyond the
midpoint between the largest finite `double` and `2 ^ 1024`). -/
def overflows (q : ℚ) : Bool := decide ((2 : ℚ) ^ 1024 - (2 : ℚ) ^ 970 ≤ q)

/-- A non-zero magnitude for which `strtod` reports an underflow, by the rule
of the GNU C library: it is tiny (it stays below `2 ^ (-1022)` when rounded to
53 bits, that is, it is below `2 ^ (-1022) - 2 ^ (-1076)`) and it is not a
`double` exactly (not a multiple of `2 ^ (-1074)`). -/
def underflows (q : ℚ) : Bool :=
  decide (q ≠ 0 ∧ q < 1 / (2 : ℚ) ^ 1022 - 1 / (2 : ℚ) ^ 1076 ∧ (q * (2 : ℚ) ^ 1074).den ≠ 1)

/-- `std::stod(s)` with no position argument: skips white space, reads an
optional sign and the longest number at the head of the text.  Throws
`std::invalid_argument` when there is no number, `std::out_of_range` when
`strtod` reports `ERANGE` (the magnitude overflows or underflows). -/
def stod (s : List Char) : Except Exn Dbl :=
  match readSign (s.dropWhile isSpace) with
  | (neg, u) =>
    match readNumber u with
    | none => .error .invalid_argument
    | some .nonfinite => .ok .nonfinite
    | some (.fin q) =>
      if overflows q || underflows q then .error .out_of_range
      else .ok (.fin (if neg then -q else q))

/-! ## The program -/

/-- `struct LatLon`. -/
structure LatLon where
  LAT : Dbl
  LON : Dbl
  deriving DecidableEq

/-- `struct NED`, over the number type `K`. -/
structure NED (K : Type) where
  N : K
  E : K
  D : K
  deriving DecidableEq

/-- `str2LatLon` (lines 90-96): fixed-offset fields read with `substr` and
`stod`.  The operands of each sum are evaluated left to right here; C++ leaves
their order open, which only decides which exception is seen when several
fields fail. -/
def str2LatLon (lat lon : List Char) : Except Exn LatLon := do
  let latD ← substr lat 1 2 >>= stod
  let latM ← substr lat 4 2 >>= stod
  let latS ← substr lat 7 5 >>= stod
  let lonD ← substr lon 2 3 >>= stod
  let lonM ← substr lon 5 2 >>= stod
  let lonS ← substr lon 8 5 >>= stod
  return { LAT := (latD.add (latM.div 60.0)).add (latS.div 3600.0),
           LON := (lonD.add (lonM.div 60.0)).add (lonS.div 3600.0) }

/-- The built-in reference latitude (line 19). -/
def rPhi : List Char := "N41-50-5.778".toList

/-- The built-in reference longitude (line 20). -/
def rLam : List Char := "W111-54-34.854".toList

/-- The built-in reference altitude (line 21). -/
def rH {K : Type} [Field K] : K := 1410.102336

/-! ### `roundTo6` -/

/-- The integer nearest to a non-negative number, a tie going to the even one
(how the C library rounds the digits it prints). -/
def roundHalfEven (t : ℚ) : ℕ :=
  if t - (⌊t⌋₊ : ℚ) < 1 / 2 then ⌊t⌋₊
  else if 1 / 2 < t - (⌊t⌋₊ : ℚ) then ⌊t⌋₊ + 1
  else if ⌊t⌋₊ % 2 = 0 then ⌊t⌋₊ else ⌊t⌋₊ + 1

/-- How often `n` can be divided by 10 before it is below 10: the number of
its decimal digits less one.  The first argument bounds the steps. -/
def decLogAux : Nat → Nat → Nat
  | 0, _ => 0
  | fuel + 1, n => if n < 10 then 0 else decLogAux fuel (n / 10) + 1

/-- The least `k` with `n ≤ 10 ^ k`.  The first argument bounds the steps. -/
def decCLogAux : Nat → Nat → Nat
  | 0, _ => 0
  | fuel + 1, n => if n ≤ 1 then 0 else decCLogAux fuel ((n + 9) / 10) + 1

/-- The decimal exponent of a positive number `m`: the `e` with
`10 ^ e ≤ m < 10 ^ (e + 1)`. -/
def decExp (m : ℚ) : ℤ :=
  if 1 ≤ m then (decLogAux ⌊m⌋₊ ⌊m⌋₊ : ℤ) else -(decCLogAux ⌈m⁻¹⌉₊ ⌈m⁻¹⌉₊ : ℤ)

/-- The six significant digits `n` and the decimal exponent `X` of a positive
number as the `%e` conversion with precision 5 finds them: the number rounds
to `n * 10 ^ (X - 5)` with `100000 ≤ n < 1000000`. -/
def sigDigits (m : ℚ) : ℕ × ℤ :=
  if roundHalfEven (m / (10 : ℚ) ^ (decExp m - 5)) = 1000000 then (100000, decExp m + 1)
  else (roundHalfEven (m / (10 : ℚ) ^ (decExp m - 5)), decExp m)

/-- The `k` low decimal digits of `n`, the most significant first. -/
def digitsOf : Nat → Nat → List (Fin 10)
  | 0, _ => []
  | k + 1, n => digitsOf k (n / 10) ++ [⟨n % 10, Nat.mod_lt n (by decide)⟩]

/-- A digit string without its trailing zeros. -/
def stripZeros : List (Fin 10) → List (Fin 10)
  | [] => []
  | d :: ds =>
    match stripZeros ds with
    | [] => if d = 0 then [] else [d]
    | r => d :: r

/-- The fraction of a printed number: nothing when no digit is left, else the
point and the digits. -/
def fracText (post : List (Fin 10)) : List Char :=
  if post = [] then [] else '.' :: post.map digitChar

/-- The exponent of the `%e` style: `e`, a sign, at least two digits. -/
def expText (X : ℤ) : List Char :=
  'e' :: (if X < 0 then '-' else '+')
    :: (digitsOf (max 2 (decLogAux X.natAbs X.natAbs + 1)) X.natAbs).map digitChar

/-- The magnitude part of `%g` with precision 6, from the six digits `n` and
the exponent `X`: the `%e` style when `X < -4` or `X ≥ 6`, else the `%f` style
with `5 - X` decimals; trailing zeros of the fraction are removed, and the
point with them when no fraction is left. -/
def gText (n : ℕ) (X : ℤ) : List Char :=
  if X < -4 ∨ 6 ≤ X then
    ((digitsOf 6 n).take 1).map digitChar ++ fracText (stripZeros ((digitsOf 6 n).drop 1))
      ++ expText X
  else if 0 ≤ X then
    ((digitsOf 6 n).take (X.toNat + 1)).map digitChar
      ++ fracText (stripZeros ((digitsOf 6 n).drop (X.toNat + 1)))
  else
    '0' :: fracText (stripZeros (List.replicate (X.natAbs - 1) 0 ++ digitsOf 6 n))

/-- `tmp << std::setprecision(6) << in` for a finite `in` (lines 68-69): the
stream is in its default float format, which prints as `%g` does. -/
def formatG6 (x : ℚ) : List Char :=
  if x = 0 then ['0']
  else (if x < 0 then ['-'] else []) ++ gText (sigDigits |x|).1 (sigDigits |x|).2

/-- `roundTo6` (lines 66-72): print with six significant digits, read the text
back with `stod`.  A non-finite `in` is printed as `inf` or `nan`, with a sign
or without, and each of these is read back as a non-finite value. -/
def roundTo6 : Dbl → Except Exn Dbl
  | .fin x => stod (formatG6 x)
  | .nonfinite => stod ['i', 'n', 'f']

/-- The number that six digits `n` and a decimal exponent `X` denote. -/
def sigValue (p : ℕ × ℤ) : ℚ := (p.1 : ℚ) * (10 : ℚ) ^ (p.2 - 5)

/-- A positive number rounded to six significant digits. -/
def round6 (m : ℚ) : ℚ := sigValue (sigDigits m)

/-- The number a digit string denotes. -/
def digitsVal (ds : List (Fin 10)) : ℕ := ds.foldl (fun a d => a * 10 + d.val) 0

/-- The functions of `<cmath>` that `GPS2NED` calls. -/
structure Libm (K : Type) where
  sin : K → K
  cos : K → K
  sqrt : K → K

/-- `GPS2NED` (lines 98-143), computed without rounding and without overflow.
The statics `rPhi`, `rLam` and `rH` that the function reads are its first
arguments after the library.  An exception of `str2LatLon` passes through.
When the parsed reference latitude or longitude is not finite every component
of the result is a NaN: that result is `none`.  The same function with every
operation rounded to a `double` is `GPS2NEDF`. -/
def GPS2NED {K : Type} [Field K] (m : Libm K) (rPhi rLam : List Char) (rH : K)
    (phi lambda h : K) : Except Exn (Option (NED K)) :=
  let piD180 : K := 3.1415926535897932 / 180.0
  let a : K := 6378137.0
  let b : K := 6356752.3142
  let e2 : K := 1 - (b / a) ^ 2
  match str2LatLon rPhi rLam with
  | .error e => .error e
  | .ok ref =>
    match ref.LAT, ref.LON with
    | .fin refLAT, .fin refLON =>
      let rPhiRad : K := (refLAT : K) * piD180
      let rLamRad : K := (refLON : K) * piD180
      let rHRad : K := rH * piD180
      let chi : K := m.sqrt (1 - e2 * m.sin rPhiRad * m.sin rPhiRad)
      let xr : K := (a / chi + rHRad) * m.cos rPhiRad * m.cos rLamRad
      let yr : K := (a / chi + rHRad) * m.cos rPhiRad * m.sin rLamRad
      let zr : K := (a * (1 - e2) / chi + rHRad) * m.sin rPhiRad
      let phi : K := phi * piD180
      let lambda : K := lambda * piD180
      let x : K := (a / chi + h) * m.cos phi * m.cos lambda
      let y : K := (a / chi + h) * m.cos phi * m.sin lambda
      let z : K := (a * (1 - e2) / chi + h) * m.sin phi
      let dx : K := x - xr
      let dy : K := y - yr
      let dz : K := z - zr
      .ok (some
        { N := (-m.sin rPhiRad * m.cos rLamRad * dx) + (-m.sin rPhiRad * m.sin rLamRad * dy)
                + m.cos rPhiRad * dz,
          E := (m.sin rLamRad * dx) - (m.cos rLamRad * dy),
          D := (-m.cos rPhiRad * m.cos rLamRad * dx) + (-m.cos rPhiRad * m.sin rLamRad * dy)
                + (-m.sin rPhiRad * dz) })
    | _, _ => .ok none

/-! ### The transform in `double` arithmetic

A second embedding of `str2LatLon` and `GPS2NED`, in which every arithmetic
operation rounds its exact result to the nearest `double` (IEEE 754 binary64,
ties to even, one rounding for each operation, no fused multiply-add).  A
`double` is the rational number it denotes; the two zeros are one number.
A value is `none` when it is not finite or not determined; an operation on
`none` gives `none`.  The functions of `<cmath>` are an argument, `LibmF`. -/

/-- How often `n` can be halved before it is below 2.  The first argument
bounds the steps. -/
def binLogAux : Nat → Nat → Nat
  | 0, _ => 0
  | fuel + 1, n => if n < 2 then 0 else binLogAux fuel (n / 2) + 1

/-- The least `k` with `n ≤ 2 ^ k`.  The first argument bounds the steps. -/
def binCLogAux : Nat → Nat → Nat
  | 0, _ => 0
  | fuel + 1, n => if n ≤ 1 then 0 else binCLogAux fuel ((n + 1) / 2) + 1

/-- The binary exponent of a positive number `m`: the `e` with
`2 ^ e ≤ m < 2 ^ (e + 1)`. -/
def binExp (m : ℚ) : ℤ :=
  if 1 ≤ m then (binLogAux ⌊m⌋₊ ⌊m⌋₊ : ℤ) else -(binCLogAux ⌈m⁻¹⌉₊ ⌈m⁻¹⌉₊ : ℤ)

/-- The `double` nearest to a number, a tie going to the even significand:
53 significant bits, exponent not below `-1022` (below it the numbers are
the multiples of `2 ^ (-1074)`); `none` when the result is infinite. -/
def fl (q : ℚ) : Option ℚ :=
  if q = 0 then some 0
  else
    if (2 : ℚ) ^ 1024
        ≤ (roundHalfEven (|q| / (2 : ℚ) ^ (max (binExp |q|) (-1022) - 52)) : ℚ)
            * (2 : ℚ) ^ (max (binExp |q|) (-1022) - 52) then none
    else
      some ((if q < 0 then -1 else 1)
        * ((roundHalfEven (|q| / (2 : ℚ) ^ (max (binExp |q|) (-1022) - 52)) : ℚ)
            * (2 : ℚ) ^ (max (binExp |q|) (-1022) - 52)))

/-- `x + y` in `double`. -/
def fadd : Option ℚ → Option ℚ → Option ℚ
  | some x, some y => fl (x + y)
  | _, _ => none

/-- `x - y` in `double`. -/
def fsub : Option ℚ → Option ℚ → Option ℚ
  | some x, some y => fl (x - y)
  | _, _ => none

/-- `x * y` in `double`. -/
def fmul : Option ℚ → Option ℚ → Option ℚ
  | some x, some y => fl (x * y)
  | _, _ => none

/-- `x / y` in `double`; a division by zero gives no finite value. -/
def fdiv : Option ℚ → Option ℚ → Option ℚ
  | some x, some y => if y = 0 then none else fl (x / y)
  | _, _ => none

/-- `-x` in `double`. -/
def fneg : Option ℚ → Option ℚ
  | some x => some (-x)
  | none => none

/-- The functions of `<cmath>` that `GPS2NED` calls, on `double`s: `sin`,
`cos`, `sqrt`, and `pow` with the exponent 2.  A result is `none` when it is
not finite or not determined. -/
structure LibmF where
  sin : ℚ → Option ℚ
  cos : ℚ → Option ℚ
  sqrt : ℚ → Option ℚ
  pow2 : ℚ → Option ℚ

/-- A library with the values that do not depend on the implementation:
`sin(0) = 0`, `cos(0) = 1`, `sqrt(0) = 0` and `sqrt(1) = 1` (Annex F of the C
standard; `sqrt` is correctly rounded).  `pow(x, 2)` is taken as the rounded
square `x * x`.  Every other call of `sin`, `cos` and `sqrt` is left
undetermined. -/
def annexF : LibmF where
  sin x := if x = 0 then some 0 else none
  cos x := if x = 0 then some 1 else none
  sqrt x := if x = 0 then some 0 else if x = 1 then some 1 else none
  pow2 x := fl (x * x)

/-- A library that, besides the values of `annexF`, returns at the quarter
turn `90 * piD180` (the `double` `884279719003555 / 2 ^ 49`) the `double`s
nearest to the exact sine and cosine there: `1` and
`4967757600021511 / 2 ^ 106`, about `6.1e-17`. -/
def quarterF : LibmF where
  sin x := if x = 0 then some 0 else if x = 884279719003555 / 562949953421312 then some 1 else none
  cos x := if x = 0 then some 1
    else if x = 884279719003555 / 562949953421312
      then some (4967757600021511 / 81129638414606681695789005144064) else none
  sqrt x := if x = 0 then some 0 else if x = 1 then some 1 else none
  pow2 x := fl (x * x)

/-- A `double` read by `stod` or produced by an operation, rounded. -/
def Dbl.round : Dbl → Dbl
  | .fin q =>
    match fl q with
    | some r => .fin r
    | none => .nonfinite
  | .nonfinite => .nonfinite

/-- The finite value of a `double`, if it has one. -/
def Dbl.finite : Dbl → Option ℚ
  | .fin q => some q
  | .nonfinite => none

/-- `str2LatLon` (lines 90-96) in `double` arithmetic. -/
def str2LatLonF (lat lon : List Char) : Except Exn LatLon := do
  let latD ← substr lat 1 2 >>= stod
  let latM ← substr lat 4 2 >>= stod
  let latS ← substr lat 7 5 >>= stod
  let lonD ← substr lon 2 3 >>= stod
  let lonM ← substr lon 5 2 >>= stod
  let lonS ← substr lon 8 5 >>= stod
  return { LAT := ((latD.round.add (latM.round.div 60.0).round).round.add
                    (latS.round.div 3600.0).round).round,
           LON := ((lonD.round.add (lonM.round.div 60.0).round).round.add
                    (lonS.round.div 3600.0).round).round }

/-- `GPS2NED` (lines 98-143) in `double` arithmetic, operation by operation in
the order of the source.  A component of the result is `none` when it is not
finite or not determined. -/
def GPS2NEDF (m : LibmF) (rPhi rLam : List Char) (rH phi lambda h : ℚ) :
    Except Exn (NED (Option ℚ)) :=
  let piD180 := fdiv (fl 3.1415926535897932) (fl 180.0)
  let a := fl 6378137.0
  let b := fl 6356752.3142
  let e2 := fsub (some 1) ((fdiv b a).bind m.pow2)
  match str2LatLonF rPhi rLam with
  | .error e => .error e
  | .ok ref =>
    let rPhiRad := fmul ref.LAT.finite piD180
    let rLamRad := fmul ref.LON.finite piD180
    let rHRad := fmul (some rH) piD180
    let chi := (fsub (some 1) (fmul (fmul e2 (rPhiRad.bind m.sin)) (rPhiRad.bind m.sin))).bind
      m.sqrt
    let xr := fmul (fmul (fadd (fdiv a chi) rHRad) (rPhiRad.bind m.cos)) (rLamRad.bind m.cos)
    let yr := fmul (fmul (fadd (fdiv a chi) rHRad) (rPhiRad.bind m.cos)) (rLamRad.bind m.sin)
    let zr := fmul (fadd (fdiv (fmul a (fsub (some 1) e2)) chi) rHRad) (rPhiRad.bind m.sin)
    let phi := fmul (some phi) piD180
    let lambda := fmul (some lambda) piD180
    let x := fmul (fmul (fadd (fdiv a chi) (some h)) (phi.bind m.cos)) (lambda.bind m.cos)
    let y := fmul (fmul (fadd (fdiv a chi) (some h)) (phi.bind m.cos)) (lambda.bind m.sin)
    let z := fmul (fadd (fdiv (fmul a (fsub (some 1) e2)) chi) (some h)) (phi.bind m.sin)
    let dx := fsub x xr
    let dy := fsub y yr
    let dz := fsub z zr
    .ok { N := fadd (fadd (fmul (fmul (fneg (rPhiRad.bind m.sin)) (rLamRad.bind m.cos)) dx)
                          (fmul (fmul (fneg (rPhiRad.bind m.sin)) (rLamRad.bind m.sin)) dy))
                    (fmul (rPhiRad.bind m.cos) dz),
          E := fsub (fmul (rLamRad.bind m.sin) dx) (fmul (rLamRad.bind m.cos) dy),
          D := fadd (fadd (fmul (fmul (fneg (rPhiRad.bind m.cos)) (rLamRad.bind m.cos)) dx)
                          (fmul (fmul (fneg (rPhiRad.bind m.cos)) (rLamRad.bind m.sin)) dy))
                    (fmul (fneg (rPhiRad.bind m.sin)) dz) }

/-! ### How far the `double` result is from the exact one

The claims on `GPS2NEDF` assume of the library only that, at the arguments of
the call at hand, each function returns a value within `2 ^ (-52)` of the
exact one; the library of the GNU C library documents errors of at most one
unit in the last place for `sin`, `cos` and `pow`, and `sqrt` is correctly
rounded. -/

/-- The library function `f`, at the `double` `t`, returns a value within
`2 ^ (-52)` of the real function `g`. -/
def accurate (f : ℚ → Option ℚ) (g : ℝ → ℝ) (t : ℚ) : Prop :=
  ∃ r : ℚ, f t = some r ∧ |(r : ℝ) - g (t : ℝ)| ≤ 1 / 2 ^ 52

/-- An angle in degrees times `piD180`, in `double` arithmetic (lines 113,
114, 124, 125). -/
def radF (deg : ℚ) : Option ℚ :=
  fmul (some deg) (fdiv (fl 3.1415926535897932) (fl 180.0))

/-- The argument of `sqrt` on line 118, in `double` arithmetic. -/
def chiArgF (m : LibmF) (latF : ℚ) : Option ℚ :=
  fsub (some 1)
    (fmul (fmul (fsub (some 1) ((fdiv (fl 6356752.3142) (fl 6378137.0)).bind m.pow2))
      ((radF latF).bind m.sin)) ((radF latF).bind m.sin))

/-- The library is accurate at the arguments that one call of `GPS2NED`
passes to it: `sin` and `cos` at the four angles, `pow` at `b / a`, and
`sqrt` at its argument on line 118. -/
def LibmF.accurateAt (m : LibmF) (latF lonF phi lambda : ℚ) : Prop :=
  (∀ d ∈ [latF, lonF, phi, lambda], ∀ t, radF d = some t →
      accurate m.sin Real.sin t ∧ accurate m.cos Real.cos t)
    ∧ (∀ t, fdiv (fl 6356752.3142) (fl 6378137.0) = some t → accurate m.pow2 (fun x => x ^ 2) t)
    ∧ (∀ t, chiArgF m latF = some t → accurate m.sqrt Real.sqrt t)

/-- A `double` result `v` that is determined, within `e` of the real number
`x`, and of size at most `b`. -/
def Near (v : Option ℚ) (x e b : ℝ) : Prop :=
  ∃ r : ℚ, v = some r ∧ |(r : ℝ) - x| ≤ e ∧ |(r : ℝ)| ≤ b

/-! ## The transform as the specification words it -/

/-- The degrees-to-radians factor of the program, `3.1415926535897932 / 180`. -/
def piD180 {K : Type} [Field K] : K := 3.1415926535897932 / 180.0

/-- Semi-major axis of the ellipsoid. -/
def semiMajor {K : Type} [Field K] : K := 6378137.0

/-- Semi-minor axis of the ellipsoid. -/
def semiMinor {K : Type} [Field K] : K := 6356752.3142

/-- Eccentricity squared, `e2 = 1 - (b/a)²`. -/
def ecc2 {K : Type} [Field K] : K := 1 - (semiMinor / semiMajor) ^ 2

/-- Step 3: `χ = sqrt(1 − e2·sin²(latitude))`. -/
def chiAt {K : Type} [Field K] (m : Libm K) (lat : K) : K :=
  m.sqrt (1 - ecc2 * (m.sin lat) ^ 2)

/-- Steps 4 and 6: the ECEF point of a latitude, longitude (radians) and
altitude, for a given `χ`. -/
def ecef {K : Type} [Field K] (m : Libm K) (chi lat lon alt : K) : K × K × K :=
  ((semiMajor / chi + alt) * m.cos lat * m.cos lon,
   (semiMajor / chi + alt) * m.cos lat * m.sin lon,
   (semiMajor * (1 - ecc2) / chi + alt) * m.sin lat)

/-- Step 8: the rotation of an ECEF difference into the tangent plane at the
reference latitude and longitude. -/
def rotate {K : Type} [Field K] (m : Libm K) (latRef lonRef dx dy dz : K) : NED K :=
  { N := -(m.sin latRef) * m.cos lonRef * dx - m.sin latRef * m.sin lonRef * dy
          + m.cos latRef * dz,
    E := m.sin lonRef * dx - m.cos lonRef * dy,
    D := -(m.cos latRef) * m.cos lonRef * dx - m.cos latRef * m.sin lonRef * dy
          - m.sin latRef * dz }

/-- Steps 3 to 8 for a reference point and a target, angles in radians, each
with the altitude that enters its ECEF formulas; `χ` is taken at the
reference latitude for both points. -/
def nedFormulas {K : Type} [Field K] (m : Libm K)
    (latRef lonRef altRef lat lon alt : K) : NED K :=
  let chi := chiAt m latRef
  let r := ecef m chi latRef lonRef altRef
  let t := ecef m chi lat lon alt
  rotate m latRef lonRef (t.1 - r.1) (t.2.1 - r.2.1) (t.2.2 - r.2.2)

/-! ## Texts of the fixed form -/

/-- The number written by two decimal digits. -/
def twoDigits (a b : Fin 10) : ℚ := ((10 * a.val + b.val : ℕ) : ℚ)

/-- A latitude text of the fixed form: hemisphere character, `DD`, `-`, `MM`,
`-`, `SS.ss`. -/
def latText (hemi : Char) (D1 D2 M1 M2 S1 S2 s1 s2 : Fin 10) : List Char :=
  [hemi, digitChar D1, digitChar D2, '-', digitChar M1, digitChar M2, '-',
   digitChar S1, digitChar S2, '.', digitChar s1, digitChar s2]

/-- A longitude text of the fixed form: hemisphere character, `DDD`, `-`,
`MM`, `-`, `SS.ss`. -/
def lonText (hemi : Char) (D1 D2 D3 M1 M2 S1 S2 s1 s2 : Fin 10) : List Char :=
  [hemi, digitChar D1, digitChar D2, digitChar D3, '-', digitChar M1, digitChar M2, '-',
   digitChar S1, digitChar S2, '.', digitChar s1, digitChar s2]

/-- Whether a number can start the text, as the fixed form expects of a
field: after white space and an optional sign comes a digit, or a point and
then a digit, or `inf` or `nan` (any letter case). -/
def numericStart (s : List Char) : Bool :=
  match (readSign (s.dropWhile isSpace)).2 with
  | [] => false
  | c :: t =>
    (digitVal c).isSome
      || (c == '.' && (match t with
                       | d :: _ => (digitVal d).isSome
                       | [] => false))
      || startsNoCase ['i', 'n', 'f'] (c :: t) || startsNoCase ['n', 'a', 'n'] (c :: t)

/-- Whether the number that starts the text is outside the range of a
`double`, so that `strtod` reports `ERANGE`. -/
def outOfRange (s : List Char) : Bool :=
  match readNumber (readSign (s.dropWhile isSpace)).2 with
  | some (.fin q) => overflows q || underflows q
  | _ => false

/-- A field that `stod` cannot read: no number starts it, or the number that
starts it is outside the range of a `double`. -/
def unreadable (s : List Char) : Bool := !numericStart s || outOfRange s

/-- The latitude, in degrees, that `str2LatLon` reads from the built-in
reference: 41 degrees, 50 minutes, 5.778 seconds. -/
def refLat0 : ℚ := 41 + 50 / 60 + 5.778 / 3600

/-- The longitude, in degrees, that `str2LatLon` reads from the built-in
reference: 11 degrees, 54 minutes, 34.85 seconds. -/
def refLon0 : ℚ := 11 + 54 / 60 + 34.85 / 3600

/-- A reference latitude on the equator. -/
def equatorPhi : List Char := "N00-00-00.00".toList

/-- A reference longitude on the prime meridian. -/
def meridianLam : List Char := "E000-00-00.00".toList

/-! ## Lemmas on the library layer -/

theorem digitChar_facts (d : Fin 10) :
    isSpace (digitChar d) = false ∧ digitChar d ≠ '-' ∧ digitChar d ≠ '+' ∧
    digitChar d ≠ '.' ∧ (digitChar d).toLower ≠ 'i' ∧ (digitChar d).toLower ≠ 'n' ∧
    digitChar d ≠ 'x' ∧ digitChar d ≠ 'X' ∧ digitVal (digitChar d) = some d.val := by
  revert d; decide

theorem stod_two_digits (a b : Fin 10) :
    stod [digitChar a, digitChar b] = .ok (.fin (twoDigits a b)) := by
  revert a b; decide!

theorem stod_two_digits_dash (a b : Fin 10) :
    stod [digitChar a, digitChar b, '-'] = .ok (.fin (twoDigits a b)) := by
  revert a b; decide!

theorem readDigits_digit (d : Fin 10) (cs : List Char) (acc n : Nat) :
    readDigits digitVal 10 (digitChar d :: cs) acc n
      = readDigits digitVal 10 cs (acc * 10 + d.val) (n + 1) := by
  simp [readDigits, (digitChar_facts d).2.2.2.2.2.2.2.2]

theorem readDigits_stop (c : Char) (cs : List Char) (acc n : Nat) (hc : digitVal c = none) :
    readDigits digitVal 10 (c :: cs) acc n = (acc, n, c :: cs) := by
  simp [readDigits, hc]

theorem readDigits_nil (acc n : Nat) : readDigits digitVal 10 [] acc n = (acc, n, []) := by
  simp [readDigits]

theorem digitVal_dot : digitVal '.' = none := by decide

theorem digitVal_dash : digitVal '-' = none := by decide

theorem overflows_small (q : ℚ) (h : q < 1000000) : overflows q = false := by
  have hbig : (1000000 : ℚ) < (2 : ℚ) ^ 1024 - (2 : ℚ) ^ 970 := by norm_num
  simp only [overflows, decide_eq_false_iff_not, not_le]
  exact lt_trans h hbig

theorem underflows_large (q : ℚ) (h : q = 0 ∨ 1 / 1000000 ≤ q) : underflows q = false := by
  have hbig : 1 / (2 : ℚ) ^ 1022 - 1 / (2 : ℚ) ^ 1076 < 1 / 1000000 := by norm_num
  simp only [underflows, decide_eq_false_iff_not, not_and, not_lt]
  intro h0 hlt
  rcases h with h | h
  · exact absurd h h0
  · linarith

theorem readNumber_digit (a : Fin 10) (b : Char) (r : List Char)
    (hb : b ≠ 'x') (hB : b ≠ 'X') :
    readNumber (digitChar a :: b :: r) = (readDecimal (digitChar a :: b :: r)).map Dbl.fin := by
  obtain ⟨-, -, -, -, h5, h6, -, -, -⟩ := digitChar_facts a
  simp [readNumber, startsNoCase, readHex, h5, h6, hb, hB]

theorem stod_digit (a : Fin 10) (b : Char) (r : List Char) (hb : b ≠ 'x') (hB : b ≠ 'X')
    (q : ℚ) (hq : readDecimal (digitChar a :: b :: r) = some q) (hsmall : q < 1000000)
    (hlarge : q = 0 ∨ 1 / 1000000 ≤ q) :
    stod (digitChar a :: b :: r) = .ok (.fin q) := by
  obtain ⟨h1, h2, h3, -, -, -, -, -, -⟩ := digitChar_facts a
  simp [stod, List.dropWhile, readSign, h1, h2, h3, readNumber_digit a b r hb hB, hq,
    overflows_small q hsmall, underflows_large q hlarge]

theorem stod_seconds (a b c d : Fin 10) :
    stod [digitChar a, digitChar b, '.', digitChar c, digitChar d] =
      .ok (.fin (twoDigits a b + twoDigits c d / 100)) := by
  apply stod_digit a (digitChar b) _ (digitChar_facts b).2.2.2.2.2.2.1
    (digitChar_facts b).2.2.2.2.2.2.2.1
  · simp [readDecimal, readMantissa, readDigits_digit, readDigits_stop, digitVal_dot,
      readDigits_nil, readExponent, scale, twoDigits]
    ring
  · simp only [twoDigits]
    have ha := a.isLt
    have hb := b.isLt
    have hc := c.isLt
    have hd := d.isLt
    have h1 : ((10 * a.val + b.val : ℕ) : ℚ) ≤ 99 := by exact_mod_cast (by omega : 10 * a.val + b.val ≤ 99)
    have h2 : ((10 * c.val + d.val : ℕ) : ℚ) ≤ 99 := by exact_mod_cast (by omega : 10 * c.val + d.val ≤ 99)
    linarith
  · simp only [twoDigits]
    have h1 : (0 : ℚ) ≤ ((10 * a.val + b.val : ℕ) : ℚ) := Nat.cast_nonneg _
    have h2 : (0 : ℚ) ≤ ((10 * c.val + d.val : ℕ) : ℚ) := Nat.cast_nonneg _
    rcases Nat.eq_zero_or_pos (10 * a.val + b.val) with hA | hA
    · rcases Nat.eq_zero_or_pos (10 * c.val + d.val) with hC | hC
      · left
        rw [hA, hC]
        norm_num
      · right
        have h3 : (1 : ℚ) ≤ ((10 * c.val + d.val : ℕ) : ℚ) := by exact_mod_cast hC
        linarith
    · right
      have h3 : (1 : ℚ) ≤ ((10 * a.val + b.val : ℕ) : ℚ) := by exact_mod_cast hA
      linarith

theorem twoDigits_nonneg (a b : Fin 10) : 0 ≤ twoDigits a b := by
  simp only [twoDigits]; positivity

/-- What `str2LatLon` returns on texts of the fixed form: the latitude fields
are read whole, the longitude degrees are read from the second degree digit
on (offset 2, so the hundreds digit `D1` is skipped). -/
theorem str2LatLon_fixed_form (hemi hemi2 : Char) (D1 D2 M1 M2 S1 S2 s1 s2 : Fin 10)
    (E1 E2 E3 N1 N2 T1 T2 t1 t2 : Fin 10) :
    str2LatLon (latText hemi D1 D2 M1 M2 S1 S2 s1 s2) (lonText hemi2 E1 E2 E3 N1 N2 T1 T2 t1 t2)
      = .ok { LAT := .fin (twoDigits D1 D2 + twoDigits M1 M2 / 60
                        + (twoDigits S1 S2 + twoDigits s1 s2 / 100) / 3600),
              LON := .fin (twoDigits E2 E3 + twoDigits N1 N2 / 60
                        + (twoDigits T1 T2 + twoDigits t1 t2 / 100) / 3600) } := by
  simp [str2LatLon, substr, latText, lonText, stod_two_digits, stod_two_digits_dash,
    stod_seconds, Dbl.add, Dbl.div, bind, Except.bind, pure, Except.pure]
  constructor <;> norm_num

theorem str2LatLon_default : str2LatLon rPhi rLam = .ok ⟨.fin refLat0, .fin refLon0⟩ := by
  decide!

theorem digitVal_zero_of_none (c : Char) (h : digitVal c = none) : c ≠ '0' := by
  rintro rfl
  revert h
  decide

theorem readNumber_nil : readNumber [] = none := by
  simp [readNumber, startsNoCase, readHex, readDecimal, readMantissa, readDigits]

theorem readDecimal_none (c : Char) (t : List Char) (hc : digitVal c = none)
    (hdot : c = '.' → ∀ d r, t = d :: r → digitVal d = none) :
    readDecimal (c :: t) = none := by
  by_cases hp : c = '.'
  · subst hp
    cases t with
    | nil => simp [readDecimal, readMantissa, readDigits, digitVal_dot]
    | cons d r =>
      have hd := hdot rfl d r rfl
      simp [readDecimal, readMantissa, readDigits, digitVal_dot, hd]
  · simp [readDecimal, readMantissa, readDigits, hc, hp]

theorem readHex_none (c : Char) (t : List Char) (hc : digitVal c = none) :
    readHex (c :: t) = none := by
  cases t with
  | nil => simp [readHex]
  | cons x r => simp [readHex, digitVal_zero_of_none c hc]

/-- A text that no number can start makes `stod` throw `invalid_argument`. -/
theorem stod_invalid (s : List Char) (h : numericStart s = false) :
    stod s = .error .invalid_argument := by
  unfold numericStart at h
  unfold stod
  rcases hsplit : readSign (List.dropWhile isSpace s) with ⟨neg, u⟩
  rw [hsplit] at h
  cases u with
  | nil => simp [readNumber_nil]
  | cons c t =>
    simp only [Bool.or_eq_false_iff, Bool.and_eq_false_iff] at h
    obtain ⟨⟨⟨hc, hdot⟩, hinf⟩, hnan⟩ := h
    have hc2 : digitVal c = none := by
      cases hv : digitVal c with
      | none => rfl
      | some v => simp [hv] at hc
    have hdec : readDecimal (c :: t) = none := by
      apply readDecimal_none c t hc2
      intro hp d r ht
      subst ht
      rcases hdot with hdot | hdot
      · simp [hp] at hdot
      · cases hv : digitVal d with
        | none => rfl
        | some v => simp [hv] at hdot
    simp [readNumber, hinf, hnan, readHex_none c t hc2, hdec]

/-! ## Claims on `str2LatLon` -/

/-- C2 (the code departs from it): at the claim's own example `W111-54-34.85`
`str2LatLon` reads the degrees from offset 2, so the longitude comes out as
`11 + 54/60 + 34.85/3600`, not as `111 + 54/60 + 34.85/3600`. -/
theorem longitude_hundreds_digit_dropped :
    (str2LatLon "N41-50-05.77".toList "W111-54-34.85".toList).map LatLon.LON
        = .ok (.fin (11 + 54 / 60 + 34.85 / 3600))
      ∧ (11 + 54 / 60 + 34.85 / 3600 : ℚ) ≠ 111 + 54 / 60 + 34.85 / 3600 := by
  refine ⟨by decide!, by norm_num⟩

/-- C3: on a latitude text of the fixed form (any hemisphere character, two
degree digits, two minute digits, seconds `SS.ss`) and any longitude text of
the fixed form, `str2LatLon` returns `LAT = DD + MM/60 + SS.ss/3600`. -/
theorem latitude_parsing (hemi hemi2 : Char) (D1 D2 M1 M2 S1 S2 s1 s2 : Fin 10)
    (E1 E2 E3 N1 N2 T1 T2 t1 t2 : Fin 10) :
    (str2LatLon (latText hemi D1 D2 M1 M2 S1 S2 s1 s2)
        (lonText hemi2 E1 E2 E3 N1 N2 T1 T2 t1 t2)).map LatLon.LAT
      = .ok (.fin (twoDigits D1 D2 + twoDigits M1 M2 / 60
                    + (twoDigits S1 S2 + twoDigits s1 s2 / 100) / 3600)) := by
  rw [str2LatLon_fixed_form]
  rfl

/-- C4 (the code departs from it): from the built-in reference strings
`str2LatLon` returns the latitude `41 + 50/60 + 5.778/3600` but the longitude
`11 + 54/60 + 34.85/3600`, which is not `111 + 54/60 + 34.854/3600`. -/
theorem default_reference_parse :
    str2LatLon rPhi rLam
        = .ok { LAT := .fin (41 + 50 / 60 + 5.778 / 3600),
                LON := .fin (11 + 54 / 60 + 34.85 / 3600) }
      ∧ (11 + 54 / 60 + 34.85 / 3600 : ℚ) ≠ 111 + 54 / 60 + 34.854 / 3600 := by
  refine ⟨by decide!, by norm_num⟩

/-- C5, counterexample: the wrong-length latitude `N4-50-5.778` is not
rejected; `str2LatLon` returns `LAT = 4 + 0/60 + 0.778/3600`. -/
theorem malformed_latitude_accepted :
    (str2LatLon "N4-50-5.778".toList "W111-54-34.85".toList).map LatLon.LAT
      = .ok (.fin (4 + 0 / 60 + 0.778 / 3600)) := by
  decide!

/-- C6: the first character of either string is never read, so two latitude
strings, or two longitude strings, that differ only there give the same
result; and on texts of the fixed form both angles are non-negative, whatever
the hemisphere characters. -/
theorem hemisphere_ignored :
    (∀ (c c2 d d2 : Char) (t u : List Char),
        str2LatLon (c :: t) (d :: u) = str2LatLon (c2 :: t) (d2 :: u))
      ∧ (∀ (hemi hemi2 : Char) (D1 D2 M1 M2 S1 S2 s1 s2 E1 E2 E3 N1 N2 T1 T2 t1 t2 : Fin 10),
          ∃ x y : ℚ,
            str2LatLon (latText hemi D1 D2 M1 M2 S1 S2 s1 s2)
                (lonText hemi2 E1 E2 E3 N1 N2 T1 T2 t1 t2) = .ok ⟨.fin x, .fin y⟩
              ∧ 0 ≤ x ∧ 0 ≤ y) := by
  constructor
  · intro c c2 d d2 t u
    simp [str2LatLon, substr]
  · intro hemi hemi2 D1 D2 M1 M2 S1 S2 s1 s2 E1 E2 E3 N1 N2 T1 T2 t1 t2
    refine ⟨_, _, str2LatLon_fixed_form hemi hemi2 D1 D2 M1 M2 S1 S2 s1 s2 E1 E2 E3 N1 N2 T1 T2 t1 t2,
      ?_, ?_⟩
    · have h1 := twoDigits_nonneg D1 D2
      have h2 := twoDigits_nonneg M1 M2
      have h3 := twoDigits_nonneg S1 S2
      have h4 := twoDigits_nonneg s1 s2
      positivity
    · have h1 := twoDigits_nonneg E2 E3
      have h2 := twoDigits_nonneg N1 N2
      have h3 := twoDigits_nonneg T1 T2
      have h4 := twoDigits_nonneg t1 t2
      positivity

/-! ## The transform: general facts -/

theorem NED.ext_iff3 {K : Type} (p q : NED K) : p = q ↔ p.N = q.N ∧ p.E = q.E ∧ p.D = q.D := by
  cases p; cases q; simp

/-- With a reference that parses to finite angles, `GPS2NED` returns the
step formulas with reference altitude `rH * piD180` and target altitude `h`. -/
theorem GPS2NED_eq_formulas {K : Type} [Field K] (m : Libm K) (rPhi rLam : List Char)
    (lat lon : ℚ) (href : str2LatLon rPhi rLam = .ok ⟨.fin lat, .fin lon⟩)
    (rH phi lambda h : K) :
    GPS2NED m rPhi rLam rH phi lambda h
      = .ok (some (nedFormulas m ((lat : K) * piD180) ((lon : K) * piD180) (rH * piD180)
                    (phi * piD180) (lambda * piD180) h)) := by
  have hchi : m.sqrt (1 - (1 - ((6356752.3142 : K) / 6378137.0) ^ 2)
        * m.sin ((lat : K) * (3.1415926535897932 / 180.0))
        * m.sin ((lat : K) * (3.1415926535897932 / 180.0))) = chiAt m ((lat : K) * piD180) := by
    simp only [chiAt, ecc2, semiMajor, semiMinor, piD180]
    have hsq : ∀ A s : K, A * s * s = A * s ^ 2 := fun A s => by ring
    rw [hsq]
  simp only [GPS2NED, href, hchi, nedFormulas]
  generalize chiAt m ((lat : K) * piD180) = chi
  refine congrArg (fun v => Except.ok (some v)) ?_
  rw [NED.ext_iff3]
  simp only [rotate, ecef, ecc2, semiMajor, semiMinor, piD180]
  refine ⟨?_, ?_, ?_⟩
  · ring
  · ring_nf
  · ring

/-- At the reference latitude and longitude the step formulas give
`N = 0`, `E = 0` and `D = -(alt - altRef)`. -/
theorem nedFormulas_at_reference {K : Type} [Field K] (m : Libm K)
    (hP : ∀ x, m.sin x ^ 2 + m.cos x ^ 2 = 1) (latRef lonRef altRef alt : K) :
    nedFormulas m latRef lonRef altRef latRef lonRef alt = ⟨0, 0, -(alt - altRef)⟩ := by
  have h1 := hP latRef
  have h2 := hP lonRef
  rw [NED.ext_iff3]
  simp only [nedFormulas, rotate, ecef]
  refine ⟨?_, ?_, ?_⟩
  · linear_combination
      (-(m.sin latRef) * m.cos latRef * (alt - altRef)) * h2
  · ring
  · linear_combination
      (-(alt - altRef) * m.cos latRef ^ 2) * h2 + (-(alt - altRef)) * h1

/-- How `D` of the step formulas depends on the target altitude. -/
theorem nedFormulas_D_diff {K : Type} [Field K] (m : Libm K)
    (latRef lonRef altRef lat lon h1 h2 : K) :
    (nedFormulas m latRef lonRef altRef lat lon h2).D
        - (nedFormulas m latRef lonRef altRef lat lon h1).D
      = -(h2 - h1) * (m.cos latRef * m.cos lat
            * (m.cos lon * m.cos lonRef + m.sin lon * m.sin lonRef)
          + m.sin latRef * m.sin lat) := by
  simp only [nedFormulas, rotate, ecef]
  ring

theorem real_pythagoras (x : ℝ) :
    (⟨Real.sin, Real.cos, Real.sqrt⟩ : Libm ℝ).sin x ^ 2
      + (⟨Real.sin, Real.cos, Real.sqrt⟩ : Libm ℝ).cos x ^ 2 = 1 :=
  Real.sin_sq_add_cos_sq x

theorem str2LatLon_equator : str2LatLon equatorPhi meridianLam = .ok ⟨.fin 0, .fin 0⟩ := by
  decide!

/-- With a reference that parses to finite angles and a target at those
angles, `GPS2NED` returns `N = 0`, `E = 0`, `D = -(h - rH * piD180)`. -/
theorem GPS2NED_at_reference (rPhi rLam : List Char) (lat lon : ℚ)
    (href : str2LatLon rPhi rLam = .ok ⟨.fin lat, .fin lon⟩) (rH h : ℝ) :
    GPS2NED ⟨Real.sin, Real.cos, Real.sqrt⟩ rPhi rLam rH (lat : ℝ) (lon : ℝ) h
      = .ok (some ⟨0, 0, -(h - rH * piD180)⟩) := by
  rw [GPS2NED_eq_formulas _ rPhi rLam lat lon href, nedFormulas_at_reference _ real_pythagoras]

/-! ## Claims on `GPS2NED` -/

/-- C1 (the code departs from it): converting the built-in reference point
itself gives `N = 0` and `E = 0` but `D = -(rH - rH * piD180)`, about
`-1385.49`, because the reference altitude is scaled by `piD180` and the
target altitude is not. -/
theorem round_trip_default_down :
    str2LatLon rPhi rLam = .ok ⟨.fin refLat0, .fin refLon0⟩
      ∧ ∃ D : ℝ, GPS2NED ⟨Real.sin, Real.cos, Real.sqrt⟩ rPhi rLam rH
            (refLat0 : ℝ) (refLon0 : ℝ) rH = .ok (some ⟨0, 0, D⟩)
          ∧ D < -1385 ∧ (1e-6 : ℝ) < |D| := by
  refine ⟨str2LatLon_default, -(rH - rH * piD180),
    GPS2NED_at_reference rPhi rLam refLat0 refLon0 str2LatLon_default rH rH, ?_, ?_⟩
  · norm_num [rH, piD180]
  · rw [abs_neg, abs_of_pos] <;> norm_num [rH, piD180]

/-- C7: for every reference that parses to finite angles and every target,
`GPS2NED` returns the rotation of `(dx, dy, dz)` (target ECEF minus reference
ECEF) into the tangent plane at the reference, both ECEF points being computed
with the one `chi` taken at the reference latitude. -/
theorem core_transform (rPhi rLam : List Char) (lat lon : ℚ)
    (href : str2LatLon rPhi rLam = .ok ⟨.fin lat, .fin lon⟩) (rH phi lambda h : ℝ) :
    ∃ (ned : NED ℝ) (chi dx dy dz : ℝ),
      GPS2NED ⟨Real.sin, Real.cos, Real.sqrt⟩ rPhi rLam rH phi lambda h = .ok (some ned)
      ∧ chi = Real.sqrt (1 - ecc2 * Real.sin ((lat : ℝ) * piD180) ^ 2)
      ∧ dx = (semiMajor / chi + h) * Real.cos (phi * piD180) * Real.cos (lambda * piD180)
            - (semiMajor / chi + rH * piD180) * Real.cos ((lat : ℝ) * piD180)
                * Real.cos ((lon : ℝ) * piD180)
      ∧ dy = (semiMajor / chi + h) * Real.cos (phi * piD180) * Real.sin (lambda * piD180)
            - (semiMajor / chi + rH * piD180) * Real.cos ((lat : ℝ) * piD180)
                * Real.sin ((lon : ℝ) * piD180)
      ∧ dz = (semiMajor * (1 - ecc2) / chi + h) * Real.sin (phi * piD180)
            - (semiMajor * (1 - ecc2) / chi + rH * piD180) * Real.sin ((lat : ℝ) * piD180)
      ∧ ned.N = -Real.sin ((lat : ℝ) * piD180) * Real.cos ((lon : ℝ) * piD180) * dx
                - Real.sin ((lat : ℝ) * piD180) * Real.sin ((lon : ℝ) * piD180) * dy
                + Real.cos ((lat : ℝ) * piD180) * dz
      ∧ ned.E = Real.sin ((lon : ℝ) * piD180) * dx - Real.cos ((lon : ℝ) * piD180) * dy
      ∧ ned.D = -Real.cos ((lat : ℝ) * piD180) * Real.cos ((lon : ℝ) * piD180) * dx
                - Real.cos ((lat : ℝ) * piD180) * Real.sin ((lon : ℝ) * piD180) * dy
                - Real.sin ((lat : ℝ) * piD180) * dz := by
  refine ⟨_, _, _, _, _, GPS2NED_eq_formulas _ rPhi rLam lat lon href rH phi lambda h,
    rfl, rfl, rfl, rfl, ?_, ?_, ?_⟩ <;>
  simp only [nedFormulas, rotate, ecef, chiAt]

/-- Witness for C7: the built-in reference and the target `(0, 0, 0)`. -/
theorem core_transform_witness :
    ∃ (ned : NED ℝ) (chi dx dy dz : ℝ),
      GPS2NED ⟨Real.sin, Real.cos, Real.sqrt⟩ rPhi rLam rH 0 0 0 = .ok (some ned)
      ∧ chi = Real.sqrt (1 - ecc2 * Real.sin ((refLat0 : ℝ) * piD180) ^ 2)
      ∧ dx = (semiMajor / chi + 0) * Real.cos (0 * piD180) * Real.cos (0 * piD180)
            - (semiMajor / chi + rH * piD180) * Real.cos ((refLat0 : ℝ) * piD180)
                * Real.cos ((refLon0 : ℝ) * piD180)
      ∧ dy = (semiMajor / chi + 0) * Real.cos (0 * piD180) * Real.sin (0 * piD180)
            - (semiMajor / chi + rH * piD180) * Real.cos ((refLat0 : ℝ) * piD180)
                * Real.sin ((refLon0 : ℝ) * piD180)
      ∧ dz = (semiMajor * (1 - ecc2) / chi + 0) * Real.sin (0 * piD180)
            - (semiMajor * (1 - ecc2) / chi + rH * piD180) * Real.sin ((refLat0 : ℝ) * piD180)
      ∧ ned.N = -Real.sin ((refLat0 : ℝ) * piD180) * Real.cos ((refLon0 : ℝ) * piD180) * dx
                - Real.sin ((refLat0 : ℝ) * piD180) * Real.sin ((refLon0 : ℝ) * piD180) * dy
                + Real.cos ((refLat0 : ℝ) * piD180) * dz
      ∧ ned.E = Real.sin ((refLon0 : ℝ) * piD180) * dx - Real.cos ((refLon0 : ℝ) * piD180) * dy
      ∧ ned.D = -Real.cos ((refLat0 : ℝ) * piD180) * Real.cos ((refLon0 : ℝ) * piD180) * dx
                - Real.cos ((refLat0 : ℝ) * piD180) * Real.sin ((refLon0 : ℝ) * piD180) * dy
                - Real.sin ((refLat0 : ℝ) * piD180) * dz :=
  core_transform rPhi rLam refLat0 refLon0 str2LatLon_default rH 0 0 0

/-- C8, counterexample: with the built-in reference and a target at the
reference angles and altitude 180, `GPS2NED` does not return what the step
formulas give when the target altitude is scaled to `180 * piD180`. -/
theorem target_altitude_scaled_counterexample :
    GPS2NED ⟨Real.sin, Real.cos, Real.sqrt⟩ rPhi rLam rH (refLat0 : ℝ) (refLon0 : ℝ) 180
      ≠ .ok (some (nedFormulas ⟨Real.sin, Real.cos, Real.sqrt⟩
              ((refLat0 : ℝ) * piD180) ((refLon0 : ℝ) * piD180) (rH * piD180)
              ((refLat0 : ℝ) * piD180) ((refLon0 : ℝ) * piD180) (180 * piD180))) := by
  rw [GPS2NED_at_reference rPhi rLam refLat0 refLon0 str2LatLon_default,
    nedFormulas_at_reference _ real_pythagoras]
  intro hEq
  have hD : -((180 : ℝ) - rH * piD180) = -(180 * piD180 - rH * piD180) := by
    injection hEq with h1
    injection h1 with h2
    injection h2
  norm_num [rH, piD180] at hD

/-- C8, amended: only the reference altitude is multiplied by `piD180`;
`GPS2NED` equals the step formulas evaluated with reference altitude
`rH * piD180` and with the target altitude `h` as it is passed. -/
theorem reference_altitude_scaled_only (rPhi rLam : List Char) (lat lon : ℚ)
    (href : str2LatLon rPhi rLam = .ok ⟨.fin lat, .fin lon⟩) (rH phi lambda h : ℝ) :
    GPS2NED ⟨Real.sin, Real.cos, Real.sqrt⟩ rPhi rLam rH phi lambda h
      = .ok (some (nedFormulas ⟨Real.sin, Real.cos, Real.sqrt⟩
              ((lat : ℝ) * piD180) ((lon : ℝ) * piD180) (rH * piD180)
              (phi * piD180) (lambda * piD180) h)) :=
  GPS2NED_eq_formulas _ rPhi rLam lat lon href rH phi lambda h

/-- Witness for C8, amended: the built-in reference, target `(10, 20, 30)`. -/
theorem reference_altitude_scaled_only_witness :
    GPS2NED ⟨Real.sin, Real.cos, Real.sqrt⟩ rPhi rLam rH 10 20 30
      = .ok (some (nedFormulas ⟨Real.sin, Real.cos, Real.sqrt⟩
              ((refLat0 : ℝ) * piD180) ((refLon0 : ℝ) * piD180) (rH * piD180)
              (10 * piD180) (20 * piD180) 30)) :=
  reference_altitude_scaled_only rPhi rLam refLat0 refLon0 str2LatLon_default rH 10 20 30

/-- The cosine of the program's half turn, `180 * piD180`, is negative. -/
theorem cos_half_turn_neg : Real.cos (180 * piD180) < 0 := by
  have h3 := Real.pi_gt_three
  have h4 := Real.pi_le_four
  apply Real.cos_neg_of_pi_div_two_lt_of_lt
  · norm_num [piD180]
    linarith
  · norm_num [piD180]
    linarith

/-- C9, counterexample: with the reference on the equator and the prime
meridian at altitude 0 and the target at latitude 0, longitude 180, raising
the target altitude from 0 to 1 makes `D` larger, not smaller. -/
theorem altitude_monotonicity_counterexample :
    ∃ n1 n2 : NED ℝ,
      GPS2NED ⟨Real.sin, Real.cos, Real.sqrt⟩ equatorPhi meridianLam 0 0 180 0 = .ok (some n1)
      ∧ GPS2NED ⟨Real.sin, Real.cos, Real.sqrt⟩ equatorPhi meridianLam 0 0 180 1 = .ok (some n2)
      ∧ n1.D < n2.D := by
  refine ⟨_, _, GPS2NED_eq_formulas _ _ _ _ _ str2LatLon_equator 0 0 180 0,
    GPS2NED_eq_formulas _ _ _ _ _ str2LatLon_equator 0 0 180 1, ?_⟩
  have hd := nedFormulas_D_diff (⟨Real.sin, Real.cos, Real.sqrt⟩ : Libm ℝ)
    (((0 : ℚ) : ℝ) * piD180) (((0 : ℚ) : ℝ) * piD180) (0 * piD180) (0 * piD180) (180 * piD180) 0 1
  have hc := cos_half_turn_neg
  simp only [Rat.cast_zero, zero_mul, Real.cos_zero, Real.sin_zero, mul_zero, add_zero, mul_one,
    one_mul, sub_zero] at hd
  simp only [Rat.cast_zero, zero_mul]
  linarith

/-- C10 (the code departs from it): with the built-in reference and a target
at the reference angles and altitude 1000, below the reference altitude
`rH = 1410.102336`, `D` is negative, not positive. -/
theorem down_sign_below_reference :
    ∃ ned : NED ℝ,
      GPS2NED ⟨Real.sin, Real.cos, Real.sqrt⟩ rPhi rLam rH (refLat0 : ℝ) (refLon0 : ℝ) 1000
          = .ok (some ned)
      ∧ (1000 : ℝ) < rH ∧ ned.D < 0 := by
  refine ⟨_, GPS2NED_at_reference rPhi rLam refLat0 refLon0 str2LatLon_default rH 1000, ?_, ?_⟩
  · norm_num [rH]
  · norm_num [rH, piD180]

theorem piD180_pos : (0 : ℝ) < piD180 := by
  norm_num [piD180]

theorem ecc2_bounds : (0 : ℝ) < ecc2 ∧ (ecc2 : ℝ) < 1 := by
  constructor <;> norm_num [ecc2, semiMinor, semiMajor]

theorem chi_arg_pos (x : ℝ) : 0 < 1 - (ecc2 : ℝ) * Real.sin x ^ 2 := by
  obtain ⟨h0, h1⟩ := ecc2_bounds
  have hs : Real.sin x ^ 2 ≤ 1 := Real.sin_sq_le_one x
  have hs0 : 0 ≤ Real.sin x ^ 2 := sq_nonneg _
  nlinarith

theorem chiAt_pos (x : ℝ) : 0 < chiAt ⟨Real.sin, Real.cos, Real.sqrt⟩ x := by
  simp only [chiAt]
  exact Real.sqrt_pos.mpr (chi_arg_pos x)

/-- C11: with a reference that parses to latitude 0 and longitude 0, every
target on longitude 0 has `E = 0`, whatever its latitude and altitude (and
whatever the reference altitude). -/
theorem latitude_only_east_zero (rPhi rLam : List Char)
    (href : str2LatLon rPhi rLam = .ok ⟨.fin 0, .fin 0⟩) (rH phi h : ℝ) :
    ∃ ned : NED ℝ,
      GPS2NED ⟨Real.sin, Real.cos, Real.sqrt⟩ rPhi rLam rH phi 0 h = .ok (some ned)
      ∧ ned.E = 0 ∧ |ned.E| ≤ 1e-6 := by
  have hE : (nedFormulas (⟨Real.sin, Real.cos, Real.sqrt⟩ : Libm ℝ) (((0 : ℚ) : ℝ) * piD180)
      (((0 : ℚ) : ℝ) * piD180) (rH * piD180) (phi * piD180) (0 * piD180) h).E = 0 := by
    simp [nedFormulas, rotate, ecef]
  refine ⟨_, GPS2NED_eq_formulas _ rPhi rLam 0 0 href rH phi 0 h, hE, ?_⟩
  rw [hE]
  norm_num

/-- Witness for C11: the reference `N00-00-00.00`, `E000-00-00.00` at altitude
100, the target at latitude 45, longitude 0, altitude 250. -/
theorem latitude_only_east_zero_witness :
    ∃ ned : NED ℝ,
      GPS2NED ⟨Real.sin, Real.cos, Real.sqrt⟩ equatorPhi meridianLam 100 45 0 250
          = .ok (some ned)
      ∧ ned.E = 0 ∧ |ned.E| ≤ 1e-6 :=
  latitude_only_east_zero equatorPhi meridianLam str2LatLon_equator 100 45 250

/-- C13: the ellipsoid constants satisfy `0 < b < a`, so `0 < e2 < 1`, and for
every reference latitude the argument of the square root and `chi` itself are
strictly positive: `a / chi` and `a * (1 - e2) / chi` never divide by zero. -/
theorem ellipsoid_invariant :
    (0 : ℝ) < semiMinor ∧ (semiMinor : ℝ) < semiMajor
      ∧ (ecc2 : ℝ) = 1 - (semiMinor / semiMajor) ^ 2 ∧ (0 : ℝ) < ecc2 ∧ (ecc2 : ℝ) < 1
      ∧ ∀ latRef : ℝ, 0 < 1 - (ecc2 : ℝ) * Real.sin latRef ^ 2
          ∧ 0 < chiAt ⟨Real.sin, Real.cos, Real.sqrt⟩ latRef
          ∧ chiAt ⟨Real.sin, Real.cos, Real.sqrt⟩ latRef ≠ 0 := by
  refine ⟨by norm_num [semiMinor], by norm_num [semiMinor, semiMajor], rfl,
    ecc2_bounds.1, ecc2_bounds.2, fun latRef => ⟨chi_arg_pos latRef, chiAt_pos latRef,
      ne_of_gt (chiAt_pos latRef)⟩⟩

/-- The East component of the step formulas in closed form. -/
theorem nedFormulas_E {K : Type} [Field K] (m : Libm K)
    (latRef lonRef altRef lat lon alt : K) :
    (nedFormulas m latRef lonRef altRef lat lon alt).E
      = (semiMajor / chiAt m latRef + alt) * m.cos lat
          * (m.sin lonRef * m.cos lon - m.cos lonRef * m.sin lon) := by
  simp only [nedFormulas, rotate, ecef]
  ring

theorem decLogAux_eq (fuel n : Nat) (h : n ≤ fuel) : decLogAux fuel n = Nat.log 10 n := by
  induction fuel generalizing n with
  | zero =>
    have h0 : n = 0 := by omega
    subst h0
    simp [decLogAux]
  | succ f ih =>
    unfold decLogAux
    split_ifs with hlt
    · exact (Nat.log_of_lt hlt).symm
    · rw [ih (n / 10) (by omega)]
      exact (Nat.log_of_one_lt_of_le (by norm_num) (by omega)).symm

theorem decCLogAux_eq (fuel n : Nat) (h : n ≤ fuel) : decCLogAux fuel n = Nat.clog 10 n := by
  induction fuel generalizing n with
  | zero =>
    have h0 : n = 0 := by omega
    subst h0
    simp [decCLogAux]
  | succ f ih =>
    unfold decCLogAux
    split_ifs with hle
    · exact (Nat.clog_of_right_le_one hle 10).symm
    · rw [ih ((n + 9) / 10) (by omega)]
      exact (Nat.clog_of_two_le (by norm_num) (by omega)).symm

theorem decExp_eq_log (m : ℚ) : decExp m = Int.log 10 m := by
  simp only [decExp, Int.log, decLogAux_eq _ _ le_rfl, decCLogAux_eq _ _ le_rfl]

theorem decExp_le (m : ℚ) (hm : 0 < m) : (10 : ℚ) ^ decExp m ≤ m := by
  rw [decExp_eq_log]
  exact_mod_cast Int.zpow_log_le_self (by norm_num : 1 < 10) hm

theorem decExp_lt (m : ℚ) : m < (10 : ℚ) ^ (decExp m + 1) := by
  rw [decExp_eq_log]
  exact_mod_cast Int.lt_zpow_succ_log_self (by norm_num : 1 < 10) m

theorem decExp_unique (m : ℚ) (e : ℤ) (h1 : (10 : ℚ) ^ e ≤ m) (h2 : m < (10 : ℚ) ^ (e + 1)) :
    decExp m = e := by
  have hm : 0 < m := lt_of_lt_of_le (zpow_pos (by norm_num) e) h1
  rw [decExp_eq_log]
  have ha : e ≤ Int.log 10 m := by
    rw [← Int.zpow_le_iff_le_log (by norm_num : 1 < 10) hm]
    exact_mod_cast h1
  have hb : Int.log 10 m < e + 1 := by
    rw [← Int.lt_zpow_iff_log_lt (by norm_num : 1 < 10) hm]
    exact_mod_cast h2
  omega

theorem roundHalfEven_near (t : ℚ) (ht : 0 ≤ t) : |(roundHalfEven t : ℚ) - t| ≤ 1 / 2 := by
  have h1 : (⌊t⌋₊ : ℚ) ≤ t := Nat.floor_le ht
  have h2 : t < (⌊t⌋₊ : ℚ) + 1 := Nat.lt_floor_add_one t
  unfold roundHalfEven
  rw [abs_le]
  split_ifs <;> push_cast <;> constructor <;> linarith

theorem roundHalfEven_nearest (t : ℚ) (ht : 0 ≤ t) (k : ℤ) :
    |(roundHalfEven t : ℚ) - t| ≤ |(k : ℚ) - t| := by
  have h := roundHalfEven_near t ht
  by_cases hk : k = (roundHalfEven t : ℤ)
  · subst hk
    simp
  · have hne : (1 : ℚ) ≤ |(k : ℚ) - (roundHalfEven t : ℚ)| := by
      have hz : (1 : ℤ) ≤ |k - (roundHalfEven t : ℤ)| := Int.one_le_abs (sub_ne_zero.mpr hk)
      exact_mod_cast hz
    have htri : |(k : ℚ) - (roundHalfEven t : ℚ)|
        ≤ |(k : ℚ) - t| + |(roundHalfEven t : ℚ) - t| := by
      have := abs_sub_le (k : ℚ) t (roundHalfEven t : ℚ)
      rwa [abs_sub_comm t (roundHalfEven t : ℚ)] at this
    linarith

theorem roundHalfEven_natCast (k : ℕ) : roundHalfEven (k : ℚ) = k := by
  simp [roundHalfEven]

theorem zpow_ten_sub_five (e : ℤ) : (10 : ℚ) ^ (e - 5) = (10 : ℚ) ^ e / 100000 := by
  rw [zpow_sub₀ (by norm_num : (10 : ℚ) ≠ 0)]
  norm_num

theorem zpow_ten_succ (e : ℤ) : (10 : ℚ) ^ (e + 1) = (10 : ℚ) ^ e * 10 := by
  rw [zpow_add₀ (by norm_num : (10 : ℚ) ≠ 0)]
  norm_num

/-- The number handed to the rounding lies between `10 ^ 5` and `10 ^ 6`. -/
theorem scaled_bounds (m : ℚ) (hm : 0 < m) :
    (100000 : ℚ) ≤ m / (10 : ℚ) ^ (decExp m - 5) ∧ m / (10 : ℚ) ^ (decExp m - 5) < 1000000 := by
  have hP : (0 : ℚ) < (10 : ℚ) ^ decExp m := zpow_pos (by norm_num) _
  have h1 := decExp_le m hm
  have h2 := decExp_lt m
  rw [zpow_ten_succ] at h2
  rw [zpow_ten_sub_five]
  have hg : (0 : ℚ) < (10 : ℚ) ^ decExp m / 100000 := by positivity
  constructor
  · rw [le_div_iff₀ hg]
    linarith
  · rw [div_lt_iff₀ hg]
    linarith

theorem rounded_bounds (m : ℚ) (hm : 0 < m) :
    100000 ≤ roundHalfEven (m / (10 : ℚ) ^ (decExp m - 5))
      ∧ roundHalfEven (m / (10 : ℚ) ^ (decExp m - 5)) ≤ 1000000 := by
  obtain ⟨h1, h2⟩ := scaled_bounds m hm
  have h3 := roundHalfEven_near _ (le_trans (by norm_num) h1)
  rw [abs_le] at h3
  constructor
  · have : (99999 : ℚ) < (roundHalfEven (m / (10 : ℚ) ^ (decExp m - 5)) : ℚ) := by linarith
    exact_mod_cast this
  · have : (roundHalfEven (m / (10 : ℚ) ^ (decExp m - 5)) : ℚ) < 1000001 := by linarith
    have h4 : roundHalfEven (m / (10 : ℚ) ^ (decExp m - 5)) < 1000001 := by exact_mod_cast this
    omega

/-- The six digits printed are a number from `100000` to `999999`. -/
theorem sigDigits_bounds (m : ℚ) (hm : 0 < m) :
    100000 ≤ (sigDigits m).1 ∧ (sigDigits m).1 < 1000000 := by
  obtain ⟨h1, h2⟩ := rounded_bounds m hm
  unfold sigDigits
  split_ifs with h
  · simp
  · simp only
    omega

/-- The rounded number is the rounded quotient times the unit of the sixth digit. -/
theorem round6_eq (m : ℚ) :
    round6 m = (roundHalfEven (m / (10 : ℚ) ^ (decExp m - 5)) : ℚ) * (10 : ℚ) ^ (decExp m - 5) := by
  unfold round6 sigValue sigDigits
  split_ifs with h
  · simp only [h]
    rw [show decExp m + 1 - 5 = (decExp m - 5) + 1 by ring, zpow_ten_succ]
    push_cast
    ring
  · rfl

theorem round6_error (m : ℚ) (hm : 0 < m) :
    |round6 m - m| ≤ (10 : ℚ) ^ (decExp m - 5) / 2 := by
  have hg : (0 : ℚ) < (10 : ℚ) ^ (decExp m - 5) := zpow_pos (by norm_num) _
  have h1 := (scaled_bounds m hm).1
  have h3 := roundHalfEven_near (m / (10 : ℚ) ^ (decExp m - 5)) (le_trans (by norm_num) h1)
  have hm2 : m / (10 : ℚ) ^ (decExp m - 5) * (10 : ℚ) ^ (decExp m - 5) = m := by
    field_simp
  have hsub : (roundHalfEven (m / (10 : ℚ) ^ (decExp m - 5)) : ℚ) * (10 : ℚ) ^ (decExp m - 5) - m
      = ((roundHalfEven (m / (10 : ℚ) ^ (decExp m - 5)) : ℚ) - m / (10 : ℚ) ^ (decExp m - 5))
          * (10 : ℚ) ^ (decExp m - 5) := by
    rw [sub_mul, hm2]
  rw [round6_eq, hsub, abs_mul, abs_of_pos hg]
  have := mul_le_mul_of_nonneg_right h3 (le_of_lt hg)
  linarith

theorem round6_bounds (m : ℚ) (hm : 0 < m) :
    (10 : ℚ) ^ decExp m ≤ round6 m ∧ round6 m ≤ (10 : ℚ) ^ (decExp m + 1) := by
  obtain ⟨h1, h2⟩ := rounded_bounds m hm
  have hP : (0 : ℚ) < (10 : ℚ) ^ decExp m := zpow_pos (by norm_num) _
  rw [round6_eq]
  generalize roundHalfEven (m / (10 : ℚ) ^ (decExp m - 5)) = R at h1 h2 ⊢
  have h1q : (100000 : ℚ) ≤ (R : ℚ) := by exact_mod_cast h1
  have h2q : (R : ℚ) ≤ 1000000 := by exact_mod_cast h2
  rw [zpow_ten_sub_five, zpow_ten_succ]
  have hg : (0 : ℚ) ≤ (10 : ℚ) ^ decExp m / 100000 := by positivity
  constructor
  · have := mul_le_mul_of_nonneg_right h1q hg
    linarith
  · have := mul_le_mul_of_nonneg_right h2q hg
    linarith

/-- Six digits and an exponent are found again from the number they denote. -/
theorem sigDigits_sigValue (n : ℕ) (X : ℤ) (h1 : 100000 ≤ n) (h2 : n < 1000000) :
    sigDigits (sigValue (n, X)) = (n, X) := by
  have hP : (0 : ℚ) < (10 : ℚ) ^ X := zpow_pos (by norm_num) _
  have h1q : (100000 : ℚ) ≤ (n : ℚ) := by exact_mod_cast h1
  have h2q : (n : ℚ) < 1000000 := by exact_mod_cast h2
  have hexp : decExp (sigValue (n, X)) = X := by
    apply decExp_unique
    · simp only [sigValue]
      rw [zpow_ten_sub_five]
      have := mul_le_mul_of_nonneg_right h1q (le_of_lt (by positivity : (0 : ℚ) < (10 : ℚ) ^ X / 100000))
      linarith
    · simp only [sigValue]
      rw [zpow_ten_sub_five, zpow_ten_succ]
      have := mul_lt_mul_of_pos_right h2q (by positivity : (0 : ℚ) < (10 : ℚ) ^ X / 100000)
      linarith
  have hq : sigValue (n, X) / (10 : ℚ) ^ (X - 5) = (n : ℚ) := by
    simp only [sigValue]
    have hg : (10 : ℚ) ^ (X - 5) ≠ 0 := ne_of_gt (zpow_pos (by norm_num) _)
    field_simp
  unfold sigDigits
  rw [hexp, hq, roundHalfEven_natCast]
  have hne : n ≠ 1000000 := by omega
  simp [hne]

theorem round6_idem (m : ℚ) (hm : 0 < m) : sigDigits (round6 m) = sigDigits m := by
  obtain ⟨h1, h2⟩ := sigDigits_bounds m hm
  unfold round6
  exact sigDigits_sigValue (sigDigits m).1 (sigDigits m).2 h1 h2

/-! ## `roundTo6`: reading the printed text back -/

theorem foldl_digits_acc (ds : List (Fin 10)) (acc : ℕ) :
    ds.foldl (fun a d => a * 10 + d.val) acc = acc * 10 ^ ds.length + digitsVal ds := by
  induction ds generalizing acc with
  | nil => simp [digitsVal]
  | cons d ds ih =>
    simp only [List.foldl_cons, List.length_cons, digitsVal]
    rw [ih (acc * 10 + d.val), ih (0 * 10 + d.val)]
    ring

theorem digitsVal_append (a b : List (Fin 10)) :
    digitsVal (a ++ b) = digitsVal a * 10 ^ b.length + digitsVal b := by
  simp only [digitsVal, List.foldl_append]
  rw [foldl_digits_acc b]
  rfl

theorem digitsVal_replicate_zero (j : ℕ) : digitsVal (List.replicate j (0 : Fin 10)) = 0 := by
  induction j with
  | zero => rfl
  | succ j ih =>
    rw [List.replicate_succ, ← List.singleton_append, digitsVal_append, ih]
    simp [digitsVal]

theorem digitsOf_length (k n : ℕ) : (digitsOf k n).length = k := by
  induction k generalizing n with
  | zero => rfl
  | succ k ih => simp [digitsOf, ih]

theorem digitsVal_digitsOf (k n : ℕ) : digitsVal (digitsOf k n) = n % 10 ^ k := by
  induction k generalizing n with
  | zero => simp [digitsOf, digitsVal, Nat.mod_one]
  | succ k ih =>
    simp only [digitsOf]
    rw [digitsVal_append, ih]
    simp only [List.length_singleton, pow_one, digitsVal, List.foldl_cons, List.foldl_nil,
      zero_mul, zero_add]
    rw [pow_succ, mul_comm (10 ^ k) 10, Nat.mod_mul]
    ring

theorem stripZeros_spec (ds : List (Fin 10)) :
    ∃ j : ℕ, ds = stripZeros ds ++ List.replicate j 0 := by
  induction ds with
  | nil => exact ⟨0, rfl⟩
  | cons d ds ih =>
    obtain ⟨j, hj⟩ := ih
    unfold stripZeros
    cases hs : stripZeros ds with
    | nil =>
      rw [hs] at hj
      by_cases hd : d = 0
      · refine ⟨j + 1, ?_⟩
        simp only [hd, if_true, List.nil_append]
        rw [hj]
        simp [List.replicate_succ]
      · refine ⟨j, ?_⟩
        simp only [hd, if_false]
        rw [hj]
        simp
    | cons r rs =>
      rw [hs] at hj
      refine ⟨j, ?_⟩
      simp only
      rw [hj]
      simp

theorem readDigits_digits (ds : List (Fin 10)) (rest : List Char) (acc c : ℕ) :
    readDigits digitVal 10 (ds.map digitChar ++ rest) acc c
      = readDigits digitVal 10 rest (acc * 10 ^ ds.length + digitsVal ds) (c + ds.length) := by
  induction ds generalizing acc c with
  | nil => simp [digitsVal]
  | cons d ds ih =>
    simp only [List.map_cons, List.cons_append, List.length_cons]
    rw [readDigits_digit, ih]
    congr 1
    · rw [show digitsVal (d :: ds) = digitsVal ([d] ++ ds) by rfl, digitsVal_append]
      simp only [digitsVal, List.foldl_cons, List.foldl_nil, zero_mul, zero_add]
      ring
    · omega

theorem readDigits_halt (rest : List Char) (acc c : ℕ)
    (h : ∀ x t, rest = x :: t → digitVal x = none) :
    readDigits digitVal 10 rest acc c = (acc, c, rest) := by
  cases rest with
  | nil => exact readDigits_nil acc c
  | cons x t => exact readDigits_stop x t acc c (h x t rfl)

/-- The mantissa read from printed digits, a printed fraction and a rest that
starts neither with a digit nor with a point. -/
theorem readMantissa_printed (pre post : List (Fin 10)) (rest : List Char)
    (h : ∀ x t, rest = x :: t → digitVal x = none ∧ x ≠ '.') :
    readMantissa digitVal 10 (pre.map digitChar ++ fracText post ++ rest)
      = (digitsVal (pre ++ post), pre.length + post.length, post.length, rest) := by
  have hstop : ∀ x t, rest = x :: t → digitVal x = none := fun x t hx => (h x t hx).1
  unfold readMantissa fracText
  by_cases hp : post = []
  · subst hp
    simp only [if_true, List.append_nil, List.length_nil, add_zero]
    rw [readDigits_digits, readDigits_halt rest _ _ hstop]
    cases rest with
    | nil => simp
    | cons x t => simp [(h x t rfl).2]
  · simp only [hp, if_false, List.append_assoc, List.cons_append]
    rw [readDigits_digits, readDigits_stop _ _ _ _ digitVal_dot]
    simp only [if_true]
    rw [readDigits_digits, readDigits_halt rest _ _ hstop, digitsVal_append]
    simp

theorem scale_eq (b : ℕ) (k : ℤ) (mant : ℕ) :
    scale b k mant = (mant : ℚ) * (b : ℚ) ^ k := by
  unfold scale
  split_ifs with hk
  · congr 1
    rw [← zpow_natCast, Int.toNat_of_nonneg hk]
  · have hk2 : 0 ≤ -k := by omega
    rw [div_eq_mul_inv, ← zpow_natCast, Int.toNat_of_nonneg hk2, zpow_neg, inv_inv]

theorem lt_pow_width (a : ℕ) : a < 10 ^ max 2 (decLogAux a a + 1) := by
  rw [decLogAux_eq a a le_rfl]
  have h1 : a < 10 ^ (Nat.log 10 a + 1) := Nat.lt_pow_succ_log_self (by norm_num) a
  have h2 : 10 ^ (Nat.log 10 a + 1) ≤ 10 ^ max 2 (Nat.log 10 a + 1) :=
    Nat.pow_le_pow_right (by norm_num) (le_max_right _ _)
  omega

theorem readSign_minus (u : List Char) : readSign ('-' :: u) = (true, u) := by
  simp [readSign]

theorem readSign_plus (u : List Char) : readSign ('+' :: u) = (false, u) := by
  simp [readSign]

/-- The printed exponent is read back as the exponent. -/
theorem readExponent_expText (X : ℤ) :
    readExponent (fun c => c == 'e' || c == 'E') (expText X) = X := by
  have hw : max 2 (decLogAux X.natAbs X.natAbs + 1) ≠ 0 := by
    have := le_max_left 2 (decLogAux X.natAbs X.natAbs + 1)
    omega
  have hdig : readDigits digitVal 10
      ((digitsOf (max 2 (decLogAux X.natAbs X.natAbs + 1)) X.natAbs).map digitChar) 0 0
      = (X.natAbs, max 2 (decLogAux X.natAbs X.natAbs + 1), []) := by
    have h := readDigits_digits (digitsOf (max 2 (decLogAux X.natAbs X.natAbs + 1)) X.natAbs) [] 0 0
    rw [List.append_nil] at h
    rw [h, readDigits_nil, digitsVal_digitsOf, digitsOf_length, Nat.mod_eq_of_lt (lt_pow_width _)]
    simp
  unfold expText readExponent
  by_cases hX : X < 0
  · simp only [hX, if_true, readSign_minus, hdig, hw]
    simp [abs_of_neg hX]
  · simp only [hX, if_false, readSign_plus, hdig, hw]
    simp [abs_of_nonneg (not_lt.mp hX)]

theorem digitChar_not_x (d : Fin 10) : digitChar d ≠ 'x' ∧ digitChar d ≠ 'X' :=
  ⟨(digitChar_facts d).2.2.2.2.2.2.1, (digitChar_facts d).2.2.2.2.2.2.2.1⟩

theorem digits_no_x (ds : List (Fin 10)) : ∀ c ∈ ds.map digitChar, c ≠ 'x' ∧ c ≠ 'X' := by
  intro c hc
  obtain ⟨d, -, rfl⟩ := List.mem_map.mp hc
  exact digitChar_not_x d

theorem fracText_no_x (post : List (Fin 10)) : ∀ c ∈ fracText post, c ≠ 'x' ∧ c ≠ 'X' := by
  intro c hc
  unfold fracText at hc
  split_ifs at hc with hp
  · simp at hc
  · rcases List.mem_cons.mp hc with h | h
    · subst h
      decide
    · exact digits_no_x post c h

theorem expText_no_x (X : ℤ) : ∀ c ∈ expText X, c ≠ 'x' ∧ c ≠ 'X' := by
  intro c hc
  unfold expText at hc
  rcases List.mem_cons.mp hc with h | h
  · subst h
    decide
  · rcases List.mem_cons.mp h with h2 | h2
    · subst h2
      split_ifs <;> decide
    · exact digits_no_x _ c h2

theorem readHex_none_of_no_x (s : List Char) (h : ∀ c ∈ s, c ≠ 'x' ∧ c ≠ 'X') :
    readHex s = none := by
  match s with
  | [] => simp [readHex]
  | [z] => simp [readHex]
  | z :: x :: r =>
    have hx := h x (by simp)
    simp [readHex, hx.1, hx.2]

/-- A text that starts with a digit and holds no `x` is read as a decimal
constant; the sign in front, if any, is a minus. -/
theorem stod_of_readDecimal (neg : Bool) (a : Fin 10) (t : List Char)
    (hx : ∀ c ∈ t, c ≠ 'x' ∧ c ≠ 'X') (q : ℚ)
    (hq : readDecimal (digitChar a :: t) = some q) :
    stod ((if neg then ['-'] else []) ++ digitChar a :: t)
      = if overflows q || underflows q then .error .out_of_range
        else .ok (.fin (if neg then -q else q)) := by
  obtain ⟨h1, h2, h3, -, h5, h6, -, -, -⟩ := digitChar_facts a
  have hhex : readHex (digitChar a :: t) = none := by
    apply readHex_none_of_no_x
    intro c hc
    rcases List.mem_cons.mp hc with h | h
    · subst h
      exact digitChar_not_x a
    · exact hx c h
  have hnum : readNumber (digitChar a :: t) = some (.fin q) := by
    simp [readNumber, startsNoCase, h5, h6, hhex, hq]
  have hsp : isSpace '-' = false := by decide
  cases neg with
  | true =>
    simp only [if_true, List.singleton_append]
    unfold stod
    rw [List.dropWhile_cons_of_neg (by simp [hsp])]
    simp [readSign, hnum]
  | false =>
    simp only [Bool.false_eq_true, if_false, List.nil_append]
    unfold stod
    rw [List.dropWhile_cons_of_neg (by simp [h1])]
    simp [readSign, h2, h3, hnum]

theorem readDecimal_printed (a : Fin 10) (pre post : List (Fin 10)) (rest : List Char) (E : ℤ)
    (h : ∀ x t, rest = x :: t → digitVal x = none ∧ x ≠ '.')
    (hE : readExponent (fun c => c == 'e' || c == 'E') rest = E) :
    readDecimal ((a :: pre).map digitChar ++ fracText post ++ rest)
      = some ((digitsVal (a :: pre ++ post) : ℚ) * (10 : ℚ) ^ (E - (post.length : ℤ))) := by
  unfold readDecimal
  rw [readMantissa_printed (a :: pre) post rest h]
  simp only [List.length_cons, hE]
  rw [if_neg (by omega), scale_eq]
  simp

/-- The value of printed digits: with `j` trailing zeros removed from a digit
string of `L` places after the point, nothing is lost. -/
theorem printed_value (n : ℕ) (whole post : List (Fin 10)) (j L : ℕ) (E X : ℤ)
    (hsplit : digitsVal whole * 10 ^ j = n) (hlen : post.length + j = L)
    (hEX : E - (L : ℤ) = X - 5) :
    (digitsVal whole : ℚ) * (10 : ℚ) ^ (E - (post.length : ℤ)) = sigValue (n, X) := by
  have hE : E - (post.length : ℤ) = (X - 5) + (j : ℤ) := by
    have : (L : ℤ) = (post.length : ℤ) + (j : ℤ) := by exact_mod_cast hlen.symm
    omega
  simp only [sigValue]
  rw [hE, zpow_add₀ (by norm_num : (10 : ℚ) ≠ 0), zpow_natCast, ← hsplit]
  push_cast
  ring

theorem digitsVal_strip (pre tail : List (Fin 10)) :
    ∃ j : ℕ, (stripZeros tail).length + j = tail.length
      ∧ digitsVal (pre ++ stripZeros tail) * 10 ^ j = digitsVal (pre ++ tail) := by
  obtain ⟨j, hj⟩ := stripZeros_spec tail
  refine ⟨j, ?_, ?_⟩
  · have := congrArg List.length hj
    simp only [List.length_append, List.length_replicate] at this
    omega
  · nth_rewrite 2 [hj]
    rw [← List.append_assoc, digitsVal_append (pre ++ stripZeros tail), digitsVal_replicate_zero]
    simp

theorem digitsOf_six (n : ℕ) (hn : n < 1000000) :
    ∃ (a : Fin 10) (ds : List (Fin 10)), digitsOf 6 n = a :: ds ∧ ds.length = 5
      ∧ digitsVal (a :: ds) = n := by
  have hlen := digitsOf_length 6 n
  have hval := digitsVal_digitsOf 6 n
  rw [Nat.mod_eq_of_lt (by norm_num; exact hn)] at hval
  cases hds : digitsOf 6 n with
  | nil => rw [hds] at hlen; simp at hlen
  | cons a ds =>
    rw [hds] at hlen hval
    refine ⟨a, ds, rfl, ?_, hval⟩
    simpa using hlen

theorem expText_head (X : ℤ) :
    ∀ x t, expText X = x :: t → digitVal x = none ∧ x ≠ '.' := by
  intro x t h
  unfold expText at h
  injection h with h1 h2
  subst h1
  decide

theorem nil_head : ∀ (x : Char) (t : List Char), ([] : List Char) = x :: t →
    digitVal x = none ∧ x ≠ '.' := by
  intro x t h
  cases h

theorem readExponent_nil : readExponent (fun c => c == 'e' || c == 'E') [] = 0 := by
  simp [readExponent]

theorem append_no_x (s t : List Char) (hs : ∀ c ∈ s, c ≠ 'x' ∧ c ≠ 'X')
    (ht : ∀ c ∈ t, c ≠ 'x' ∧ c ≠ 'X') : ∀ c ∈ s ++ t, c ≠ 'x' ∧ c ≠ 'X' := by
  intro c hc
  rcases List.mem_append.mp hc with h | h
  · exact hs c h
  · exact ht c h

/-- The printed magnitude starts with a digit, holds no `x`, and is read back
as the number its six digits and exponent denote. -/
theorem gText_read (n : ℕ) (X : ℤ) (hn : n < 1000000) :
    ∃ (a : Fin 10) (t : List Char), gText n X = digitChar a :: t
      ∧ (∀ c ∈ t, c ≠ 'x' ∧ c ≠ 'X')
      ∧ readDecimal (digitChar a :: t) = some (sigValue (n, X)) := by
  obtain ⟨a, ds, hds, hlen, hval⟩ := digitsOf_six n hn
  unfold gText
  rw [hds]
  by_cases h1 : X < -4 ∨ 6 ≤ X
  · rw [if_pos h1]
    obtain ⟨j, hj1, hj2⟩ := digitsVal_strip [a] ds
    have hread := readDecimal_printed a [] (stripZeros ds) (expText X) X (expText_head X)
      (readExponent_expText X)
    rw [printed_value n ([a] ++ stripZeros ds) (stripZeros ds) j 5 X X
      (by rw [hj2]; exact hval) (by omega) (by ring)] at hread
    refine ⟨a, fracText (stripZeros ds) ++ expText X, by simp, ?_, ?_⟩
    · exact append_no_x _ _ (fracText_no_x _) (expText_no_x X)
    · simpa using hread
  · rw [if_neg h1]
    by_cases h2 : 0 ≤ X
    · rw [if_pos h2]
      have hk : X.toNat ≤ 5 := by omega
      obtain ⟨j, hj1, hj2⟩ := digitsVal_strip (a :: ds.take X.toNat) (ds.drop X.toNat)
      have hwhole : a :: ds.take X.toNat ++ ds.drop X.toNat = a :: ds := by
        rw [List.cons_append, List.take_append_drop]
      have hread := readDecimal_printed a (ds.take X.toNat) (stripZeros (ds.drop X.toNat)) [] 0
        nil_head readExponent_nil
      rw [printed_value n (a :: ds.take X.toNat ++ stripZeros (ds.drop X.toNat))
        (stripZeros (ds.drop X.toNat)) j (5 - X.toNat) 0 X
        (by rw [hj2, hwhole]; exact hval)
        (by rw [hj1, List.length_drop, hlen])
        (by have := Int.toNat_of_nonneg h2; omega)] at hread
      refine ⟨a, (ds.take X.toNat).map digitChar ++ fracText (stripZeros (ds.drop X.toNat)),
        by simp, ?_, ?_⟩
      · exact append_no_x _ _ (digits_no_x _) (fracText_no_x _)
      · simpa using hread
    · rw [if_neg h2]
      obtain ⟨j, hj1, hj2⟩ :=
        digitsVal_strip [0] (List.replicate (X.natAbs - 1) 0 ++ (a :: ds))
      have hzero : digitsVal ([0] ++ (List.replicate (X.natAbs - 1) 0 ++ (a :: ds))) = n := by
        rw [← List.append_assoc, digitsVal_append, hval]
        have hz : digitsVal ([0] ++ List.replicate (X.natAbs - 1) (0 : Fin 10)) = 0 := by
          rw [digitsVal_append, digitsVal_replicate_zero]
          simp [digitsVal]
        rw [hz]
        simp
      have hread := readDecimal_printed 0 []
        (stripZeros (List.replicate (X.natAbs - 1) 0 ++ (a :: ds))) [] 0 nil_head readExponent_nil
      rw [printed_value n ([0] ++ stripZeros (List.replicate (X.natAbs - 1) 0 ++ (a :: ds)))
        (stripZeros (List.replicate (X.natAbs - 1) 0 ++ (a :: ds))) j (X.natAbs - 1 + 6) 0 X
        (by rw [hj2]; exact hzero)
        (by rw [hj1]; simp [hlen])
        (by omega)] at hread
      refine ⟨0, fracText (stripZeros (List.replicate (X.natAbs - 1) 0 ++ (a :: ds))),
        by rfl, fracText_no_x _, ?_⟩
      simpa using hread

/-- What `roundTo6` does with a non-zero finite number: the number rounded to
six significant digits comes back, unless `stod` finds it out of range. -/
theorem roundTo6_fin (x : ℚ) (hx : x ≠ 0) :
    roundTo6 (.fin x)
      = if overflows (round6 |x|) || underflows (round6 |x|) then .error .out_of_range
        else .ok (.fin (if x < 0 then -round6 |x| else round6 |x|)) := by
  have hm : 0 < |x| := abs_pos.mpr hx
  obtain ⟨a, t, htext, hnox, hread⟩ :=
    gText_read (sigDigits |x|).1 (sigDigits |x|).2 (sigDigits_bounds |x| hm).2
  have hstod := stod_of_readDecimal (decide (x < 0)) a t hnox _ hread
  simp only [roundTo6, formatG6, if_neg hx, htext]
  by_cases hneg : x < 0
  · simp only [hneg, decide_True, if_true] at hstod ⊢
    exact hstod
  · simp only [hneg, decide_False, if_false, Bool.false_eq_true] at hstod ⊢
    exact hstod

theorem roundTo6_zero : roundTo6 (.fin 0) = .ok (.fin 0) := by
  decide!

theorem roundTo6_nonfinite : roundTo6 .nonfinite = .ok .nonfinite := by
  decide!

/-! ## `roundTo6`: nearness and range -/

theorem decExp_ge (m : ℚ) (e : ℤ) (h : (10 : ℚ) ^ e ≤ m) : e ≤ decExp m := by
  have hm : 0 < m := lt_of_lt_of_le (zpow_pos (by norm_num) e) h
  rw [decExp_eq_log, ← Int.zpow_le_iff_le_log (by norm_num : 1 < 10) hm]
  exact_mod_cast h

theorem decExp_lt_of (m : ℚ) (hm : 0 < m) (e : ℤ) (h : m < (10 : ℚ) ^ e) : decExp m < e := by
  rw [decExp_eq_log, ← Int.lt_zpow_iff_log_lt (by norm_num : 1 < 10) hm]
  exact_mod_cast h

/-- Within `1e-307 ≤ m < 1e308` the rounded number is in the range of `stod`. -/
theorem round6_in_range (m : ℚ) (h1 : 1 / (10 : ℚ) ^ 307 ≤ m) (h2 : m < (10 : ℚ) ^ 308) :
    overflows (round6 m) = false ∧ underflows (round6 m) = false := by
  have hm : 0 < m := lt_of_lt_of_le (one_div_pos.mpr (pow_pos (by norm_num) 307)) h1
  obtain ⟨hlo, hhi⟩ := round6_bounds m hm
  have he1 : (-307 : ℤ) ≤ decExp m := by
    apply decExp_ge
    rw [zpow_neg, ← one_div, show (10 : ℚ) ^ (307 : ℤ) = (10 : ℚ) ^ 307 from zpow_natCast 10 307]
    exact h1
  have he2 : decExp m + 1 ≤ 308 := by
    have := decExp_lt_of m hm 308
      (by rw [show (10 : ℚ) ^ (308 : ℤ) = (10 : ℚ) ^ 308 from zpow_natCast 10 308]; exact h2)
    omega
  have hlo2 : 1 / (10 : ℚ) ^ 307 ≤ round6 m := by
    have h3 : (10 : ℚ) ^ (-307 : ℤ) ≤ (10 : ℚ) ^ decExp m := zpow_le_zpow_right₀ (by norm_num) he1
    rw [zpow_neg, ← one_div] at h3
    rw [show (10 : ℚ) ^ (307 : ℤ) = (10 : ℚ) ^ 307 from zpow_natCast 10 307] at h3
    linarith
  have hhi2 : round6 m ≤ (10 : ℚ) ^ 308 := by
    have h3 : (10 : ℚ) ^ (decExp m + 1) ≤ (10 : ℚ) ^ (308 : ℤ) := zpow_le_zpow_right₀ (by norm_num) he2
    rw [show (10 : ℚ) ^ (308 : ℤ) = (10 : ℚ) ^ 308 from zpow_natCast 10 308] at h3
    linarith
  constructor
  · have hbig : (10 : ℚ) ^ 308 < (2 : ℚ) ^ 1024 - (2 : ℚ) ^ 970 := by norm_num
    simp only [overflows, decide_eq_false_iff_not, not_le]
    linarith
  · have hsmall : 1 / (2 : ℚ) ^ 1022 - 1 / (2 : ℚ) ^ 1076 < 1 / (10 : ℚ) ^ 307 := by norm_num
    simp only [underflows, decide_eq_false_iff_not, not_and, not_lt]
    intro _ hlt
    linarith

/-- The rounded number is within half a unit of the sixth digit, hence within
`5e-6` of the number, relatively. -/
theorem round6_relative (m : ℚ) (hm : 0 < m) : |round6 m - m| ≤ 5 / 1000000 * m := by
  have h1 := round6_error m hm
  have h2 := decExp_le m hm
  rw [zpow_ten_sub_five] at h1
  linarith

/-- No number with at most six significant digits is nearer than the rounded one. -/
theorem round6_nearest (m : ℚ) (hm : 0 < m) (k j : ℤ) (hk : |k| < 1000000) :
    |round6 m - m| ≤ |(k : ℚ) * (10 : ℚ) ^ j - m| := by
  have hg : (0 : ℚ) < (10 : ℚ) ^ (decExp m - 5) := zpow_pos (by norm_num) _
  have ht := (scaled_bounds m hm).1
  have ht0 : (0 : ℚ) ≤ m / (10 : ℚ) ^ (decExp m - 5) := le_trans (by norm_num) ht
  have hm2 : m / (10 : ℚ) ^ (decExp m - 5) * (10 : ℚ) ^ (decExp m - 5) = m := by
    field_simp
  have hsub : ∀ K : ℤ, (K : ℚ) * (10 : ℚ) ^ (decExp m - 5) - m
      = ((K : ℚ) - m / (10 : ℚ) ^ (decExp m - 5)) * (10 : ℚ) ^ (decExp m - 5) := by
    intro K
    rw [sub_mul, hm2]
  have hR : |round6 m - m|
      = |(roundHalfEven (m / (10 : ℚ) ^ (decExp m - 5)) : ℚ) - m / (10 : ℚ) ^ (decExp m - 5)|
          * (10 : ℚ) ^ (decExp m - 5) := by
    rw [round6_eq]
    have := hsub (roundHalfEven (m / (10 : ℚ) ^ (decExp m - 5)) : ℤ)
    push_cast at this
    rw [this, abs_mul, abs_of_pos hg]
  have hgrid : ∀ K : ℤ, |round6 m - m| ≤ |(K : ℚ) * (10 : ℚ) ^ (decExp m - 5) - m| := by
    intro K
    rw [hR, hsub K, abs_mul, abs_of_pos hg]
    exact mul_le_mul_of_nonneg_right (roundHalfEven_nearest _ ht0 K) (le_of_lt hg)
  by_cases hj : decExp m - 5 ≤ j
  · -- `k * 10 ^ j` lies on the grid of the sixth digit
    have hd : (10 : ℚ) ^ j = ((10 ^ (j - (decExp m - 5)).toNat : ℤ) : ℚ) * (10 : ℚ) ^ (decExp m - 5) := by
      push_cast
      rw [← zpow_natCast, Int.toNat_of_nonneg (by omega), ← zpow_add₀ (by norm_num : (10 : ℚ) ≠ 0)]
      congr 1
      ring
    have := hgrid (k * 10 ^ (j - (decExp m - 5)).toNat)
    rw [hd, ← mul_assoc]
    push_cast at this ⊢
    exact this
  · -- `k * 10 ^ j` is below `10 ^ e`, which is on the grid and at most `m`
    have hj2 : j ≤ decExp m - 6 := by omega
    have hP : (0 : ℚ) < (10 : ℚ) ^ (decExp m - 6) := zpow_pos (by norm_num) _
    have hpow : (10 : ℚ) ^ j ≤ (10 : ℚ) ^ (decExp m - 6) := zpow_le_zpow_right₀ (by norm_num) hj2
    have hpj : (0 : ℚ) < (10 : ℚ) ^ j := zpow_pos (by norm_num) _
    have he : (10 : ℚ) ^ decExp m = 1000000 * (10 : ℚ) ^ (decExp m - 6) := by
      rw [zpow_sub₀ (by norm_num : (10 : ℚ) ≠ 0)]
      norm_num
      ring
    have he5 : (10 : ℚ) ^ (decExp m - 5) = 10 * (10 : ℚ) ^ (decExp m - 6) := by
      rw [zpow_sub₀ (by norm_num : (10 : ℚ) ≠ 0), zpow_sub₀ (by norm_num : (10 : ℚ) ≠ 0)]
      norm_num
      ring
    have hkq : |(k : ℚ)| ≤ 999999 := by
      have : |k| ≤ 999999 := by omega
      exact_mod_cast this
    have hy : |(k : ℚ) * (10 : ℚ) ^ j| ≤ 999999 * (10 : ℚ) ^ (decExp m - 6) := by
      rw [abs_mul, abs_of_pos hpj]
      calc |(k : ℚ)| * (10 : ℚ) ^ j ≤ 999999 * (10 : ℚ) ^ j :=
            mul_le_mul_of_nonneg_right hkq (le_of_lt hpj)
        _ ≤ 999999 * (10 : ℚ) ^ (decExp m - 6) :=
            mul_le_mul_of_nonneg_left hpow (by norm_num)
    have hle := decExp_le m hm
    have h100 := hgrid 100000
    have h100' : (((100000 : ℤ) : ℚ)) * (10 : ℚ) ^ (decExp m - 5) - m = -(m - (10 : ℚ) ^ decExp m) := by
      rw [he5, he]
      push_cast
      ring
    rw [h100', abs_neg, abs_of_nonneg (by linarith : (0 : ℚ) ≤ m - (10 : ℚ) ^ decExp m)] at h100
    have hlow : m - |(k : ℚ) * (10 : ℚ) ^ j| ≤ |(k : ℚ) * (10 : ℚ) ^ j - m| := by
      have h1 := abs_sub_abs_le_abs_sub m ((k : ℚ) * (10 : ℚ) ^ j)
      rw [abs_of_pos hm, abs_sub_comm] at h1
      exact h1
    linarith

theorem round6_pos (m : ℚ) (hm : 0 < m) : 0 < round6 m :=
  lt_of_lt_of_le (zpow_pos (by norm_num) _) (round6_bounds m hm).1

theorem round6_round6 (m : ℚ) (hm : 0 < m) : round6 (round6 m) = round6 m := by
  have h := round6_idem m hm
  unfold round6 at h ⊢
  rw [h]

/-- A number that `roundTo6` returns is returned again when handed back. -/
theorem roundTo6_fixed (x r : ℚ) (h : roundTo6 (.fin x) = .ok (.fin r)) :
    roundTo6 (.fin r) = .ok (.fin r) := by
  by_cases hx : x = 0
  · subst hx
    rw [roundTo6_zero] at h
    injection h with h1
    injection h1 with h2
    subst h2
    exact roundTo6_zero
  · have hm : 0 < |x| := abs_pos.mpr hx
    have hR := round6_pos |x| hm
    rw [roundTo6_fin x hx] at h
    split_ifs at h with hrange hneg
    · injection h with h1
      injection h1 with h2
      subst h2
      have hne : -round6 |x| ≠ 0 := by linarith
      rw [roundTo6_fin _ hne, abs_neg, abs_of_pos hR, round6_round6 |x| hm, if_neg hrange,
        if_pos (by linarith)]
    · injection h with h1
      injection h1 with h2
      subst h2
      have hne : round6 |x| ≠ 0 := ne_of_gt hR
      rw [roundTo6_fin _ hne, abs_of_pos hR, round6_round6 |x| hm, if_neg hrange,
        if_neg (by linarith)]

/-- Within `1e-307 ≤ |x| < 1e308`, `roundTo6` returns `x` rounded to six
significant digits. -/
theorem roundTo6_returns (x : ℚ) (h1 : 1 / (10 : ℚ) ^ 307 ≤ |x|) (h2 : |x| < (10 : ℚ) ^ 308) :
    roundTo6 (.fin x) = .ok (.fin (if x < 0 then -round6 |x| else round6 |x|)) := by
  have hm : 0 < |x| := lt_of_lt_of_le (one_div_pos.mpr (pow_pos (by norm_num) 307)) h1
  obtain ⟨ho, hu⟩ := round6_in_range |x| h1 h2
  rw [roundTo6_fin x (abs_pos.mp hm), ho, hu]
  simp

/-! ## Claims on `roundTo6` -/

/-- C12, counterexample: for the non-zero input `1e-310` no number comes back;
the text `1e-310` that `roundTo6` prints makes `stod` throw `out_of_range`. -/
theorem roundTo6_tiny_throws :
    (1e-310 : ℚ) ≠ 0 ∧ roundTo6 (.fin 1e-310) = .error .out_of_range := by
  refine ⟨by norm_num, by decide!⟩

/-- C12, amended: for every input `x` with `1e-307 ≤ |x| < 1e308`, `roundTo6`
returns a number `r` with at most six significant decimal digits, no such
number is nearer to `x` than `r`, and `|r - x| ≤ 5e-6 * |x|`; it is six
significant digits, not six decimal places: `roundTo6(123456.7) = 123457` and
`roundTo6(0.1234567) = 0.123457`. -/
theorem roundTo6_six_significant (x : ℚ) (h1 : 1 / (10 : ℚ) ^ 307 ≤ |x|)
    (h2 : |x| < (10 : ℚ) ^ 308) :
    (∃ r : ℚ, roundTo6 (.fin x) = .ok (.fin r)
        ∧ (∃ k j : ℤ, |k| < 1000000 ∧ r = (k : ℚ) * (10 : ℚ) ^ j)
        ∧ (∀ k j : ℤ, |k| < 1000000 → |r - x| ≤ |(k : ℚ) * (10 : ℚ) ^ j - x|)
        ∧ |r - x| ≤ 5 / 1000000 * |x|)
      ∧ roundTo6 (.fin 123456.7) = .ok (.fin 123457)
      ∧ roundTo6 (.fin 0.1234567) = .ok (.fin 0.123457) := by
  refine ⟨?_, by decide!, by decide!⟩
  have hm : 0 < |x| := lt_of_lt_of_le (one_div_pos.mpr (pow_pos (by norm_num) 307)) h1
  have hx : x ≠ 0 := abs_pos.mp hm
  obtain ⟨ho, hu⟩ := round6_in_range |x| h1 h2
  obtain ⟨hn1, hn2⟩ := sigDigits_bounds |x| hm
  have hnq : ((sigDigits |x|).1 : ℤ) < 1000000 := by exact_mod_cast hn2
  rw [roundTo6_fin x hx, ho, hu]
  simp only [Bool.or_self, Bool.false_eq_true, if_false]
  by_cases hneg : x < 0
  · have hxm : x = -|x| := by rw [abs_of_neg hneg, neg_neg]
    refine ⟨-round6 |x|, by rw [if_pos hneg], ⟨-((sigDigits |x|).1 : ℤ), (sigDigits |x|).2 - 5, ?_, ?_⟩,
      ?_, ?_⟩
    · rw [abs_neg, abs_of_nonneg (by positivity)]
      exact hnq
    · simp only [round6, sigValue]
      push_cast
      ring
    · intro k j hk
      have hk2 : |(-k)| < 1000000 := by rwa [abs_neg]
      have h := round6_nearest |x| hm (-k) j hk2
      have e1 : -round6 |x| - x = -(round6 |x| - |x|) := by
        nth_rewrite 2 [hxm]
        ring
      have e2 : (k : ℚ) * (10 : ℚ) ^ j - x = -(((-k : ℤ) : ℚ) * (10 : ℚ) ^ j - |x|) := by
        nth_rewrite 1 [hxm]
        push_cast
        ring
      rw [e1, e2, abs_neg, abs_neg]
      exact h
    · have e1 : -round6 |x| - x = -(round6 |x| - |x|) := by
        nth_rewrite 2 [hxm]
        ring
      rw [e1, abs_neg]
      exact round6_relative |x| hm
  · have hxm : |x| = x := abs_of_nonneg (not_lt.mp hneg)
    refine ⟨round6 |x|, by rw [if_neg hneg], ⟨((sigDigits |x|).1 : ℤ), (sigDigits |x|).2 - 5, ?_, ?_⟩,
      ?_, ?_⟩
    · rw [abs_of_nonneg (by positivity)]
      exact hnq
    · simp only [round6, sigValue]
      push_cast
      ring
    · intro k j hk
      have h := round6_nearest |x| hm k j hk
      rw [hxm] at h ⊢
      exact h
    · have h := round6_relative |x| hm
      rw [hxm] at h ⊢
      exact h

/-- Witness for C12, amended: the input `123456.7`. -/
theorem roundTo6_six_significant_witness :
    (∃ r : ℚ, roundTo6 (.fin 123456.7) = .ok (.fin r)
        ∧ (∃ k j : ℤ, |k| < 1000000 ∧ r = (k : ℚ) * (10 : ℚ) ^ j)
        ∧ (∀ k j : ℤ, |k| < 1000000 → |r - 123456.7| ≤ |(k : ℚ) * (10 : ℚ) ^ j - 123456.7|)
        ∧ |r - 123456.7| ≤ 5 / 1000000 * |(123456.7 : ℚ)|)
      ∧ roundTo6 (.fin 123456.7) = .ok (.fin 123457)
      ∧ roundTo6 (.fin 0.1234567) = .ok (.fin 0.123457) :=
  roundTo6_six_significant 123456.7
    (by rw [abs_of_pos (by norm_num)]; norm_num)
    (by rw [abs_of_pos (by norm_num)]; norm_num)

/-- C17: `roundTo6(roundTo6(x)) = roundTo6(x)` for every input (an exception of
the inner call being the outcome of both sides); for `1e-307 ≤ |x| < 1e308`
both sides are a number `r`, and `roundTo6(r) = r`: a value that is already
rounded to six significant digits is unchanged. -/
theorem roundTo6_idempotent :
    (∀ x : Dbl, (roundTo6 x >>= roundTo6) = roundTo6 x)
      ∧ (∀ x : ℚ, 1 / (10 : ℚ) ^ 307 ≤ |x| → |x| < (10 : ℚ) ^ 308 →
          ∃ r : ℚ, roundTo6 (.fin x) = .ok (.fin r) ∧ roundTo6 (.fin r) = .ok (.fin r)) := by
  constructor
  · intro x
    cases hr : roundTo6 x with
    | error e => rfl
    | ok y =>
      show roundTo6 y = .ok y
      cases x with
      | nonfinite =>
        rw [roundTo6_nonfinite] at hr
        injection hr with h1
        subst h1
        exact roundTo6_nonfinite
      | fin q =>
        cases y with
        | nonfinite => exact roundTo6_nonfinite
        | fin r => exact roundTo6_fixed q r hr
  · intro x h1 h2
    have hr := roundTo6_returns x h1 h2
    exact ⟨_, hr, roundTo6_fixed x _ hr⟩

/-! ## `str2LatLon`: which latitudes are rejected -/

theorem readDigits_count_ge (dv : Char → Option Nat) (b : Nat) (s : List Char) (acc n : Nat) :
    n ≤ (readDigits dv b s acc n).2.1 := by
  induction s generalizing acc n with
  | nil => simp [readDigits]
  | cons c cs ih =>
    unfold readDigits
    cases hd : dv c with
    | none => simp
    | some d =>
      simp only
      exact le_trans (Nat.le_succ n) (ih _ _)

theorem readMantissa_count_of_digit (c : Char) (t : List Char) (d : Nat)
    (hc : digitVal c = some d) : (readMantissa digitVal 10 (c :: t)).2.1 ≠ 0 := by
  have h1 : 1 ≤ (readDigits digitVal 10 (c :: t) 0 0).2.1 := by
    rw [show readDigits digitVal 10 (c :: t) 0 0 = readDigits digitVal 10 t (0 * 10 + d) (0 + 1) by
      simp [readDigits, hc]]
    exact readDigits_count_ge _ _ _ _ _
  unfold readMantissa
  rcases hr : readDigits digitVal 10 (c :: t) 0 0 with ⟨ip, n1, rest⟩
  rw [hr] at h1
  simp only at h1
  cases rest with
  | nil => simp only; omega
  | cons x r =>
    simp only
    split_ifs
    · simp only; omega
    · simp only; omega

theorem readMantissa_count_of_dot (t : List Char) (x : Char) (r : List Char) (d : Nat)
    (ht : t = x :: r) (hx : digitVal x = some d) :
    (readMantissa digitVal 10 ('.' :: t)).2.1 ≠ 0 := by
  subst ht
  have h1 : 1 ≤ (readDigits digitVal 10 (x :: r) 0 0).2.1 := by
    rw [show readDigits digitVal 10 (x :: r) 0 0 = readDigits digitVal 10 r (0 * 10 + d) (0 + 1) by
      simp [readDigits, hx]]
    exact readDigits_count_ge _ _ _ _ _
  unfold readMantissa
  rw [readDigits_stop _ _ _ _ digitVal_dot]
  simp only [if_true, zero_add]
  exact Nat.pos_iff_ne_zero.mp h1

theorem readDecimal_some_of_count (s : List Char) (h : (readMantissa digitVal 10 s).2.1 ≠ 0) :
    ∃ q, readDecimal s = some q := by
  unfold readDecimal
  rcases hr : readMantissa digitVal 10 s with ⟨mant, n, nfrac, r⟩
  rw [hr] at h
  simp only at h
  simp only [if_neg h]
  exact ⟨_, rfl⟩

/-- A text that a number can start is read by `readNumber`. -/
theorem readNumber_of_numericStart (s : List Char) (h : numericStart s = true) :
    ∃ v, readNumber (readSign (s.dropWhile isSpace)).2 = some v := by
  unfold numericStart at h
  cases hu : (readSign (List.dropWhile isSpace s)).2 with
  | nil => rw [hu] at h; simp at h
  | cons c t =>
    rw [hu] at h
    unfold readNumber
    split_ifs with hword
    · exact ⟨_, rfl⟩
    · have hword2 : startsNoCase ['i', 'n', 'f'] (c :: t) = false
          ∧ startsNoCase ['n', 'a', 'n'] (c :: t) = false := by
        simpa using hword
      simp only [hword2.1, hword2.2, Bool.or_false] at h
      cases hhex : readHex (c :: t) with
      | some q => exact ⟨_, rfl⟩
      | none =>
        have hdec : ∃ q, readDecimal (c :: t) = some q := by
          apply readDecimal_some_of_count
          cases hc : digitVal c with
          | some d => exact readMantissa_count_of_digit c t d hc
          | none =>
            simp only [hc, Option.isSome_none, Bool.false_or, Bool.and_eq_true,
              beq_iff_eq] at h
            obtain ⟨hdot, hnext⟩ := h
            subst hdot
            cases t with
            | nil => simp at hnext
            | cons x r =>
              cases hx : digitVal x with
              | none => simp [hx] at hnext
              | some d => exact readMantissa_count_of_dot (x :: r) x r d rfl hx
        obtain ⟨q, hq⟩ := hdec
        exact ⟨.fin q, by simp [hq]⟩

/-- `stod` throws exactly on the texts that are `unreadable`. -/
theorem stod_error_iff (s : List Char) : (∃ e, stod s = .error e) ↔ unreadable s = true := by
  unfold unreadable outOfRange
  cases hns : numericStart s with
  | false =>
    simp only [Bool.not_false, Bool.true_or, iff_true]
    exact ⟨_, stod_invalid s hns⟩
  | true =>
    obtain ⟨v, hv⟩ := readNumber_of_numericStart s hns
    unfold stod
    rcases hsplit : readSign (List.dropWhile isSpace s) with ⟨neg, u⟩
    rw [hsplit] at hv
    simp only at hv
    simp only [hv, Bool.not_true, Bool.false_or]
    cases v with
    | nonfinite => simp
    | fin q =>
      simp only
      split_ifs with hr
      · simp [hr]
      · simp [hr]

theorem stod_ok_of_readable (s : List Char) (h : unreadable s = false) :
    ∃ v, stod s = .ok v := by
  cases hs : stod s with
  | ok v => exact ⟨v, rfl⟩
  | error e =>
    have := (stod_error_iff s).mp ⟨e, hs⟩
    rw [h] at this
    cases this

theorem field_ok (s : List Char) (p len : Nat) (hp : p ≤ s.length)
    (h : unreadable ((s.drop p).take len) = false) :
    ∃ v, (substr s p len >>= stod) = .ok v := by
  obtain ⟨v, hv⟩ := stod_ok_of_readable _ h
  exact ⟨v, by simp [substr, Nat.not_lt.mpr hp, bind, Except.bind, hv]⟩

theorem field_error_of_unreadable (s : List Char) (p len : Nat)
    (h : unreadable ((s.drop p).take len) = true) :
    ∃ e, (substr s p len >>= stod) = .error e := by
  by_cases hp : p > s.length
  · exact ⟨.out_of_range, by simp [substr, hp, bind, Except.bind]⟩
  · obtain ⟨e, he⟩ := (stod_error_iff _).mpr h
    exact ⟨e, by simp [substr, hp, bind, Except.bind, he]⟩

/-- `str2LatLon` throws exactly when one of the six fields cannot be read. -/
theorem str2LatLon_error_iff (lat lon : List Char) :
    (∃ e, str2LatLon lat lon = .error e)
      ↔ ((∃ e, (substr lat 1 2 >>= stod) = .error e) ∨ (∃ e, (substr lat 4 2 >>= stod) = .error e)
          ∨ (∃ e, (substr lat 7 5 >>= stod) = .error e))
        ∨ ((∃ e, (substr lon 2 3 >>= stod) = .error e)
          ∨ (∃ e, (substr lon 5 2 >>= stod) = .error e)
          ∨ (∃ e, (substr lon 8 5 >>= stod) = .error e)) := by
  unfold str2LatLon
  generalize (substr lat 1 2 >>= stod) = f1
  generalize (substr lat 4 2 >>= stod) = f2
  generalize (substr lat 7 5 >>= stod) = f3
  generalize (substr lon 2 3 >>= stod) = f4
  generalize (substr lon 5 2 >>= stod) = f5
  generalize (substr lon 8 5 >>= stod) = f6
  cases f1 <;> cases f2 <;> cases f3 <;> cases f4 <;> cases f5 <;> cases f6 <;>
    simp [bind, Except.bind, pure, Except.pure]

/-- A field is read exactly when it is not `unreadable`; a field that starts
beyond the end of the string is empty past its end, hence unreadable. -/
theorem field_error_iff (s : List Char) (p len : Nat) :
    (∃ e, (substr s p len >>= stod) = .error e) ↔ unreadable ((s.drop p).take len) = true := by
  constructor
  · intro herr
    by_contra hnot
    rw [Bool.not_eq_true] at hnot
    by_cases hp : p ≤ s.length
    · obtain ⟨v, hv⟩ := field_ok s p len hp hnot
      obtain ⟨e, he⟩ := herr
      rw [hv] at he
      cases he
    · have hnil : List.drop p s = [] := List.drop_eq_nil_of_le (by omega)
      rw [hnil, List.take_nil] at hnot
      revert hnot
      decide
  · exact field_error_of_unreadable s p len

/-- C5, amended: `str2LatLon` does not check the form of its arguments.  It
throws exactly when one of the six fields it cuts out (of the latitude at the
offsets 1, 4 and 7, of the longitude at the offsets 2, 5 and 8) is unreadable
for `stod`: no number starts the field, as when the string ends before it, or
the number is outside the range of a `double`.  Every other pair of strings
returns a `LatLon`.  So `N4-50-5.778` returns `LAT = 4 + 0/60 + 0.778/3600`,
and `N41-50-1e999`, whose seconds field starts with a number too large for a
`double`, throws `out_of_range`. -/
theorem latitude_rejected_iff (lat lon : List Char) :
    ((∃ e, str2LatLon lat lon = .error e)
        ↔ ((unreadable ((lat.drop 1).take 2) = true ∨ unreadable ((lat.drop 4).take 2) = true
              ∨ unreadable ((lat.drop 7).take 5) = true)
            ∨ (unreadable ((lon.drop 2).take 3) = true ∨ unreadable ((lon.drop 5).take 2) = true
              ∨ unreadable ((lon.drop 8).take 5) = true)))
      ∧ ((∃ v, str2LatLon lat lon = .ok v)
        ↔ ¬((unreadable ((lat.drop 1).take 2) = true ∨ unreadable ((lat.drop 4).take 2) = true
              ∨ unreadable ((lat.drop 7).take 5) = true)
            ∨ (unreadable ((lon.drop 2).take 3) = true ∨ unreadable ((lon.drop 5).take 2) = true
              ∨ unreadable ((lon.drop 8).take 5) = true)))
      ∧ (lat.length ≤ 7 → unreadable ((lat.drop 7).take 5) = true)
      ∧ (str2LatLon "N4-50-5.778".toList "W111-54-34.85".toList).map LatLon.LAT
          = .ok (.fin (4 + 0 / 60 + 0.778 / 3600))
      ∧ str2LatLon "N41-50-1e999".toList "W111-54-34.85".toList = .error .out_of_range := by
  have hiff : (∃ e, str2LatLon lat lon = .error e)
      ↔ ((unreadable ((lat.drop 1).take 2) = true ∨ unreadable ((lat.drop 4).take 2) = true
            ∨ unreadable ((lat.drop 7).take 5) = true)
          ∨ (unreadable ((lon.drop 2).take 3) = true ∨ unreadable ((lon.drop 5).take 2) = true
            ∨ unreadable ((lon.drop 8).take 5) = true)) := by
    rw [str2LatLon_error_iff, field_error_iff, field_error_iff, field_error_iff, field_error_iff,
      field_error_iff, field_error_iff]
  refine ⟨hiff, ?_, ?_, by decide!, by decide!⟩
  · rw [← hiff]
    constructor
    · rintro ⟨v, hv⟩ ⟨e, he⟩
      rw [hv] at he
      cases he
    · intro hnot
      cases hs : str2LatLon lat lon with
      | ok v => exact ⟨v, rfl⟩
      | error e => exact absurd ⟨e, hs⟩ hnot
  · intro hlen
    have hnil : List.drop 7 lat = [] := List.drop_eq_nil_of_le (by omega)
    rw [hnil]
    decide

/-! ## Exact arithmetic: the size of East -/

/-- `π` exceeds the program's half turn, `180 * piD180`, by less than `4e-17`. -/
theorem half_turn_bounds : (180 : ℝ) * piD180 < Real.pi ∧ Real.pi < 180 * piD180 + 4e-17 := by
  have h1 := Real.pi_gt_d20
  have h2 := Real.pi_lt_d20
  constructor
  · norm_num [piD180] at h1 ⊢
    linarith
  · norm_num [piD180] at h2 ⊢
    linarith

/-- The cosine of a latitude of at most 89 degrees is at least `1 / 90`. -/
theorem cos_latitude_ge (phi : ℝ) (hphi : |phi| ≤ 89) : 1 / 90 ≤ Real.cos (phi * piD180) := by
  obtain ⟨h1, h2⟩ := half_turn_bounds
  have hp := piD180_pos
  have hpi := Real.pi_pos
  have habs : Real.cos (phi * piD180) = Real.cos (|phi| * piD180) := by
    rcases abs_cases phi with ⟨h, _⟩ | ⟨h, _⟩
    · rw [h]
    · rw [h, neg_mul, Real.cos_neg]
  rw [habs, ← Real.sin_pi_div_two_sub]
  have hx0 : 0 ≤ |phi| * piD180 := mul_nonneg (abs_nonneg _) hp.le
  have hx1 : |phi| * piD180 ≤ 89 * piD180 := mul_le_mul_of_nonneg_right hphi hp.le
  have hy0 : 0 ≤ Real.pi / 2 - |phi| * piD180 := by linarith
  have hy1 : Real.pi / 2 - |phi| * piD180 ≤ Real.pi / 2 := by linarith
  have hs := Real.mul_le_sin hy0 hy1
  have hlow : 1 / 90 ≤ 2 / Real.pi * (Real.pi / 2 - |phi| * piD180) := by
    rw [div_mul_eq_mul_div, le_div_iff₀ hpi]
    linarith
  linarith

/-- The sine of a longitude difference between 0.001 and 179.999 degrees is
at least `1 / 90001`. -/
theorem sin_longitude_ge (d : ℝ) (h1 : 1 / 1000 ≤ d) (h2 : d ≤ 179999 / 1000) :
    1 / 90001 ≤ Real.sin (d * piD180) := by
  obtain ⟨hp1, hp2⟩ := half_turn_bounds
  have hp := piD180_pos
  have hpi := Real.pi_pos
  have hx1 : 1 / 1000 * piD180 ≤ d * piD180 := mul_le_mul_of_nonneg_right h1 hp.le
  have hx2 : d * piD180 ≤ 179999 / 1000 * piD180 := mul_le_mul_of_nonneg_right h2 hp.le
  have key : ∀ y : ℝ, 1 / 1000 * piD180 ≤ y → y ≤ Real.pi / 2 → 1 / 90001 ≤ Real.sin y := by
    intro y hy1 hy2
    have hs := Real.mul_le_sin (by linarith) hy2
    have hp0 : (1 : ℝ) / 100 ≤ piD180 := by norm_num [piD180]
    have hlow : 1 / 90001 ≤ 2 / Real.pi * y := by
      rw [div_mul_eq_mul_div, le_div_iff₀ hpi]
      norm_num at hp2 ⊢
      linarith
    linarith
  rcases le_total (d * piD180) (Real.pi / 2) with hle | hge
  · exact key _ hx1 hle
  · rw [← Real.sin_pi_sub]
    exact key _ (by linarith) (by linarith)

/-- The reference `chi` is at most 1. -/
theorem chiAt_le_one (x : ℝ) : chiAt ⟨Real.sin, Real.cos, Real.sqrt⟩ x ≤ 1 := by
  simp only [chiAt]
  have h := mul_nonneg ecc2_bounds.1.le (sq_nonneg (Real.sin x))
  calc Real.sqrt (1 - ecc2 * Real.sin x ^ 2) ≤ Real.sqrt 1 := Real.sqrt_le_sqrt (by linarith)
    _ = 1 := Real.sqrt_one

/-- In exact arithmetic, East in closed form, and its size for a target
between 0.001 and 179.999 degrees of longitude beyond the reference. -/
theorem nedFormulas_E_region (latRef lonRef altRef phi lambda h : ℝ) :
    (nedFormulas (⟨Real.sin, Real.cos, Real.sqrt⟩ : Libm ℝ) (latRef * piD180) (lonRef * piD180)
        altRef (phi * piD180) (lambda * piD180) h).E
      = (semiMajor / chiAt ⟨Real.sin, Real.cos, Real.sqrt⟩ (latRef * piD180) + h)
          * Real.cos (phi * piD180) * Real.sin (lonRef * piD180 - lambda * piD180)
    ∧ (0 ≤ h → |phi| ≤ 89 → 1 / 1000 ≤ lambda - lonRef → lambda - lonRef ≤ 179999 / 1000 →
        (nedFormulas (⟨Real.sin, Real.cos, Real.sqrt⟩ : Libm ℝ) (latRef * piD180)
          (lonRef * piD180) altRef (phi * piD180) (lambda * piD180) h).E ≤ -(3 / 4)) := by
  have hE : (nedFormulas (⟨Real.sin, Real.cos, Real.sqrt⟩ : Libm ℝ) (latRef * piD180)
        (lonRef * piD180) altRef (phi * piD180) (lambda * piD180) h).E
      = (semiMajor / chiAt ⟨Real.sin, Real.cos, Real.sqrt⟩ (latRef * piD180) + h)
          * Real.cos (phi * piD180) * Real.sin (lonRef * piD180 - lambda * piD180) := by
    rw [nedFormulas_E, Real.sin_sub]
  refine ⟨hE, fun hh hphi hl1 hl2 => ?_⟩
  rw [hE]
  have hchi := chiAt_pos (latRef * piD180)
  have hchi1 := chiAt_le_one (latRef * piD180)
  have hA : (6378137 : ℝ) ≤ semiMajor / chiAt ⟨Real.sin, Real.cos, Real.sqrt⟩ (latRef * piD180) + h := by
    have ha : (semiMajor : ℝ) ≤ semiMajor / chiAt ⟨Real.sin, Real.cos, Real.sqrt⟩ (latRef * piD180) := by
      rw [le_div_iff₀ hchi]
      have : (0 : ℝ) < semiMajor := by norm_num [semiMajor]
      nlinarith
    have : (semiMajor : ℝ) = 6378137 := by norm_num [semiMajor]
    linarith
  have hcos := cos_latitude_ge phi hphi
  have hsin := sin_longitude_ge (lambda - lonRef) hl1 hl2
  have hneg : Real.sin (lonRef * piD180 - lambda * piD180)
      = -Real.sin ((lambda - lonRef) * piD180) := by
    rw [← Real.sin_neg]
    congr 1
    ring
  rw [hneg]
  have h1 : (6378137 : ℝ) * (1 / 90)
      ≤ (semiMajor / chiAt ⟨Real.sin, Real.cos, Real.sqrt⟩ (latRef * piD180) + h)
          * Real.cos (phi * piD180) :=
    mul_le_mul hA hcos (by norm_num) (by linarith)
  have h2 : (6378137 : ℝ) * (1 / 90) * (1 / 90001)
      ≤ (semiMajor / chiAt ⟨Real.sin, Real.cos, Real.sqrt⟩ (latRef * piD180) + h)
          * Real.cos (phi * piD180) * Real.sin ((lambda - lonRef) * piD180) :=
    mul_le_mul h1 hsin (by norm_num) (by linarith)
  rw [mul_neg]
  norm_num at h2 ⊢
  linarith

/-! ## Rounding to a `double` -/

theorem binLogAux_eq (fuel n : Nat) (h : n ≤ fuel) : binLogAux fuel n = Nat.log 2 n := by
  induction fuel generalizing n with
  | zero =>
    have h0 : n = 0 := by omega
    subst h0
    simp [binLogAux]
  | succ f ih =>
    unfold binLogAux
    split_ifs with hlt
    · exact (Nat.log_of_lt hlt).symm
    · rw [ih (n / 2) (by omega)]
      exact (Nat.log_of_one_lt_of_le (by norm_num) (by omega)).symm

theorem binCLogAux_eq (fuel n : Nat) (h : n ≤ fuel) : binCLogAux fuel n = Nat.clog 2 n := by
  induction fuel generalizing n with
  | zero =>
    have h0 : n = 0 := by omega
    subst h0
    simp [binCLogAux]
  | succ f ih =>
    unfold binCLogAux
    split_ifs with hle
    · exact (Nat.clog_of_right_le_one hle 2).symm
    · rw [ih ((n + 1) / 2) (by omega)]
      exact (Nat.clog_of_two_le (by norm_num) (by omega)).symm

theorem binExp_eq_log (m : ℚ) : binExp m = Int.log 2 m := by
  simp only [binExp, Int.log, binLogAux_eq _ _ le_rfl, binCLogAux_eq _ _ le_rfl]

theorem binExp_le (m : ℚ) (hm : 0 < m) : (2 : ℚ) ^ binExp m ≤ m := by
  rw [binExp_eq_log]
  exact_mod_cast Int.zpow_log_le_self (by norm_num : 1 < 2) hm

/-- Rounding to a `double` moves a number of size at most `2 ^ k` by at most
`2 ^ (k - 53)`, and not beyond `2 ^ k`. -/
theorem fl_near (q : ℚ) (k : ℤ) (hk1 : -1022 ≤ k) (hk2 : k ≤ 1023) (hq : |q| ≤ (2 : ℚ) ^ k) :
    ∃ r, fl q = some r ∧ |r - q| ≤ (2 : ℚ) ^ (k - 53) ∧ |r| ≤ (2 : ℚ) ^ k := by
  by_cases hq0 : q = 0
  · subst hq0
    refine ⟨0, by simp [fl], ?_, ?_⟩
    · simpa using (zpow_pos (by norm_num : (0 : ℚ) < 2) (k - 53)).le
    · simpa using (zpow_pos (by norm_num : (0 : ℚ) < 2) k).le
  · have ha : 0 < |q| := abs_pos.mpr hq0
    have h2 : (0 : ℚ) < 2 := by norm_num
    have h12 : (1 : ℚ) ≤ 2 := by norm_num
    have he : binExp |q| ≤ k := by
      by_contra hcon
      have hlt : k + 1 ≤ binExp |q| := by omega
      have h1 := binExp_le |q| ha
      have h3 : (2 : ℚ) ^ (k + 1) ≤ (2 : ℚ) ^ binExp |q| := zpow_le_zpow_right₀ h12 hlt
      have h4 : (2 : ℚ) ^ k < (2 : ℚ) ^ (k + 1) := zpow_lt_zpow_right₀ (by norm_num) (by omega)
      linarith
    have hE : max (binExp |q|) (-1022) ≤ k := max_le he hk1
    simp only [fl, if_neg hq0]
    generalize max (binExp |q|) (-1022) = E at hE ⊢
    have hs : (0 : ℚ) < (2 : ℚ) ^ (E - 52) := zpow_pos h2 _
    have ht : 0 ≤ |q| / (2 : ℚ) ^ (E - 52) := div_nonneg ha.le hs.le
    have hnear := roundHalfEven_near _ ht
    have hMnat : ((2 ^ (k - E + 52).toNat : ℕ) : ℚ) = (2 : ℚ) ^ (k - E + 52) := by
      push_cast
      rw [← zpow_natCast]
      congr 1
      omega
    have hMs : (2 : ℚ) ^ (k - E + 52) * (2 : ℚ) ^ (E - 52) = (2 : ℚ) ^ k := by
      rw [← zpow_add₀ (by norm_num : (2 : ℚ) ≠ 0)]
      congr 1
      ring
    have htM : |q| / (2 : ℚ) ^ (E - 52) ≤ ((2 ^ (k - E + 52).toNat : ℕ) : ℚ) := by
      rw [hMnat, div_le_iff₀ hs, hMs]
      exact hq
    have hnM : (roundHalfEven (|q| / (2 : ℚ) ^ (E - 52)) : ℚ)
        ≤ ((2 ^ (k - E + 52).toNat : ℕ) : ℚ) := by
      have hn := roundHalfEven_nearest _ ht ((2 ^ (k - E + 52).toNat : ℕ) : ℤ)
      rw [Int.cast_natCast,
        abs_of_nonneg (sub_nonneg.mpr htM : (0 : ℚ) ≤ ((2 ^ (k - E + 52).toNat : ℕ) : ℚ)
          - |q| / (2 : ℚ) ^ (E - 52))] at hn
      have := le_abs_self ((roundHalfEven (|q| / (2 : ℚ) ^ (E - 52)) : ℚ)
        - |q| / (2 : ℚ) ^ (E - 52))
      linarith
    have hn0 : (0 : ℚ) ≤ (roundHalfEven (|q| / (2 : ℚ) ^ (E - 52)) : ℚ) := Nat.cast_nonneg _
    generalize (roundHalfEven (|q| / (2 : ℚ) ^ (E - 52)) : ℚ) = n at hnear hnM hn0 ⊢
    have hup : n * (2 : ℚ) ^ (E - 52) ≤ (2 : ℚ) ^ k := by
      rw [← hMs, ← hMnat]
      exact mul_le_mul_of_nonneg_right hnM hs.le
    have hno : ¬ (2 : ℚ) ^ 1024 ≤ n * (2 : ℚ) ^ (E - 52) := by
      have h5 : (2 : ℚ) ^ k ≤ (2 : ℚ) ^ (1023 : ℤ) := zpow_le_zpow_right₀ h12 hk2
      have h6 : (2 : ℚ) ^ (1023 : ℤ) < (2 : ℚ) ^ (1024 : ℕ) := by
        rw [← zpow_natCast]
        exact zpow_lt_zpow_right₀ (by norm_num) (by norm_num)
      intro hcon
      linarith
    have h8 : (1 : ℚ) / 2 * (2 : ℚ) ^ (E - 52) = (2 : ℚ) ^ (E - 53) := by
      rw [show E - 52 = (E - 53) + 1 by ring, zpow_add_one₀ (by norm_num : (2 : ℚ) ≠ 0)]
      ring
    have h9 : (2 : ℚ) ^ (E - 53) ≤ (2 : ℚ) ^ (k - 53) := zpow_le_zpow_right₀ h12 (by omega)
    have hq' : |q| = |q| / (2 : ℚ) ^ (E - 52) * (2 : ℚ) ^ (E - 52) := by
      field_simp
    generalize |q| / (2 : ℚ) ^ (E - 52) = t at hnear hq' ht
    rw [abs_le] at hnear
    have hlo := mul_le_mul_of_nonneg_right hnear.1 hs.le
    have hhi := mul_le_mul_of_nonneg_right hnear.2 hs.le
    have hns : 0 ≤ n * (2 : ℚ) ^ (E - 52) := mul_nonneg hn0 hs.le
    refine ⟨(if q < 0 then -1 else 1) * (n * (2 : ℚ) ^ (E - 52)), if_neg hno, ?_, ?_⟩
    · clear hno
      rw [abs_le]
      split_ifs with hneg
      · rw [abs_of_neg hneg] at hq'
        constructor <;> nlinarith
      · rw [abs_of_nonneg (not_lt.mp hneg)] at hq'
        constructor <;> nlinarith
    · clear hno
      have hk0 := (zpow_pos h2 k).le
      rw [abs_le]
      split_ifs with hneg
      · constructor <;> linarith
      · constructor <;> linarith

/-! ## Error bounds for the operations on `double`s -/

theorem Near.mono {v : Option ℚ} {x e b : ℝ} (e' b' : ℝ) (h : Near v x e b) (he : e ≤ e')
    (hb : b ≤ b') : Near v x e' b' := by
  obtain ⟨r, hr, h1, h2⟩ := h
  exact ⟨r, hr, h1.trans he, h2.trans hb⟩

theorem Near.ofRat (q : ℚ) (x e b : ℝ) (h1 : |(q : ℝ) - x| ≤ e) (h2 : |(q : ℝ)| ≤ b) :
    Near (some q) x e b :=
  ⟨q, rfl, h1, h2⟩

/-- The size of a result, from the size of the number it is near. -/
theorem Near.rebound {v : Option ℚ} {x e b : ℝ} (h : Near v x e b) (bx : ℝ) (hx : |x| ≤ bx)
    (b' : ℝ) (hb : bx + e ≤ b') : Near v x e b' := by
  obtain ⟨r, hr, h1, -⟩ := h
  refine ⟨r, hr, h1, ?_⟩
  calc |(r : ℝ)| = |((r : ℝ) - x) + x| := by ring_nf
    _ ≤ |(r : ℝ) - x| + |x| := abs_add _ _
    _ ≤ b' := by linarith

theorem near_fl (q : ℚ) (x e b : ℝ) (K : ℕ) (hK : K ≤ 1023) (h1 : |(q : ℝ) - x| ≤ e)
    (h2 : |(q : ℝ)| ≤ b) (hb : b ≤ 2 ^ K) :
    Near (fl q) x (e + 2 ^ K / 2 ^ 53) (b + 2 ^ K / 2 ^ 53) := by
  have hq : |q| ≤ (2 : ℚ) ^ (K : ℤ) := by
    have : |(q : ℝ)| ≤ 2 ^ K := h2.trans hb
    rw [zpow_natCast]
    exact_mod_cast this
  obtain ⟨r, hr, herr, -⟩ := fl_near q K (by omega) (by omega) hq
  have hpow : (2 : ℚ) ^ ((K : ℤ) - 53) = 2 ^ K / 2 ^ 53 := by
    rw [zpow_sub₀ (by norm_num : (2 : ℚ) ≠ 0), zpow_natCast]
    norm_num
  rw [hpow] at herr
  have herr' : |(r : ℝ) - (q : ℝ)| ≤ 2 ^ K / 2 ^ 53 := by
    have h := (Rat.cast_le (K := ℝ)).mpr herr
    simpa using h
  refine ⟨r, hr, ?_, ?_⟩
  · calc |(r : ℝ) - x| = |((r : ℝ) - q) + ((q : ℝ) - x)| := by ring_nf
      _ ≤ |(r : ℝ) - q| + |(q : ℝ) - x| := abs_add _ _
      _ ≤ e + 2 ^ K / 2 ^ 53 := by linarith
  · calc |(r : ℝ)| = |((r : ℝ) - q) + (q : ℝ)| := by ring_nf
      _ ≤ |(r : ℝ) - q| + |(q : ℝ)| := abs_add _ _
      _ ≤ b + 2 ^ K / 2 ^ 53 := by linarith

theorem Near.add {v w : Option ℚ} {x y e1 b1 e2 b2 : ℝ} (hv : Near v x e1 b1)
    (hw : Near w y e2 b2) (K : ℕ) (hK : K ≤ 1023) (hb : b1 + b2 ≤ 2 ^ K) :
    Near (fadd v w) (x + y) (e1 + e2 + 2 ^ K / 2 ^ 53) (b1 + b2 + 2 ^ K / 2 ^ 53) := by
  obtain ⟨r1, rfl, h1, h2⟩ := hv
  obtain ⟨r2, rfl, h3, h4⟩ := hw
  apply near_fl (r1 + r2) _ _ _ K hK _ _ hb
  · push_cast
    calc |(r1 : ℝ) + r2 - (x + y)| = |((r1 : ℝ) - x) + ((r2 : ℝ) - y)| := by ring_nf
      _ ≤ |(r1 : ℝ) - x| + |(r2 : ℝ) - y| := abs_add _ _
      _ ≤ e1 + e2 := by linarith
  · push_cast
    exact (abs_add _ _).trans (by linarith)

theorem Near.sub {v w : Option ℚ} {x y e1 b1 e2 b2 : ℝ} (hv : Near v x e1 b1)
    (hw : Near w y e2 b2) (K : ℕ) (hK : K ≤ 1023) (hb : b1 + b2 ≤ 2 ^ K) :
    Near (fsub v w) (x - y) (e1 + e2 + 2 ^ K / 2 ^ 53) (b1 + b2 + 2 ^ K / 2 ^ 53) := by
  obtain ⟨r1, rfl, h1, h2⟩ := hv
  obtain ⟨r2, rfl, h3, h4⟩ := hw
  apply near_fl (r1 - r2) _ _ _ K hK _ _ hb
  · push_cast
    calc |(r1 : ℝ) - r2 - (x - y)| = |((r1 : ℝ) - x) - ((r2 : ℝ) - y)| := by ring_nf
      _ ≤ |(r1 : ℝ) - x| + |(r2 : ℝ) - y| := abs_sub _ _
      _ ≤ e1 + e2 := by linarith
  · push_cast
    exact (abs_sub _ _).trans (by linarith)

theorem Near.mul {v w : Option ℚ} {x y e1 b1 e2 b2 : ℝ} (hv : Near v x e1 b1)
    (hw : Near w y e2 b2) (K : ℕ) (hK : K ≤ 1023) (hb : b1 * b2 ≤ 2 ^ K) :
    Near (fmul v w) (x * y) (b1 * e2 + (b2 + e2) * e1 + 2 ^ K / 2 ^ 53)
      (b1 * b2 + 2 ^ K / 2 ^ 53) := by
  obtain ⟨r1, rfl, h1, h2⟩ := hv
  obtain ⟨r2, rfl, h3, h4⟩ := hw
  have he1 : 0 ≤ e1 := (abs_nonneg _).trans h1
  have he2 : 0 ≤ e2 := (abs_nonneg _).trans h3
  have hb1 : 0 ≤ b1 := (abs_nonneg _).trans h2
  have hy : |y| ≤ b2 + e2 := by
    calc |y| = |(r2 : ℝ) - ((r2 : ℝ) - y)| := by ring_nf
      _ ≤ |(r2 : ℝ)| + |(r2 : ℝ) - y| := abs_sub _ _
      _ ≤ b2 + e2 := by linarith
  apply near_fl (r1 * r2) _ _ _ K hK _ _ hb
  · push_cast
    calc |(r1 : ℝ) * r2 - x * y| = |(r1 : ℝ) * ((r2 : ℝ) - y) + y * ((r1 : ℝ) - x)| := by ring_nf
      _ ≤ |(r1 : ℝ) * ((r2 : ℝ) - y)| + |y * ((r1 : ℝ) - x)| := abs_add _ _
      _ = |(r1 : ℝ)| * |(r2 : ℝ) - y| + |y| * |(r1 : ℝ) - x| := by rw [abs_mul, abs_mul]
      _ ≤ b1 * e2 + (b2 + e2) * e1 := by
        have := mul_le_mul h2 h3 (abs_nonneg _) hb1
        have := mul_le_mul hy h1 (abs_nonneg _) (by linarith [abs_nonneg y])
        linarith
  · push_cast
    rw [abs_mul]
    exact mul_le_mul h2 h4 (abs_nonneg _) hb1

theorem Near.neg {v : Option ℚ} {x e b : ℝ} (hv : Near v x e b) : Near (fneg v) (-x) e b := by
  obtain ⟨r, rfl, h1, h2⟩ := hv
  refine ⟨-r, rfl, ?_, ?_⟩
  · push_cast
    rw [show -(r : ℝ) - -x = -((r : ℝ) - x) by ring, abs_neg]
    exact h1
  · push_cast
    rw [abs_neg]
    exact h2

theorem Near.div {v w : Option ℚ} {x y e1 b1 e2 b2 : ℝ} (hv : Near v x e1 b1)
    (hw : Near w y e2 b2) (c : ℝ) (hc : 0 < c) (hy : c + e2 ≤ y) (K : ℕ) (hK : K ≤ 1023)
    (hb : b1 / c ≤ 2 ^ K) :
    Near (fdiv v w) (x / y) (e1 / c + (b1 + e1) * e2 / (c * c) + 2 ^ K / 2 ^ 53)
      (b1 / c + 2 ^ K / 2 ^ 53) := by
  obtain ⟨r1, rfl, h1, h2⟩ := hv
  obtain ⟨r2, rfl, h3, h4⟩ := hw
  have he1 : 0 ≤ e1 := (abs_nonneg _).trans h1
  have he2 : 0 ≤ e2 := (abs_nonneg _).trans h3
  have hb1 : 0 ≤ b1 := (abs_nonneg _).trans h2
  have hyc : c ≤ y := by linarith
  have hr2 : c ≤ (r2 : ℝ) := by
    have := (abs_le.mp h3).1
    linarith
  have hr2pos : (0 : ℝ) < r2 := lt_of_lt_of_le hc hr2
  have hypos : 0 < y := lt_of_lt_of_le hc hyc
  have hr2ne : r2 ≠ 0 := by
    intro h
    rw [h] at hr2pos
    simp at hr2pos
  have hx : |x| ≤ b1 + e1 := by
    calc |x| = |(r1 : ℝ) - ((r1 : ℝ) - x)| := by ring_nf
      _ ≤ |(r1 : ℝ)| + |(r1 : ℝ) - x| := abs_sub _ _
      _ ≤ b1 + e1 := by linarith
  simp only [fdiv, if_neg hr2ne]
  apply near_fl (r1 / r2) _ _ _ K hK _ _ hb
  · push_cast
    have hsplit : (r1 : ℝ) / r2 - x / y = ((r1 : ℝ) - x) / r2 + x * (y - r2) / (r2 * y) := by
      field_simp
      ring
    rw [hsplit]
    have t1 : |((r1 : ℝ) - x) / r2| ≤ e1 / c := by
      rw [abs_div, abs_of_pos hr2pos]
      exact div_le_div₀ he1 h1 hc hr2
    have t2 : |x * (y - r2) / (r2 * y)| ≤ (b1 + e1) * e2 / (c * c) := by
      rw [abs_div, abs_mul, abs_of_pos (mul_pos hr2pos hypos)]
      have hnum : |x| * |y - (r2 : ℝ)| ≤ (b1 + e1) * e2 := by
        rw [abs_sub_comm y]
        exact mul_le_mul hx h3 (abs_nonneg _) (by linarith)
      exact div_le_div₀ (by positivity) hnum (mul_pos hc hc)
        (mul_le_mul hr2 hyc hc.le hr2pos.le)
    exact (abs_add _ _).trans (by linarith)
  · push_cast
    rw [abs_div, abs_of_pos hr2pos]
    exact div_le_div₀ hb1 h2 hc hr2

theorem sin_sub_sin_le (a b : ℝ) : |Real.sin a - Real.sin b| ≤ |a - b| := by
  rw [Real.sin_sub_sin, abs_mul, abs_mul]
  have h1 := Real.abs_sin_le_abs (x := (a - b) / 2)
  have h2 := Real.abs_cos_le_one ((a + b) / 2)
  have h3 : |(a - b) / 2| = |a - b| / 2 := by rw [abs_div]; norm_num
  rw [h3] at h1
  have h4 : |(2 : ℝ)| = 2 := by norm_num
  rw [h4]
  have h5 := abs_nonneg (Real.sin ((a - b) / 2))
  have h6 := abs_nonneg (Real.cos ((a + b) / 2))
  nlinarith

theorem cos_sub_cos_le (a b : ℝ) : |Real.cos a - Real.cos b| ≤ |a - b| := by
  rw [Real.cos_sub_cos, abs_mul, abs_mul]
  have h1 := Real.abs_sin_le_abs (x := (a - b) / 2)
  have h2 := Real.abs_sin_le_one ((a + b) / 2)
  have h3 : |(a - b) / 2| = |a - b| / 2 := by rw [abs_div]; norm_num
  rw [h3] at h1
  have h4 : |(-2 : ℝ)| = 2 := by norm_num
  rw [h4]
  have h5 := abs_nonneg (Real.sin ((a - b) / 2))
  have h6 := abs_nonneg (Real.sin ((a + b) / 2))
  nlinarith

theorem Near.sin {v : Option ℚ} {x e b : ℝ} {f : ℚ → Option ℚ} (hv : Near v x e b)
    (hf : ∀ t, v = some t → accurate f Real.sin t) :
    Near (v.bind f) (Real.sin x) (e + 1 / 2 ^ 52) (1 + 1 / 2 ^ 52) := by
  obtain ⟨r, rfl, h1, -⟩ := hv
  obtain ⟨s, hs, h2⟩ := hf r rfl
  have h3 := sin_sub_sin_le (r : ℝ) x
  refine ⟨s, by simp [hs], ?_, ?_⟩
  · calc |(s : ℝ) - Real.sin x| = |((s : ℝ) - Real.sin r) + (Real.sin r - Real.sin x)| := by
          ring_nf
      _ ≤ |(s : ℝ) - Real.sin r| + |Real.sin r - Real.sin x| := abs_add _ _
      _ ≤ e + 1 / 2 ^ 52 := by linarith
  · calc |(s : ℝ)| = |((s : ℝ) - Real.sin r) + Real.sin r| := by ring_nf
      _ ≤ |(s : ℝ) - Real.sin r| + |Real.sin r| := abs_add _ _
      _ ≤ 1 + 1 / 2 ^ 52 := by linarith [Real.abs_sin_le_one (r : ℝ)]

theorem Near.cos {v : Option ℚ} {x e b : ℝ} {f : ℚ → Option ℚ} (hv : Near v x e b)
    (hf : ∀ t, v = some t → accurate f Real.cos t) :
    Near (v.bind f) (Real.cos x) (e + 1 / 2 ^ 52) (1 + 1 / 2 ^ 52) := by
  obtain ⟨r, rfl, h1, -⟩ := hv
  obtain ⟨s, hs, h2⟩ := hf r rfl
  have h3 := cos_sub_cos_le (r : ℝ) x
  refine ⟨s, by simp [hs], ?_, ?_⟩
  · calc |(s : ℝ) - Real.cos x| = |((s : ℝ) - Real.cos r) + (Real.cos r - Real.cos x)| := by
          ring_nf
      _ ≤ |(s : ℝ) - Real.cos r| + |Real.cos r - Real.cos x| := abs_add _ _
      _ ≤ e + 1 / 2 ^ 52 := by linarith
  · calc |(s : ℝ)| = |((s : ℝ) - Real.cos r) + Real.cos r| := by ring_nf
      _ ≤ |(s : ℝ) - Real.cos r| + |Real.cos r| := abs_add _ _
      _ ≤ 1 + 1 / 2 ^ 52 := by linarith [Real.abs_cos_le_one (r : ℝ)]

theorem Near.sqrt {v : Option ℚ} {x e b : ℝ} {f : ℚ → Option ℚ} (hv : Near v x e b)
    (hf : ∀ t, v = some t → accurate f Real.sqrt t) (c : ℝ) (hc : 0 < c)
    (hx : c ^ 2 + e ≤ x) (hx1 : x ≤ 1) :
    Near (v.bind f) (Real.sqrt x) (e / (2 * c) + 1 / 2 ^ 52) (1 + e / (2 * c) + 1 / 2 ^ 52) := by
  obtain ⟨r, rfl, h1, -⟩ := hv
  obtain ⟨s, hs, h2⟩ := hf r rfl
  have he : 0 ≤ e := (abs_nonneg _).trans h1
  have hr : c ^ 2 ≤ (r : ℝ) := by
    have := (abs_le.mp h1).1
    linarith
  have hxc : c ^ 2 ≤ x := by linarith
  have hsr : c ≤ Real.sqrt r := Real.le_sqrt_of_sq_le hr
  have hsx : c ≤ Real.sqrt x := Real.le_sqrt_of_sq_le hxc
  have hr0 : (0 : ℝ) ≤ r := (sq_nonneg c).trans hr
  have hx0 : (0 : ℝ) ≤ x := (sq_nonneg c).trans hxc
  have hdiff : |Real.sqrt r - Real.sqrt x| ≤ e / (2 * c) := by
    have hsum : 0 < Real.sqrt r + Real.sqrt x := by linarith
    have hid : Real.sqrt r - Real.sqrt x = ((r : ℝ) - x) / (Real.sqrt r + Real.sqrt x) := by
      rw [eq_div_iff hsum.ne']
      have e1 := Real.mul_self_sqrt hr0
      have e2 := Real.mul_self_sqrt hx0
      nlinarith
    rw [hid, abs_div, abs_of_pos hsum]
    exact div_le_div₀ he h1 (by linarith) (by linarith)
  have hsx1 : Real.sqrt x ≤ 1 := by
    calc Real.sqrt x ≤ Real.sqrt 1 := Real.sqrt_le_sqrt hx1
      _ = 1 := Real.sqrt_one
  have hs0 : 0 ≤ Real.sqrt x := Real.sqrt_nonneg x
  have key : |(s : ℝ) - Real.sqrt x| ≤ e / (2 * c) + 1 / 2 ^ 52 := by
    calc |(s : ℝ) - Real.sqrt x| = |((s : ℝ) - Real.sqrt r) + (Real.sqrt r - Real.sqrt x)| := by
          ring_nf
      _ ≤ |(s : ℝ) - Real.sqrt r| + |Real.sqrt r - Real.sqrt x| := abs_add _ _
      _ ≤ e / (2 * c) + 1 / 2 ^ 52 := by linarith
  refine ⟨s, by simp [hs], key, ?_⟩
  calc |(s : ℝ)| = |((s : ℝ) - Real.sqrt x) + Real.sqrt x| := by ring_nf
    _ ≤ |(s : ℝ) - Real.sqrt x| + |Real.sqrt x| := abs_add _ _
    _ ≤ 1 + e / (2 * c) + 1 / 2 ^ 52 := by
      rw [abs_of_nonneg hs0]
      linarith

/-! ### The constants in `double` arithmetic -/

theorem piD180F_eq :
    fdiv (fl 3.1415926535897932) (fl 180.0)
      = some (5030569068109113 / 288230376151711744) := by
  decide!

theorem semiMajorF_eq : fl 6378137.0 = some 6378137 := by
  decide!

theorem ratioF_eq :
    fdiv (fl 6356752.3142) (fl 6378137.0) = some (2244249955239097 / 2251799813685248) := by
  decide!

/-! ## The `double` result is near the exact one -/

theorem chi_arg_bounds (x : ℝ) :
    993 / 1000 ≤ 1 - (ecc2 : ℝ) * Real.sin x * Real.sin x
      ∧ 1 - (ecc2 : ℝ) * Real.sin x * Real.sin x ≤ 1 := by
  have h0 : (0 : ℝ) ≤ ecc2 := by norm_num [ecc2, semiMinor, semiMajor]
  have h1 : (ecc2 : ℝ) ≤ 7 / 1000 := by norm_num [ecc2, semiMinor, semiMajor]
  have hs : Real.sin x * Real.sin x ≤ 1 := by
    have := Real.sin_sq_le_one x
    nlinarith
  have hs0 : 0 ≤ Real.sin x * Real.sin x := mul_self_nonneg _
  constructor
  · nlinarith
  · nlinarith

theorem ratCast_abs_le (q : ℚ) (B : ℚ) (h : |q| ≤ B) : |(q : ℝ)| ≤ (B : ℝ) := by
  rw [← Rat.cast_abs]
  exact_mod_cast h

/-- For angles of at most 90 and 180 degrees and altitudes of at most `10^6`,
and a library that is accurate at the arguments of the call, every component
that `GPS2NED` computes in `double` arithmetic is determined and lies within
`2 * 10^-7` of the component in exact arithmetic. -/
theorem GPS2NEDF_near (m : LibmF) (rPhi rLam : List Char) (latF lonF : ℚ)
    (href : str2LatLonF rPhi rLam = .ok ⟨.fin latF, .fin lonF⟩) (rH phi lambda h : ℚ)
    (blat : |latF| ≤ 90) (blon : |lonF| ≤ 180) (brH : |rH| ≤ 1000000)
    (bphi : |phi| ≤ 90) (blam : |lambda| ≤ 180) (bh : |h| ≤ 1000000)
    (hacc : m.accurateAt latF lonF phi lambda) :
    ∃ n e d : ℚ, GPS2NEDF m rPhi rLam rH phi lambda h = .ok ⟨some n, some e, some d⟩
      ∧ |(n : ℝ) - (nedFormulas (⟨Real.sin, Real.cos, Real.sqrt⟩ : Libm ℝ) ((latF : ℝ) * piD180)
          ((lonF : ℝ) * piD180) ((rH : ℝ) * piD180) ((phi : ℝ) * piD180)
          ((lambda : ℝ) * piD180) (h : ℝ)).N| ≤ 2 / 10 ^ 7
      ∧ |(e : ℝ) - (nedFormulas (⟨Real.sin, Real.cos, Real.sqrt⟩ : Libm ℝ) ((latF : ℝ) * piD180)
          ((lonF : ℝ) * piD180) ((rH : ℝ) * piD180) ((phi : ℝ) * piD180)
          ((lambda : ℝ) * piD180) (h : ℝ)).E| ≤ 2 / 10 ^ 7
      ∧ |(d : ℝ) - (nedFormulas (⟨Real.sin, Real.cos, Real.sqrt⟩ : Libm ℝ) ((latF : ℝ) * piD180)
          ((lonF : ℝ) * piD180) ((rH : ℝ) * piD180) ((phi : ℝ) * piD180)
          ((lambda : ℝ) * piD180) (h : ℝ)).D| ≤ 2 / 10 ^ 7 := by
  have hP : Near (fdiv (fl 3.1415926535897932) (fl 180.0)) (piD180 : ℝ) (1 / 10 ^ 19)
      (175 / 10 ^ 4) := by
    rw [piD180F_eq]
    refine Near.ofRat _ _ _ _ ?_ ?_
    · rw [abs_le]
      constructor <;> norm_num [piD180]
    · rw [abs_le]
      constructor <;> norm_num
  have ha : Near (fl 6378137.0) (semiMajor : ℝ) 0 6378137 := by
    rw [semiMajorF_eq]
    refine Near.ofRat _ _ _ _ ?_ ?_
    · norm_num [semiMajor]
    · norm_num
  have hone : Near (some (1 : ℚ)) (1 : ℝ) 0 1 := Near.ofRat _ _ _ _ (by norm_num) (by norm_num)
  have he2 : Near (fsub (some 1) ((fdiv (fl 6356752.3142) (fl 6378137.0)).bind m.pow2))
      (ecc2 : ℝ) (6 / 10 ^ 16) (67 / 10 ^ 4) := by
    obtain ⟨p, hp, hp1⟩ := hacc.2.1 _ ratioF_eq
    rw [ratioF_eq, Option.some_bind, hp]
    simp only [] at hp1
    have hq : |((2244249955239097 / 2251799813685248 : ℚ) : ℝ) ^ 2
        - ((semiMinor : ℝ) / semiMajor) ^ 2| ≤ 1 / 10 ^ 16 := by
      rw [abs_le]
      constructor <;> norm_num [semiMinor, semiMajor]
    have hpe : |(p : ℝ) - ((semiMinor : ℝ) / semiMajor) ^ 2| ≤ 33 / 10 ^ 17 := by
      calc |(p : ℝ) - ((semiMinor : ℝ) / semiMajor) ^ 2|
          = |((p : ℝ) - ((2244249955239097 / 2251799813685248 : ℚ) : ℝ) ^ 2)
              + (((2244249955239097 / 2251799813685248 : ℚ) : ℝ) ^ 2
                  - ((semiMinor : ℝ) / semiMajor) ^ 2)| := by ring_nf
        _ ≤ |(p : ℝ) - ((2244249955239097 / 2251799813685248 : ℚ) : ℝ) ^ 2|
              + |((2244249955239097 / 2251799813685248 : ℚ) : ℝ) ^ 2
                  - ((semiMinor : ℝ) / semiMajor) ^ 2| := abs_add _ _
        _ ≤ 33 / 10 ^ 17 := by
          have : (1 : ℝ) / 2 ^ 52 ≤ 23 / 10 ^ 17 := by norm_num
          linarith
    have hpb : |(p : ℝ)| ≤ 1 := by
      have h1 := abs_le.mp hpe
      have h2 : ((semiMinor : ℝ) / semiMajor) ^ 2 ≤ 999 / 1000 := by
        norm_num [semiMinor, semiMajor]
      have h3 : (0 : ℝ) ≤ ((semiMinor : ℝ) / semiMajor) ^ 2 := sq_nonneg _
      rw [abs_le]
      constructor <;> linarith [h1.1, h1.2]
    have hsub := Near.sub hone (Near.ofRat p _ _ _ hpe hpb) 1 (by norm_num) (by norm_num)
    have hecc : |(1 : ℝ) - ((semiMinor : ℝ) / semiMajor) ^ 2| ≤ 6695 / 10 ^ 6 := by
      rw [abs_le]
      constructor <;> norm_num [semiMinor, semiMajor]
    exact Near.rebound (Near.mono (6 / 10 ^ 16) 3 hsub (by norm_num) (by norm_num))
      (6695 / 10 ^ 6) hecc (67 / 10 ^ 4) (by norm_num)
  have hlat : Near (some latF) (latF : ℝ) 0 90 :=
    Near.ofRat _ _ _ _ (by simp) (by simpa using ratCast_abs_le latF 90 blat)
  have hlon : Near (some lonF) (lonF : ℝ) 0 180 :=
    Near.ofRat _ _ _ _ (by simp) (by simpa using ratCast_abs_le lonF 180 blon)
  have hphi : Near (some phi) (phi : ℝ) 0 90 :=
    Near.ofRat _ _ _ _ (by simp) (by simpa using ratCast_abs_le phi 90 bphi)
  have hlam : Near (some lambda) (lambda : ℝ) 0 180 :=
    Near.ofRat _ _ _ _ (by simp) (by simpa using ratCast_abs_le lambda 180 blam)
  have hrH : Near (some rH) (rH : ℝ) 0 1000000 :=
    Near.ofRat _ _ _ _ (by simp) (by simpa using ratCast_abs_le rH 1000000 brH)
  have hh : Near (some h) (h : ℝ) 0 1000000 :=
    Near.ofRat _ _ _ _ (by simp) (by simpa using ratCast_abs_le h 1000000 bh)
  obtain ⟨hlo, hhi⟩ := chi_arg_bounds ((latF : ℝ) * piD180)
  have harg1 : |1 - (ecc2 : ℝ) * Real.sin ((latF : ℝ) * piD180)
      * Real.sin ((latF : ℝ) * piD180)| ≤ 1 := by
    rw [abs_le]
    constructor <;> linarith
  have harg1' := hhi
  have hargc : ((99 / 10 ^ 2 : ℝ)) ^ 2 + (106 / 10 ^ 17)
      ≤ 1 - (ecc2 : ℝ) * Real.sin ((latF : ℝ) * piD180) * Real.sin ((latF : ℝ) * piD180) := by
    norm_num at hlo ⊢
    linarith
  have hchic : (99 / 10 ^ 2 : ℝ) + (758 / 10 ^ 18)
      ≤ Real.sqrt (1 - (ecc2 : ℝ) * Real.sin ((latF : ℝ) * piD180)
          * Real.sin ((latF : ℝ) * piD180)) := by
    have : (996 / 1000 : ℝ) ≤ Real.sqrt (1 - (ecc2 : ℝ) * Real.sin ((latF : ℝ) * piD180)
          * Real.sin ((latF : ℝ) * piD180)) := by
      apply Real.le_sqrt_of_sq_le
      norm_num at hlo ⊢
      linarith
    norm_num at this ⊢
    linarith
  have home2 : |(1 : ℝ) - ecc2| ≤ 1 := by
    rw [abs_le]
    constructor <;> norm_num [ecc2, semiMinor, semiMajor]
  have ht1 := Near.mono (232 / 10 ^ 18) (1576 / 10 ^ 3)
    (Near.mul hlat hP 1 (by norm_num) (by norm_num)) (by norm_num) (by norm_num)
  have ht2 := Near.mono (463 / 10 ^ 18) (3151 / 10 ^ 3)
    (Near.mul hlon hP 2 (by norm_num) (by norm_num)) (by norm_num) (by norm_num)
  have htp := Near.mono (232 / 10 ^ 18) (1576 / 10 ^ 3)
    (Near.mul hphi hP 1 (by norm_num) (by norm_num)) (by norm_num) (by norm_num)
  have htl := Near.mono (463 / 10 ^ 18) (3151 / 10 ^ 3)
    (Near.mul hlam hP 2 (by norm_num) (by norm_num)) (by norm_num) (by norm_num)
  have hrHr := Near.mono (374 / 10 ^ 14) 17510
    (Near.mul hrH hP 15 (by norm_num) (by norm_num)) (by norm_num) (by norm_num)
  have hst1 := Near.mono (455 / 10 ^ 18) (1001 / 10 ^ 3)
    (Near.sin ht1 (fun t ht => (hacc.1 latF (by simp) t ht).1)) (by norm_num) (by norm_num)
  have hct1 := Near.mono (455 / 10 ^ 18) (1001 / 10 ^ 3)
    (Near.cos ht1 (fun t ht => (hacc.1 latF (by simp) t ht).2)) (by norm_num) (by norm_num)
  have hst2 := Near.mono (686 / 10 ^ 18) (1001 / 10 ^ 3)
    (Near.sin ht2 (fun t ht => (hacc.1 lonF (by simp) t ht).1)) (by norm_num) (by norm_num)
  have hct2 := Near.mono (686 / 10 ^ 18) (1001 / 10 ^ 3)
    (Near.cos ht2 (fun t ht => (hacc.1 lonF (by simp) t ht).2)) (by norm_num) (by norm_num)
  have hstp := Near.mono (455 / 10 ^ 18) (1001 / 10 ^ 3)
    (Near.sin htp (fun t ht => (hacc.1 phi (by simp) t ht).1)) (by norm_num) (by norm_num)
  have hctp := Near.mono (455 / 10 ^ 18) (1001 / 10 ^ 3)
    (Near.cos htp (fun t ht => (hacc.1 phi (by simp) t ht).2)) (by norm_num) (by norm_num)
  have hstl := Near.mono (686 / 10 ^ 18) (1001 / 10 ^ 3)
    (Near.sin htl (fun t ht => (hacc.1 lambda (by simp) t ht).1)) (by norm_num) (by norm_num)
  have hctl := Near.mono (686 / 10 ^ 18) (1001 / 10 ^ 3)
    (Near.cos htl (fun t ht => (hacc.1 lambda (by simp) t ht).2)) (by norm_num) (by norm_num)
  have hes := Near.mono (715 / 10 ^ 18) (6707 / 10 ^ 6)
    (Near.mul he2 hst1 0 (by norm_num) (by norm_num)) (by norm_num) (by norm_num)
  have hess := Near.mono (83 / 10 ^ 17) (6714 / 10 ^ 6)
    (Near.mul hes hst1 0 (by norm_num) (by norm_num)) (by norm_num) (by norm_num)
  have harg := Near.rebound
    (Near.mono (106 / 10 ^ 17) (1007 / 10 ^ 3)
      (Near.sub hone hess 1 (by norm_num) (by norm_num)) (by norm_num) (by norm_num))
    1 harg1 (1001 / 10 ^ 3) (by norm_num)
  have hchi := Near.mono (758 / 10 ^ 18) (1001 / 10 ^ 3)
    (Near.sqrt harg hacc.2.2 (99 / 10 ^ 2) (by norm_num) hargc harg1') (by norm_num) (by norm_num)
  have hA := Near.mono (587 / 10 ^ 11) 6443000
    (Near.div ha hchi (99 / 10 ^ 2) (by norm_num) hchic 23 (by norm_num) (by norm_num))
    (by norm_num) (by norm_num)
  have home2 := Near.rebound
    (Near.mono (823 / 10 ^ 18) (1007 / 10 ^ 3)
      (Near.sub hone he2 1 (by norm_num) (by norm_num)) (by norm_num) (by norm_num))
    1 home2 (1001 / 10 ^ 3) (by norm_num)
  have ham := Near.mono (619 / 10 ^ 11) 6385000
    (Near.mul ha home2 23 (by norm_num) (by norm_num)) (by norm_num) (by norm_num)
  have hB := Near.mono (122 / 10 ^ 10) 6450000
    (Near.div ham hchi (99 / 10 ^ 2) (by norm_num) hchic 23 (by norm_num) (by norm_num))
    (by norm_num) (by norm_num)
  have hAr := Near.mono (681 / 10 ^ 11) 6461000
    (Near.add hA hrHr 23 (by norm_num) (by norm_num)) (by norm_num) (by norm_num)
  have hArc := Near.mono (107 / 10 ^ 10) 6468000
    (Near.mul hAr hct1 23 (by norm_num) (by norm_num)) (by norm_num) (by norm_num)
  have hxr := Near.mono (161 / 10 ^ 10) 6475000
    (Near.mul hArc hct2 23 (by norm_num) (by norm_num)) (by norm_num) (by norm_num)
  have hyr := Near.mono (161 / 10 ^ 10) 6475000
    (Near.mul hArc hst2 23 (by norm_num) (by norm_num)) (by norm_num) (by norm_num)
  have hBr := Near.mono (132 / 10 ^ 10) 6468000
    (Near.add hB hrHr 23 (by norm_num) (by norm_num)) (by norm_num) (by norm_num)
  have hzr := Near.mono (171 / 10 ^ 10) 6475000
    (Near.mul hBr hst1 23 (by norm_num) (by norm_num)) (by norm_num) (by norm_num)
  have hAh := Near.mono (681 / 10 ^ 11) 7444000
    (Near.add hA hh 23 (by norm_num) (by norm_num)) (by norm_num) (by norm_num)
  have hAhc := Near.mono (112 / 10 ^ 10) 7452000
    (Near.mul hAh hctp 23 (by norm_num) (by norm_num)) (by norm_num) (by norm_num)
  have hx := Near.mono (173 / 10 ^ 10) 7460000
    (Near.mul hAhc hctl 23 (by norm_num) (by norm_num)) (by norm_num) (by norm_num)
  have hy := Near.mono (173 / 10 ^ 10) 7460000
    (Near.mul hAhc hstl 23 (by norm_num) (by norm_num)) (by norm_num) (by norm_num)
  have hBh := Near.mono (132 / 10 ^ 10) 7451000
    (Near.add hB hh 23 (by norm_num) (by norm_num)) (by norm_num) (by norm_num)
  have hz := Near.mono (176 / 10 ^ 10) 7459000
    (Near.mul hBh hstp 23 (by norm_num) (by norm_num)) (by norm_num) (by norm_num)
  have hdx := Near.mono (353 / 10 ^ 10) 13940000
    (Near.sub hx hxr 24 (by norm_num) (by norm_num)) (by norm_num) (by norm_num)
  have hdy := Near.mono (353 / 10 ^ 10) 13940000
    (Near.sub hy hyr 24 (by norm_num) (by norm_num)) (by norm_num) (by norm_num)
  have hdz := Near.mono (366 / 10 ^ 10) 13940000
    (Near.sub hz hzr 24 (by norm_num) (by norm_num)) (by norm_num) (by norm_num)
  have hns1 := Near.neg hst1
  have hnc1 := Near.neg hct1
  have hn1a := Near.mono (137 / 10 ^ 17) (1003 / 10 ^ 3)
    (Near.mul hns1 hct2 1 (by norm_num) (by norm_num)) (by norm_num) (by norm_num)
  have hn1 := Near.mono (564 / 10 ^ 10) 13990000
    (Near.mul hn1a hdx 24 (by norm_num) (by norm_num)) (by norm_num) (by norm_num)
  have hn2a := Near.mono (137 / 10 ^ 17) (1003 / 10 ^ 3)
    (Near.mul hns1 hst2 1 (by norm_num) (by norm_num)) (by norm_num) (by norm_num)
  have hn2 := Near.mono (564 / 10 ^ 10) 13990000
    (Near.mul hn2a hdy 24 (by norm_num) (by norm_num)) (by norm_num) (by norm_num)
  have hn3 := Near.mono (449 / 10 ^ 10) 13960000
    (Near.mul hct1 hdz 24 (by norm_num) (by norm_num)) (by norm_num) (by norm_num)
  have hn12 := Near.mono (117 / 10 ^ 9) 27990000
    (Near.add hn1 hn2 25 (by norm_num) (by norm_num)) (by norm_num) (by norm_num)
  have hN := Near.mono (17 / 10 ^ 8) 41960000
    (Near.add hn12 hn3 26 (by norm_num) (by norm_num)) (by norm_num) (by norm_num)
  have he1 := Near.mono (468 / 10 ^ 10) 13960000
    (Near.mul hst2 hdx 24 (by norm_num) (by norm_num)) (by norm_num) (by norm_num)
  have he2b := Near.mono (468 / 10 ^ 10) 13960000
    (Near.mul hct2 hdy 24 (by norm_num) (by norm_num)) (by norm_num) (by norm_num)
  have hE := Near.mono (974 / 10 ^ 10) 27930000
    (Near.sub he1 he2b 25 (by norm_num) (by norm_num)) (by norm_num) (by norm_num)
  have hd1a := Near.mono (137 / 10 ^ 17) (1003 / 10 ^ 3)
    (Near.mul hnc1 hct2 1 (by norm_num) (by norm_num)) (by norm_num) (by norm_num)
  have hd1 := Near.mono (564 / 10 ^ 10) 13990000
    (Near.mul hd1a hdx 24 (by norm_num) (by norm_num)) (by norm_num) (by norm_num)
  have hd2a := Near.mono (137 / 10 ^ 17) (1003 / 10 ^ 3)
    (Near.mul hnc1 hst2 1 (by norm_num) (by norm_num)) (by norm_num) (by norm_num)
  have hd2 := Near.mono (564 / 10 ^ 10) 13990000
    (Near.mul hd2a hdy 24 (by norm_num) (by norm_num)) (by norm_num) (by norm_num)
  have hd3 := Near.mono (449 / 10 ^ 10) 13960000
    (Near.mul hns1 hdz 24 (by norm_num) (by norm_num)) (by norm_num) (by norm_num)
  have hd12 := Near.mono (117 / 10 ^ 9) 27990000
    (Near.add hd1 hd2 25 (by norm_num) (by norm_num)) (by norm_num) (by norm_num)
  have hD := Near.mono (17 / 10 ^ 8) 41960000
    (Near.add hd12 hd3 26 (by norm_num) (by norm_num)) (by norm_num) (by norm_num)
  have hX : chiAt (⟨Real.sin, Real.cos, Real.sqrt⟩ : Libm ℝ) ((latF : ℝ) * piD180)
      = Real.sqrt (1 - (ecc2 : ℝ) * Real.sin ((latF : ℝ) * piD180)
          * Real.sin ((latF : ℝ) * piD180)) := by
    simp only [chiAt]
    congr 1
    ring
  obtain ⟨n, hn, hn1, -⟩ := hN
  obtain ⟨e, he, he1, -⟩ := hE
  obtain ⟨d, hd, hd1, -⟩ := hD
  refine ⟨n, e, d, ?_, ?_, ?_, ?_⟩
  · simp only [GPS2NEDF, href, Dbl.finite]
    rw [hn, he, hd]
  · refine le_trans (le_of_eq ?_) (hn1.trans (by norm_num))
    congr 2
    simp only [nedFormulas, rotate, ecef, hX]
    ring
  · refine le_trans (le_of_eq ?_) (he1.trans (by norm_num))
    congr 2
    simp only [nedFormulas, rotate, ecef, hX]
  · refine le_trans (le_of_eq ?_) (hd1.trans (by norm_num))
    congr 2
    simp only [nedFormulas, rotate, ecef, hX]
    ring

/-! ## The libraries of the examples are accurate -/

theorem str2LatLonF_equator : str2LatLonF equatorPhi meridianLam = .ok ⟨.fin 0, .fin 0⟩ := by
  decide!

theorem radF_zero : radF 0 = some 0 := by
  decide!

theorem radF_quarter : radF 90 = some (884279719003555 / 562949953421312) := by
  decide!

theorem accurate_zero_sin (f : ℚ → Option ℚ) (h : f 0 = some 0) : accurate f Real.sin 0 :=
  ⟨0, h, by simp⟩

theorem accurate_zero_cos (f : ℚ → Option ℚ) (h : f 0 = some 1) : accurate f Real.cos 0 :=
  ⟨1, h, by simp⟩

theorem accurate_pow2 :
    ∀ t, fdiv (fl 6356752.3142) (fl 6378137.0) = some t →
      accurate (fun x => fl (x * x)) (fun x => x ^ 2) t := by
  intro t ht
  rw [ratioF_eq] at ht
  cases ht
  refine ⟨2236725410038915 / 2251799813685248, by decide!, ?_⟩
  rw [abs_le]
  constructor <;> norm_num

theorem chiArgF_equator (m : LibmF) (hs : m.sin 0 = some 0) (hp : m.pow2 = fun x => fl (x * x)) :
    chiArgF m 0 = some 1 := by
  simp only [chiArgF, radF_zero, Option.some_bind, hs, hp, ratioF_eq]
  decide!

theorem accurate_sqrt_one (f : ℚ → Option ℚ) (h : f 1 = some 1) : accurate f Real.sqrt 1 :=
  ⟨1, h, by simp⟩

theorem annexF_accurate : annexF.accurateAt 0 0 0 0 := by
  refine ⟨?_, accurate_pow2, ?_⟩
  · intro d hd t ht
    simp only [List.mem_cons, List.mem_singleton, or_self, List.not_mem_nil, or_false] at hd
    subst hd
    rw [radF_zero] at ht
    cases ht
    exact ⟨accurate_zero_sin _ rfl, accurate_zero_cos _ rfl⟩
  · intro t ht
    rw [chiArgF_equator annexF rfl rfl] at ht
    cases ht
    exact accurate_sqrt_one _ rfl

theorem quarter_turn_gap :
    0 ≤ Real.pi / 2 - ((884279719003555 / 562949953421312 : ℚ) : ℝ)
      ∧ Real.pi / 2 - ((884279719003555 / 562949953421312 : ℚ) : ℝ) ≤ 1 / 10 ^ 16 := by
  have h1 := Real.pi_gt_d20
  have h2 := Real.pi_lt_d20
  push_cast
  constructor <;> norm_num at h1 h2 ⊢ <;> linarith

theorem quarterF_accurate : quarterF.accurateAt 0 0 0 90 := by
  refine ⟨?_, accurate_pow2, ?_⟩
  · intro d hd t ht
    simp only [List.mem_cons, List.mem_singleton, List.not_mem_nil, or_false] at hd
    have hd2 : d = 0 ∨ d = 90 := by
      rcases hd with h | h | h | h
      · exact Or.inl h
      · exact Or.inl h
      · exact Or.inl h
      · exact Or.inr h
    rcases hd2 with h | h
    · subst h
      rw [radF_zero] at ht
      cases ht
      exact ⟨accurate_zero_sin _ rfl, accurate_zero_cos _ rfl⟩
    · subst h
      rw [radF_quarter] at ht
      cases ht
      obtain ⟨g0, g1⟩ := quarter_turn_gap
      have hθ : ((884279719003555 / 562949953421312 : ℚ) : ℝ)
          = Real.pi / 2 - (Real.pi / 2 - ((884279719003555 / 562949953421312 : ℚ) : ℝ)) := by
        ring
      generalize Real.pi / 2 - ((884279719003555 / 562949953421312 : ℚ) : ℝ) = δ at g0 g1 hθ
      have hu : (1 : ℝ) / 10 ^ 16 ≤ 1 / 2 ^ 52 := by norm_num
      constructor
      · refine ⟨1, by decide!, ?_⟩
        rw [hθ, Real.sin_pi_div_two_sub]
        have hc := Real.one_sub_sq_div_two_le_cos (x := δ)
        have hc1 := Real.cos_le_one δ
        have hsq : δ ^ 2 ≤ 1 / 10 ^ 16 := by nlinarith
        rw [abs_le]
        push_cast
        constructor <;> linarith
      · refine ⟨4967757600021511 / 81129638414606681695789005144064, by decide!, ?_⟩
        rw [hθ, Real.cos_pi_div_two_sub]
        have hs1 := Real.sin_le g0
        have hs0 : 0 ≤ Real.sin δ :=
          Real.sin_nonneg_of_nonneg_of_le_pi g0 (by linarith [Real.pi_gt_three])
        have hc0 : (0 : ℝ) ≤ ((4967757600021511 / 81129638414606681695789005144064 : ℚ) : ℝ) := by
          norm_num
        have hc1 : ((4967757600021511 / 81129638414606681695789005144064 : ℚ) : ℝ)
            ≤ 1 / 10 ^ 16 := by
          norm_num
        rw [abs_le]
        constructor <;> linarith
  · intro t ht
    rw [chiArgF_equator quarterF rfl rfl] at ht
    cases ht
    exact accurate_sqrt_one _ rfl

/-- A library accurate for a call is accurate for the call with the target at
the reference angles. -/
theorem accurateAt_reference (m : LibmF) (latF lonF phi lambda : ℚ)
    (h : m.accurateAt latF lonF phi lambda) : m.accurateAt latF lonF latF lonF := by
  refine ⟨?_, h.2.1, h.2.2⟩
  intro d hd t ht
  apply h.1 d _ t ht
  simp only [List.mem_cons, List.mem_singleton, List.not_mem_nil, or_false] at hd ⊢
  rcases hd with h | h | h | h
  · exact Or.inl h
  · exact Or.inr (Or.inl h)
  · exact Or.inl h
  · exact Or.inr (Or.inl h)

/-! ## Claims on `GPS2NED` in `double` arithmetic -/

/-- In exact arithmetic, how `D` depends on the target altitude. -/
theorem nedFormulas_D_step (latF lonF rH phi lambda h1 h2 : ℝ) :
    (nedFormulas (⟨Real.sin, Real.cos, Real.sqrt⟩ : Libm ℝ) (latF * piD180) (lonF * piD180)
        (rH * piD180) (phi * piD180)
        (lambda * piD180) h2).D
      - (nedFormulas (⟨Real.sin, Real.cos, Real.sqrt⟩ : Libm ℝ) (latF * piD180) (lonF * piD180)
        (rH * piD180) (phi * piD180)
        (lambda * piD180) h1).D
      = -((h2 - h1) * (Real.cos (latF * piD180) * Real.cos (phi * piD180)
              * Real.cos (lambda * piD180 - lonF * piD180)
            + Real.sin (latF * piD180) * Real.sin (phi * piD180))) := by
  have hd := nedFormulas_D_diff (⟨Real.sin, Real.cos, Real.sqrt⟩ : Libm ℝ)
    (latF * piD180) (lonF * piD180) (rH * piD180) (phi * piD180) (lambda * piD180) h1 h2
  simp only [] at hd
  rw [Real.cos_sub, hd, neg_mul]

/-- C9, amended: in `double` arithmetic, with a library accurate at the
arguments of the call, for a reference latitude and target latitude of at most
90 degrees, longitudes of at most 180 degrees and altitudes of at most `10^6`
in size: if `(h2 - h1) * F ≥ 10^-6`, where
`F = cos latRef * cos phi * cos (lambda - lonRef) + sin latRef * sin phi`
(angles times `piD180`), then both calls return finite components and `D` at
`h2` is strictly smaller than `D` at `h1`. -/
theorem altitude_monotone_with_margin (m : LibmF) (rPhi rLam : List Char) (latF lonF : ℚ)
    (href : str2LatLonF rPhi rLam = .ok ⟨.fin latF, .fin lonF⟩) (rH phi lambda h1 h2 : ℚ)
    (blat : |latF| ≤ 90) (blon : |lonF| ≤ 180) (brH : |rH| ≤ 1000000)
    (bphi : |phi| ≤ 90) (blam : |lambda| ≤ 180) (bh1 : |h1| ≤ 1000000) (bh2 : |h2| ≤ 1000000)
    (hacc : m.accurateAt latF lonF phi lambda)
    (hsep : 1 / 1000000 ≤ ((h2 : ℝ) - h1)
        * (Real.cos ((latF : ℝ) * piD180) * Real.cos ((phi : ℝ) * piD180)
              * Real.cos ((lambda : ℝ) * piD180 - (lonF : ℝ) * piD180)
            + Real.sin ((latF : ℝ) * piD180) * Real.sin ((phi : ℝ) * piD180))) :
    ∃ n1 e1 d1 n2 e2 d2 : ℚ,
      GPS2NEDF m rPhi rLam rH phi lambda h1 = .ok ⟨some n1, some e1, some d1⟩
      ∧ GPS2NEDF m rPhi rLam rH phi lambda h2 = .ok ⟨some n2, some e2, some d2⟩
      ∧ d2 < d1 := by
  obtain ⟨n1, e1, d1, g1, -, -, k1⟩ :=
    GPS2NEDF_near m rPhi rLam latF lonF href rH phi lambda h1 blat blon brH bphi blam bh1 hacc
  obtain ⟨n2, e2, d2, g2, -, -, k2⟩ :=
    GPS2NEDF_near m rPhi rLam latF lonF href rH phi lambda h2 blat blon brH bphi blam bh2 hacc
  refine ⟨n1, e1, d1, n2, e2, d2, g1, g2, ?_⟩
  have hd := nedFormulas_D_step (latF : ℝ) lonF rH phi lambda h1 h2
  rw [abs_le] at k1 k2
  have hlt : (d2 : ℝ) < (d1 : ℝ) := by
    norm_num at k1 k2 hsep
    linarith [k1.1, k1.2, k2.1, k2.2]
  exact_mod_cast hlt

/-- Witness for C9, amended: the library `annexF`, the reference on the
equator and the prime meridian, the target at the reference angles,
altitudes 0 and 1. -/
theorem altitude_monotone_with_margin_witness :
    ∃ n1 e1 d1 n2 e2 d2 : ℚ,
      GPS2NEDF annexF equatorPhi meridianLam 0 0 0 0 = .ok ⟨some n1, some e1, some d1⟩
      ∧ GPS2NEDF annexF equatorPhi meridianLam 0 0 0 1 = .ok ⟨some n2, some e2, some d2⟩
      ∧ d2 < d1 :=
  altitude_monotone_with_margin annexF equatorPhi meridianLam 0 0 str2LatLonF_equator 0 0 0 0 1
    (by norm_num) (by norm_num) (by norm_num) (by norm_num) (by norm_num) (by norm_num)
    (by norm_num) annexF_accurate (by norm_num)

/-- The cosine of the program's half turn, `180 * piD180`, is below `-1/2`. -/
theorem cos_half_turn_le : Real.cos (180 * piD180) ≤ -(1 / 2) := by
  obtain ⟨h1, h2⟩ := half_turn_bounds
  have hθ : (180 : ℝ) * piD180 = Real.pi - (Real.pi - 180 * piD180) := by ring
  have g0 : 0 ≤ Real.pi - 180 * piD180 := by linarith
  have g1 : Real.pi - 180 * piD180 ≤ 1 / 10 ^ 16 := by
    norm_num at h2 ⊢
    linarith
  rw [hθ, Real.cos_pi_sub]
  generalize Real.pi - 180 * piD180 = δ at g0 g1
  have hc := Real.one_sub_sq_div_two_le_cos (x := δ)
  have hsq : δ ^ 2 ≤ 1 / 10 ^ 16 := by nlinarith
  linarith

/-- A target on the far side, in `double` arithmetic: with the reference on
the equator and the prime meridian at altitude 0 and the target at latitude 0,
longitude 180, every library that is accurate at the arguments of the call
makes `D` at altitude 1 larger than `D` at altitude 0. -/
theorem altitude_far_side_in_double (m : LibmF) (hacc : m.accurateAt 0 0 0 180) :
    ∃ n1 e1 d1 n2 e2 d2 : ℚ,
      GPS2NEDF m equatorPhi meridianLam 0 0 180 0 = .ok ⟨some n1, some e1, some d1⟩
      ∧ GPS2NEDF m equatorPhi meridianLam 0 0 180 1 = .ok ⟨some n2, some e2, some d2⟩
      ∧ d1 < d2 := by
  obtain ⟨n1, e1, d1, g1, -, -, k1⟩ :=
    GPS2NEDF_near m equatorPhi meridianLam 0 0 str2LatLonF_equator 0 0 180 0
      (by norm_num) (by norm_num) (by norm_num) (by norm_num) (by norm_num) (by norm_num) hacc
  obtain ⟨n2, e2, d2, g2, -, -, k2⟩ :=
    GPS2NEDF_near m equatorPhi meridianLam 0 0 str2LatLonF_equator 0 0 180 1
      (by norm_num) (by norm_num) (by norm_num) (by norm_num) (by norm_num) (by norm_num) hacc
  refine ⟨n1, e1, d1, n2, e2, d2, g1, g2, ?_⟩
  have hd := nedFormulas_D_step ((0 : ℚ) : ℝ) ((0 : ℚ) : ℝ) ((0 : ℚ) : ℝ) ((0 : ℚ) : ℝ)
    ((180 : ℚ) : ℝ) ((0 : ℚ) : ℝ) ((1 : ℚ) : ℝ)
  have hc := cos_half_turn_le
  rw [abs_le] at k1 k2
  have hlt : (d1 : ℝ) < (d2 : ℝ) := by
    simp only [Rat.cast_zero, Rat.cast_one, Rat.cast_ofNat, zero_mul, Real.cos_zero,
      Real.sin_zero, mul_zero, add_zero, one_mul, sub_zero] at hd k1 k2
    norm_num at k1 k2
    linarith [k1.1, k1.2, k2.1, k2.2]
  exact_mod_cast hlt

/-- C14, counterexample: in `double` arithmetic, with the reference on the
equator and the prime meridian at altitude 0 and the target at the reference
angles, the altitudes `0` and `2^-34` give the same `D` (the sum
`6378137 + 2^-34` rounds to `6378137`), although the factor `F` is 1: `D`
does not strictly decrease, and `D(h2) - D(h1)` is `0`, not `-(h2 - h1)`. -/
theorem altitude_tie_in_double :
    GPS2NEDF annexF equatorPhi meridianLam 0 0 0 0 = .ok ⟨some 0, some 0, some 0⟩
      ∧ GPS2NEDF annexF equatorPhi meridianLam 0 0 0 (1 / 2 ^ 34) = .ok ⟨some 0, some 0, some 0⟩
      ∧ (0 : ℚ) < 1 / 2 ^ 34
      ∧ (Real.cos (((0 : ℚ) : ℝ) * piD180) * Real.cos (((0 : ℚ) : ℝ) * piD180)
              * Real.cos (((0 : ℚ) : ℝ) * piD180 - ((0 : ℚ) : ℝ) * piD180)
            + Real.sin (((0 : ℚ) : ℝ) * piD180) * Real.sin (((0 : ℚ) : ℝ) * piD180)) = 1
      ∧ annexF.accurateAt 0 0 0 0 := by
  refine ⟨by decide!, by decide!, by norm_num, by simp, annexF_accurate⟩

/-- C14, amended: in `double` arithmetic, with a library accurate at the
arguments of the call, latitudes of at most 90 degrees, longitudes of at most
180 degrees and altitudes of at most `10^6` in size, both calls return finite
components, `D(h2) - D(h1)` is within `10^-6` of
`-(h2 - h1) * F`, `D` strictly decreases when `(h2 - h1) * F ≥ 10^-6` and
strictly increases when `(h2 - h1) * F ≤ -10^-6`; and with the target at the
reference angles `N` and `E` are within `10^-6` of 0 and `D` within `10^-6`
of `-(h - rH * piD180)`. -/
theorem altitude_closed_form_within_tolerance (m : LibmF) (rPhi rLam : List Char)
    (latF lonF : ℚ) (href : str2LatLonF rPhi rLam = .ok ⟨.fin latF, .fin lonF⟩)
    (rH phi lambda h1 h2 : ℚ)
    (blat : |latF| ≤ 90) (blon : |lonF| ≤ 180) (brH : |rH| ≤ 1000000)
    (bphi : |phi| ≤ 90) (blam : |lambda| ≤ 180) (bh1 : |h1| ≤ 1000000) (bh2 : |h2| ≤ 1000000)
    (hacc : m.accurateAt latF lonF phi lambda) :
    (∃ n1 e1 d1 n2 e2 d2 : ℚ,
      GPS2NEDF m rPhi rLam rH phi lambda h1 = .ok ⟨some n1, some e1, some d1⟩
      ∧ GPS2NEDF m rPhi rLam rH phi lambda h2 = .ok ⟨some n2, some e2, some d2⟩
      ∧ |((d2 : ℝ) - d1) + ((h2 : ℝ) - h1)
        * (Real.cos ((latF : ℝ) * piD180) * Real.cos ((phi : ℝ) * piD180)
              * Real.cos ((lambda : ℝ) * piD180 - (lonF : ℝ) * piD180)
            + Real.sin ((latF : ℝ) * piD180) * Real.sin ((phi : ℝ) * piD180))| ≤ 1 / 1000000
      ∧ (1 / 1000000 ≤ ((h2 : ℝ) - h1)
        * (Real.cos ((latF : ℝ) * piD180) * Real.cos ((phi : ℝ) * piD180)
              * Real.cos ((lambda : ℝ) * piD180 - (lonF : ℝ) * piD180)
            + Real.sin ((latF : ℝ) * piD180) * Real.sin ((phi : ℝ) * piD180)) → d2 < d1)
      ∧ (((h2 : ℝ) - h1)
        * (Real.cos ((latF : ℝ) * piD180) * Real.cos ((phi : ℝ) * piD180)
              * Real.cos ((lambda : ℝ) * piD180 - (lonF : ℝ) * piD180)
            + Real.sin ((latF : ℝ) * piD180) * Real.sin ((phi : ℝ) * piD180)) ≤ -(1 / 1000000) → d1 < d2))
    ∧ (∃ n e d : ℚ,
      GPS2NEDF m rPhi rLam rH latF lonF h1 = .ok ⟨some n, some e, some d⟩
      ∧ |(n : ℝ)| ≤ 1 / 1000000 ∧ |(e : ℝ)| ≤ 1 / 1000000
      ∧ |(d : ℝ) + ((h1 : ℝ) - rH * piD180)| ≤ 1 / 1000000) := by
  constructor
  · obtain ⟨n1, e1, d1, g1, -, -, k1⟩ :=
      GPS2NEDF_near m rPhi rLam latF lonF href rH phi lambda h1 blat blon brH bphi blam bh1 hacc
    obtain ⟨n2, e2, d2, g2, -, -, k2⟩ :=
      GPS2NEDF_near m rPhi rLam latF lonF href rH phi lambda h2 blat blon brH bphi blam bh2 hacc
    refine ⟨n1, e1, d1, n2, e2, d2, g1, g2, ?_, ?_, ?_⟩
    · have hd := nedFormulas_D_step (latF : ℝ) lonF rH phi lambda h1 h2
      rw [abs_le] at k1 k2 ⊢
      norm_num at k1 k2 ⊢
      constructor <;> linarith [k1.1, k1.2, k2.1, k2.2]
    · intro hsep
      have hd := nedFormulas_D_step (latF : ℝ) lonF rH phi lambda h1 h2
      rw [abs_le] at k1 k2
      have hlt : (d2 : ℝ) < (d1 : ℝ) := by
        norm_num at k1 k2 hsep
        linarith [k1.1, k1.2, k2.1, k2.2]
      exact_mod_cast hlt
    · intro hsep
      have hd := nedFormulas_D_step (latF : ℝ) lonF rH phi lambda h1 h2
      rw [abs_le] at k1 k2
      have hlt : (d1 : ℝ) < (d2 : ℝ) := by
        norm_num at k1 k2 hsep
        linarith [k1.1, k1.2, k2.1, k2.2]
      exact_mod_cast hlt
  · obtain ⟨n, e, d, g, kn, ke, kd⟩ :=
      GPS2NEDF_near m rPhi rLam latF lonF href rH latF lonF h1 blat blon brH blat blon bh1
        (accurateAt_reference m latF lonF phi lambda hacc)
    rw [nedFormulas_at_reference _ real_pythagoras] at kn ke kd
    simp only [sub_zero] at kn ke
    refine ⟨n, e, d, g, kn.trans (by norm_num), ke.trans (by norm_num), ?_⟩
    rw [sub_neg_eq_add] at kd
    exact kd.trans (by norm_num)

/-- Witness for C14, amended: the library `annexF`, the reference on the
equator and the prime meridian at altitude 100, the target at the reference
angles, altitudes 0 and 250. -/
theorem altitude_closed_form_within_tolerance_witness :
    (∃ n1 e1 d1 n2 e2 d2 : ℚ,
      GPS2NEDF annexF equatorPhi meridianLam 100 0 0 0 = .ok ⟨some n1, some e1, some d1⟩
      ∧ GPS2NEDF annexF equatorPhi meridianLam 100 0 0 250 = .ok ⟨some n2, some e2, some d2⟩
      ∧ |((d2 : ℝ) - d1) + (((250 : ℚ) : ℝ) - ((0 : ℚ) : ℝ))
        * (Real.cos (((0 : ℚ) : ℝ) * piD180) * Real.cos (((0 : ℚ) : ℝ) * piD180)
              * Real.cos (((0 : ℚ) : ℝ) * piD180 - ((0 : ℚ) : ℝ) * piD180)
            + Real.sin (((0 : ℚ) : ℝ) * piD180) * Real.sin (((0 : ℚ) : ℝ) * piD180))| ≤ 1 / 1000000
      ∧ (1 / 1000000 ≤ (((250 : ℚ) : ℝ) - ((0 : ℚ) : ℝ))
        * (Real.cos (((0 : ℚ) : ℝ) * piD180) * Real.cos (((0 : ℚ) : ℝ) * piD180)
              * Real.cos (((0 : ℚ) : ℝ) * piD180 - ((0 : ℚ) : ℝ) * piD180)
            + Real.sin (((0 : ℚ) : ℝ) * piD180) * Real.sin (((0 : ℚ) : ℝ) * piD180)) → d2 < d1)
      ∧ ((((250 : ℚ) : ℝ) - ((0 : ℚ) : ℝ))
        * (Real.cos (((0 : ℚ) : ℝ) * piD180) * Real.cos (((0 : ℚ) : ℝ) * piD180)
              * Real.cos (((0 : ℚ) : ℝ) * piD180 - ((0 : ℚ) : ℝ) * piD180)
            + Real.sin (((0 : ℚ) : ℝ) * piD180) * Real.sin (((0 : ℚ) : ℝ) * piD180))
          ≤ -(1 / 1000000) → d1 < d2))
    ∧ (∃ n e d : ℚ,
      GPS2NEDF annexF equatorPhi meridianLam 100 0 0 0 = .ok ⟨some n, some e, some d⟩
      ∧ |(n : ℝ)| ≤ 1 / 1000000 ∧ |(e : ℝ)| ≤ 1 / 1000000
      ∧ |(d : ℝ) + ((((0 : ℚ) : ℝ)) - ((100 : ℚ) : ℝ) * piD180)| ≤ 1 / 1000000) :=
  altitude_closed_form_within_tolerance annexF equatorPhi meridianLam 0 0 str2LatLonF_equator
    100 0 0 0 250 (by norm_num) (by norm_num) (by norm_num) (by norm_num) (by norm_num)
    (by norm_num) (by norm_num) annexF_accurate

theorem radF_tiny : radF (1 / 2 ^ 1074) = some 0 := by
  decide!

theorem annexF_accurate_tiny : annexF.accurateAt 0 0 0 (1 / 2 ^ 1074) := by
  refine ⟨?_, accurate_pow2, ?_⟩
  · intro d hd t ht
    simp only [List.mem_cons, List.mem_singleton, List.not_mem_nil, or_false] at hd
    have ht0 : t = 0 := by
      rcases hd with h | h | h | h
      · subst h
        rw [radF_zero] at ht
        exact (Option.some.inj ht).symm
      · subst h
        rw [radF_zero] at ht
        exact (Option.some.inj ht).symm
      · subst h
        rw [radF_zero] at ht
        exact (Option.some.inj ht).symm
      · subst h
        rw [radF_tiny] at ht
        exact (Option.some.inj ht).symm
    subst ht0
    exact ⟨accurate_zero_sin _ rfl, accurate_zero_cos _ rfl⟩
  · intro t ht
    rw [chiArgF_equator annexF rfl rfl] at ht
    cases ht
    exact accurate_sqrt_one _ rfl

/-- C15, counterexample: in `double` arithmetic, with the reference on the
equator and the prime meridian, a target at latitude 0, altitude 100 and
longitude `2^-1074` degrees (so `0 < lambda - lonRef < 180`) has `E = 0`,
not `E < 0`: the product `lambda * piD180` rounds to 0. -/
theorem east_zero_in_double :
    GPS2NEDF annexF equatorPhi meridianLam 0 0 (1 / 2 ^ 1074) 100
        = .ok ⟨some 0, some 0, some (-100)⟩
      ∧ (0 : ℚ) < 1 / 2 ^ 1074 - 0 ∧ (1 / 2 ^ 1074 : ℚ) - 0 < 180
      ∧ annexF.accurateAt 0 0 0 (1 / 2 ^ 1074) := by
  refine ⟨by decide!, by norm_num, by norm_num, annexF_accurate_tiny⟩

/-- C15, amended: in `double` arithmetic, with a library accurate at the
arguments of the call, latitudes of at most 90 degrees, longitudes of at most
180 degrees and altitudes of at most `10^6` in size, the call returns finite
components and `E` is within `10^-6` of
`(a / chi + h) * cos phi * sin (lonRef - lambda)` (angles times `piD180`), in
which the reference altitude does not occur; and for `h ≥ 0`, a target
latitude of at most 89 degrees in size and `0.001 ≤ lambda - lonRef ≤ 179.999`
degrees, `E ≤ -1/2`. -/
theorem east_closed_form_within_tolerance (m : LibmF) (rPhi rLam : List Char)
    (latF lonF : ℚ) (href : str2LatLonF rPhi rLam = .ok ⟨.fin latF, .fin lonF⟩)
    (rH phi lambda h : ℚ)
    (blat : |latF| ≤ 90) (blon : |lonF| ≤ 180) (brH : |rH| ≤ 1000000)
    (bphi : |phi| ≤ 90) (blam : |lambda| ≤ 180) (bh : |h| ≤ 1000000)
    (hacc : m.accurateAt latF lonF phi lambda) :
    ∃ n e d : ℚ,
      GPS2NEDF m rPhi rLam rH phi lambda h = .ok ⟨some n, some e, some d⟩
      ∧ |(e : ℝ) - (semiMajor / chiAt (⟨Real.sin, Real.cos, Real.sqrt⟩ : Libm ℝ)
                ((latF : ℝ) * piD180) + (h : ℝ))
            * Real.cos ((phi : ℝ) * piD180)
            * Real.sin ((lonF : ℝ) * piD180 - (lambda : ℝ) * piD180)| ≤ 1 / 1000000
      ∧ (0 ≤ h → |phi| ≤ 89 → 1 / 1000 ≤ lambda - lonF → lambda - lonF ≤ 179999 / 1000 →
          e ≤ -(1 / 2)) := by
  obtain ⟨n, e, d, g, -, ke, -⟩ :=
    GPS2NEDF_near m rPhi rLam latF lonF href rH phi lambda h blat blon brH bphi blam bh hacc
  obtain ⟨hE, hreg⟩ := nedFormulas_E_region (latF : ℝ) lonF ((rH : ℝ) * piD180) phi lambda h
  rw [hE] at ke
  refine ⟨n, e, d, g, ke.trans (by norm_num), ?_⟩
  intro hh hphi hl1 hl2
  have hh' : (0 : ℝ) ≤ h := by exact_mod_cast hh
  have hphi' : |(phi : ℝ)| ≤ 89 := by simpa using ratCast_abs_le phi 89 hphi
  have hl1' : (1 : ℝ) / 1000 ≤ (lambda : ℝ) - lonF := by
    have := (Rat.cast_le (K := ℝ)).mpr hl1
    simpa using this
  have hl2' : (lambda : ℝ) - lonF ≤ 179999 / 1000 := by
    have := (Rat.cast_le (K := ℝ)).mpr hl2
    simpa using this
  have hneg := hreg hh' hphi' hl1' hl2'
  rw [hE] at hneg
  rw [abs_le] at ke
  have hle : (e : ℝ) ≤ -(1 / 2) := by
    norm_num at ke hneg ⊢
    linarith [ke.1, ke.2]
  have : (e : ℝ) ≤ ((-(1 / 2) : ℚ) : ℝ) := by
    push_cast
    exact hle
  exact_mod_cast this

/-- Witness for C15, amended: the library `quarterF`, the reference on the
equator and the prime meridian, the target at latitude 0, longitude 90,
altitude 100: `E ≤ -1/2`. -/
theorem east_closed_form_within_tolerance_witness :
    ∃ n e d : ℚ,
      GPS2NEDF quarterF equatorPhi meridianLam 0 0 90 100 = .ok ⟨some n, some e, some d⟩
      ∧ |(e : ℝ) - (semiMajor / chiAt (⟨Real.sin, Real.cos, Real.sqrt⟩ : Libm ℝ)
                (((0 : ℚ) : ℝ) * piD180) + ((100 : ℚ) : ℝ))
            * Real.cos (((0 : ℚ) : ℝ) * piD180)
            * Real.sin (((0 : ℚ) : ℝ) * piD180 - ((90 : ℚ) : ℝ) * piD180)| ≤ 1 / 1000000
      ∧ e ≤ -(1 / 2) := by
  obtain ⟨n, e, d, g, h1, h2⟩ :=
    east_closed_form_within_tolerance quarterF equatorPhi meridianLam 0 0 str2LatLonF_equator
      0 0 90 100 (by norm_num) (by norm_num) (by norm_num) (by norm_num) (by norm_num)
      (by norm_num) quarterF_accurate
  exact ⟨n, e, d, g, h1, h2 (by norm_num) (by norm_num) (by norm_num) (by norm_num)⟩

end Gps2Ned
